import Mathlib

/-!
# Verification development for `coffee-realist/balancer`

A shallow embedding of the load-balancer family, the proxy dispatcher, the
rate-limit middleware and the token-bucket limiter, followed by theorems about
them.

Conventions of the embedding

* A Go value with mutable fields becomes a Lean structure; a method that
  mutates its receiver returns the new receiver next to its result.
* `uint64` / `int64` fields are `Nat` / `Int` with explicit wrap-around.
* A Go `map[string]T` is a function `String → Option T` (`none`: key absent).
* A run-time panic (nil dereference, index out of range) is `none` in an
  `Option` result.
* Sequential executions only: every method body is one atomic step.
-/

namespace LB

/-! ## internal/balancer/round_robin -/

/-- The struct `rrBalancer`: the backend list and the `uint64` call index. -/
structure rrBalancer where
  servers : List String
  idx : Nat
deriving Repr

/-- Go `NewRoundRobinBalancer`: copies the list, the index starts at zero. -/
def NewRoundRobinBalancer (servers : List String) : rrBalancer :=
  ⟨servers, 0⟩

/-- Go `rrBalancer.Next`: `""` on an empty list, otherwise
`atomic.AddUint64(&r.idx, 1)` (wrapping at `2^64`) and the server at the new
index modulo the list length. -/
def rrBalancer.Next (r : rrBalancer) : String × rrBalancer :=
  if h : r.servers.length = 0 then
    ("", r)
  else
    let i := (r.idx + 1) % 2 ^ 64
    (r.servers.get ⟨i % r.servers.length, Nat.mod_lt _ (Nat.pos_of_ne_zero h)⟩,
      ⟨r.servers, i⟩)

/-- The balancer after `k` sequential calls of `Next`. -/
def rrBalancer.after : Nat → rrBalancer → rrBalancer
  | 0, r => r
  | k + 1, r => (rrBalancer.after k r).Next.2

/-- The result of the `k`-th sequential call of `Next` (`k` counted from 1). -/
def rrBalancer.nthNext (k : Nat) (r : rrBalancer) : String :=
  (rrBalancer.after (k - 1) r).Next.1

/-- The results of the first `k` sequential calls of `Next`, in call order. -/
def rrBalancer.calls (k : Nat) (r : rrBalancer) : List String :=
  (List.range k).map fun j => rrBalancer.nthNext (j + 1) r

/-! ## Machine integers -/

/-- The value an `int64` holds after an arithmetic result `x` (two's-complement
wrap-around). -/
def wrapInt64 (x : Int) : Int :=
  (x + 2 ^ 63) % 2 ^ 64 - 2 ^ 63

/-! ## internal/balancer: the capability interfaces -/

/-- The interface `balancer.Balancer` for an implementation with state `σ`:
`Next` returns the chosen server and the implementation's new state, or `none`
when the call panics. -/
class Balancer (σ : Type) where
  Next : σ → Option (String × σ)

/-- The interface `balancer.ConnAware`. -/
class ConnAware (σ : Type) where
  Increase : σ → String → σ
  Decrease : σ → String → σ

/-! ## internal/balancer/least_conn -/

/-- The struct `lcBalancer`: the backend list and the map from server to its
`int64` connection counter. -/
structure lcBalancer where
  servers : List String
  counts : String → Option Int

/-- Go `NewLeastConnBalancer`: one zero counter per listed server. -/
def NewLeastConnBalancer (servers : List String) : lcBalancer :=
  ⟨servers, fun s => if s ∈ servers then some 0 else none⟩

/-- The loop of `lcBalancer.Next` over the remaining servers, with the current
values of `mn` and `best`. Loading through an absent map entry is a nil
dereference. -/
def lcBalancer.scan (counts : String → Option Int) : List String → Int → String → Option String
  | [], _, best => some best
  | s :: rest, mn, best =>
    match counts s with
    | none => none
    | some cnt =>
      if mn < 0 ∨ cnt < mn then lcBalancer.scan counts rest cnt s
      else lcBalancer.scan counts rest mn best

/-- Go `lcBalancer.Next`: the scan started with `best = ""` and `mn = -1`. -/
def lcBalancer.Next (l : lcBalancer) : Option String :=
  lcBalancer.scan l.counts l.servers (-1) ""

/-- Go `lcBalancer.Increase`: `atomic.AddInt64(ptr, 1)` when the server has a
counter, nothing otherwise. -/
def lcBalancer.Increase (l : lcBalancer) (server : String) : lcBalancer :=
  match l.counts server with
  | some c => ⟨l.servers, fun s => if s = server then some (wrapInt64 (c + 1)) else l.counts s⟩
  | none => l

/-- Go `lcBalancer.Decrease`: `atomic.AddInt64(ptr, -1)` when the server has a
counter, nothing otherwise. -/
def lcBalancer.Decrease (l : lcBalancer) (server : String) : lcBalancer :=
  match l.counts server with
  | some c => ⟨l.servers, fun s => if s = server then some (wrapInt64 (c - 1)) else l.counts s⟩
  | none => l

/-! ## internal/balancer/p2c -/

/-- The generator `*rand.Rand`, as the sequence of raw values it will produce
and the number of values already drawn. -/
structure Rand where
  src : Nat → Nat
  pos : Nat

/-- Go `rand.Intn(n)` for `n > 0` (the only use here has `n ≥ 2`): the next raw
value reduced into `[0, n)`, and the advanced generator. Every sequence of
in-range outcomes arises from some `src`. -/
def Rand.Intn (g : Rand) (n : Nat) : Nat × Rand :=
  (g.src g.pos % n, ⟨g.src, g.pos + 1⟩)

/-- The struct `p2cBalancer`: backend list, connection counters, generator,
health map and whether the channel `stopHealth` has been closed. -/
structure p2cBalancer where
  servers : List String
  counts : String → Option Int
  rand : Rand
  health : String → Option Bool
  stopHealthClosed : Bool

/-- Go `NewP2CBalancer` with a generator seeded as `seed` (the source seeds it
from the clock): zero counters and every listed server healthy. The health
checker it starts is a separate task and not part of this state. -/
def NewP2CBalancer (servers : List String) (seed : Rand) : p2cBalancer :=
  ⟨servers, fun s => if s ∈ servers then some 0 else none, seed,
    fun s => if s ∈ servers then some true else none, false⟩

/-- Go `p2cBalancer.getHealthyServers`: the listed servers whose health entry is
true, in list order (an absent entry reads as false). -/
def p2cBalancer.getHealthyServers (b : p2cBalancer) : List String :=
  b.servers.filter fun s => (b.health s).getD false

/-- The pair of candidate indices drawn by `p2cBalancer.Next` among `n` healthy
servers: two draws, and one redraw of the second when they coincide. -/
def p2cBalancer.pick (g : Rand) (n : Nat) : Nat × Nat × Rand :=
  let r1 := g.Intn n
  let r2 := r1.2.Intn n
  if r1.1 = r2.1 then
    let r3 := r2.2.Intn n
    (r1.1, r3.1, r3.2)
  else
    (r1.1, r2.1, r2.2)

/-- Go `p2cBalancer.Next`. -/
def p2cBalancer.Next (b : p2cBalancer) : Option (String × p2cBalancer) :=
  let healthy := b.getHealthyServers
  let n := healthy.length
  if n = 0 then
    some ("", b)
  else if n = 1 then
    (healthy.get? 0).map fun s => (s, b)
  else
    let p := p2cBalancer.pick b.rand n
    let b1 : p2cBalancer := ⟨b.servers, b.counts, p.2.2, b.health, b.stopHealthClosed⟩
    match healthy.get? p.1, healthy.get? p.2.1 with
    | some s1, some s2 =>
      match b.counts s1, b.counts s2 with
      | some c1, some c2 => if c1 ≤ c2 then some (s1, b1) else some (s2, b1)
      | _, _ => none
    | _, _ => none

/-- Go `p2cBalancer.Increase`. -/
def p2cBalancer.Increase (b : p2cBalancer) (server : String) : p2cBalancer :=
  if server = "" then b
  else
    match b.counts server with
    | some c =>
      ⟨b.servers, fun s => if s = server then some (wrapInt64 (c + 1)) else b.counts s,
        b.rand, b.health, b.stopHealthClosed⟩
    | none => b

/-- Go `p2cBalancer.Decrease`. -/
def p2cBalancer.Decrease (b : p2cBalancer) (server : String) : p2cBalancer :=
  if server = "" then b
  else
    match b.counts server with
    | some c =>
      ⟨b.servers, fun s => if s = server then some (wrapInt64 (c - 1)) else b.counts s,
        b.rand, b.health, b.stopHealthClosed⟩
    | none => b

instance : Balancer rrBalancer := ⟨fun r => some r.Next⟩

instance : Balancer lcBalancer := ⟨fun l => l.Next.map fun s => (s, l)⟩

instance : ConnAware lcBalancer := ⟨lcBalancer.Increase, lcBalancer.Decrease⟩

instance : Balancer p2cBalancer := ⟨p2cBalancer.Next⟩

instance : ConnAware p2cBalancer := ⟨p2cBalancer.Increase, p2cBalancer.Decrease⟩

/-! ## internal/balancer/adapter -/

/-- The struct `AdaptiveBalancer` over children of types `R`, `L`, `P` (held
through interfaces in the source), the two thresholds and the `int64` in-flight
counter `active`. -/
structure AdaptiveBalancer (R L P : Type) where
  rr : R
  lc : L
  p2c : P
  lowThresh : Int
  highThresh : Int
  active : Int

/-- Go `NewAdaptiveBalancer`. -/
def NewAdaptiveBalancer {R L P : Type} (rr : R) (lc : L) (p2c : P) (low high : Int) :
    AdaptiveBalancer R L P :=
  ⟨rr, lc, p2c, low, high, 0⟩

/-- The `switch` of `AdaptiveBalancer.Next`: the chosen child's `Next`, with
the child's new state stored back. -/
def AdaptiveBalancer.choose {R L P : Type} [Balancer R] [Balancer L] [Balancer P]
    (a : AdaptiveBalancer R L P) : Option (String × AdaptiveBalancer R L P) :=
  let cur := a.active
  if cur < a.lowThresh then
    (Balancer.Next a.rr).map fun x => (x.1, ⟨x.2, a.lc, a.p2c, a.lowThresh, a.highThresh, a.active⟩)
  else if cur < a.highThresh then
    (Balancer.Next a.p2c).map fun x => (x.1, ⟨a.rr, a.lc, x.2, a.lowThresh, a.highThresh, a.active⟩)
  else
    (Balancer.Next a.lc).map fun x => (x.1, ⟨a.rr, x.2, a.p2c, a.lowThresh, a.highThresh, a.active⟩)

/-- Go `AdaptiveBalancer.Next`: the switch, then `atomic.AddInt64(&a.active, 1)`. -/
def AdaptiveBalancer.Next {R L P : Type} [Balancer R] [Balancer L] [Balancer P]
    (a : AdaptiveBalancer R L P) : Option (String × AdaptiveBalancer R L P) :=
  (a.choose).map fun x =>
    (x.1, ⟨x.2.rr, x.2.lc, x.2.p2c, x.2.lowThresh, x.2.highThresh, wrapInt64 (x.2.active + 1)⟩)

/-- Go `AdaptiveBalancer.Done`: `atomic.AddInt64(&a.active, -1)`. -/
def AdaptiveBalancer.Done {R L P : Type} (a : AdaptiveBalancer R L P) : AdaptiveBalancer R L P :=
  ⟨a.rr, a.lc, a.p2c, a.lowThresh, a.highThresh, wrapInt64 (a.active - 1)⟩

/-- Go `AdaptiveBalancer.Increase`: forwarded to the P2C child, then to the
least-connections child. -/
def AdaptiveBalancer.Increase {R L P : Type} [ConnAware L] [ConnAware P]
    (a : AdaptiveBalancer R L P) (server : String) : AdaptiveBalancer R L P :=
  ⟨a.rr, ConnAware.Increase a.lc server, ConnAware.Increase a.p2c server,
    a.lowThresh, a.highThresh, a.active⟩

/-- Go `AdaptiveBalancer.Decrease`: forwarded to the P2C child, then to the
least-connections child. -/
def AdaptiveBalancer.Decrease {R L P : Type} [ConnAware L] [ConnAware P]
    (a : AdaptiveBalancer R L P) (server : String) : AdaptiveBalancer R L P :=
  ⟨a.rr, ConnAware.Decrease a.lc server, ConnAware.Decrease a.p2c server,
    a.lowThresh, a.highThresh, a.active⟩

instance {R L P : Type} [Balancer R] [Balancer L] [Balancer P] :
    Balancer (AdaptiveBalancer R L P) := ⟨AdaptiveBalancer.Next⟩

instance {R L P : Type} [ConnAware L] [ConnAware P] :
    ConnAware (AdaptiveBalancer R L P) := ⟨AdaptiveBalancer.Increase, AdaptiveBalancer.Decrease⟩

/-- The stub children of `adapter_test.go`: `stubRR`, `stubLC`, `stubP2C`, each
returning its fixed server; the connection-aware ones count calls. -/
structure stubRR where
  srv : String

/-- The `stubLC` of `adapter_test.go` (`stubP2C` is an alias of it). -/
structure stubLC where
  srv : String
  cnt : Int

instance : Balancer stubRR := ⟨fun s => some (s.srv, s)⟩

instance : Balancer stubLC := ⟨fun s => some (s.srv, s)⟩

instance : ConnAware stubLC :=
  ⟨fun s _ => ⟨s.srv, wrapInt64 (s.cnt + 1)⟩, fun s _ => ⟨s.srv, wrapInt64 (s.cnt - 1)⟩⟩

/-! ## HTTP vocabulary shared by the proxy, the middleware and the admin API -/

/-- The parts of `*http.Request` that the handlers read. `header k` is
`r.Header.Get(k)`: the empty string when the header is absent. -/
structure Request where
  method : String
  url : String
  remoteAddr : String
  header : String → String

/-- What a handler leaves on the `http.ResponseWriter`. -/
inductive Response where
  /-- A call `http.Error(w, msg, code)`: status `code`, and `msg` sent as the
  plain-text body (the library ends it with a newline) -/
  | error (msg : String) (code : Nat)
  /-- The backend reply copied by `httputil.ReverseProxy` -/
  | upstream (status : Nat) (body : String)
  /-- The handler panicked (`http.ErrAbortHandler`) before completing a reply -/
  | aborted
deriving DecidableEq, Repr

/-! ## internal/proxy -/

/-- Outcome of `p.transport.RoundTrip` inside `ReverseProxy.ServeHTTP`: a
backend reply, a transport error (handed to `ErrorHandler`), or a reply whose
copy to the client aborts the handler by a panic. -/
inductive Upstream where
  | reply (status : Nat) (body : String)
  | transportError
  | abort
deriving DecidableEq, Repr

/-- The collaborators of one proxied request: `url.Parse` (scheme and host of
the target, `none` on a parse error) and the transport. -/
structure ProxyEnv where
  parse : String → Option (String × String)
  roundTrip : String × String → Request → Upstream

/-- The calls that `Proxy.Handler` makes, in program order. -/
inductive ProxyEvent where
  | next
  | increase (server : String)
  | decrease (server : String)
  | infof (format : String)
  | errorf (format : String)
  | forward (scheme host : String)
  | write (r : Response)
deriving DecidableEq, Repr

/-- The struct `Proxy` over a balancer with state `σ`. `connAware` is the
outcome of the type assertion `p.balancer.(balancer.ConnAware)`. -/
structure Proxy (σ : Type) where
  balancer : σ
  connAware : Option (ConnAware σ)

/-- The part of the handler of `Proxy.Handler` after the `defer`: log, parse
the target, build the `ReverseProxy` and serve. Returns the reply and the
calls made. -/
def Proxy.forward (env : ProxyEnv) (server : String) (r : Request) :
    Response × List ProxyEvent :=
  match env.parse server with
  | none =>
    (Response.error "bad server URL" 500,
      [ProxyEvent.infof "proxying %s %s -> %s", ProxyEvent.errorf "invalid server URL %q: %v",
        ProxyEvent.write (Response.error "bad server URL" 500)])
  | some target =>
    match env.roundTrip target r with
    | Upstream.transportError =>
      (Response.error "bad gateway" 502,
        [ProxyEvent.infof "proxying %s %s -> %s", ProxyEvent.forward target.1 target.2,
          ProxyEvent.errorf "server %s error: %v",
          ProxyEvent.write (Response.error "bad gateway" 502)])
    | Upstream.reply status body =>
      (Response.upstream status body,
        [ProxyEvent.infof "proxying %s %s -> %s", ProxyEvent.forward target.1 target.2,
          ProxyEvent.write (Response.upstream status body)])
    | Upstream.abort =>
      (Response.aborted,
        [ProxyEvent.infof "proxying %s %s -> %s", ProxyEvent.forward target.1 target.2])

/-- The handler returned by `Proxy.Handler`, for one request: the reply, the
calls made in order, and the proxy with its balancer's new state; `none` when
`Next` panics. The deferred `Decrease` runs when the handler function exits,
on every path out of `Proxy.forward`. -/
def Proxy.Handler {σ : Type} [Balancer σ] (p : Proxy σ) (env : ProxyEnv) (r : Request) :
    Option (Response × List ProxyEvent × Proxy σ) :=
  match Balancer.Next p.balancer with
  | none => none
  | some (server, bal1) =>
    if server = "" then
      some (Response.error "no servers available" 503,
        [ProxyEvent.next, ProxyEvent.write (Response.error "no servers available" 503)],
        ⟨bal1, p.connAware⟩)
    else
      match p.connAware with
      | some ca =>
        let bal2 := ca.Increase bal1 server
        let out := Proxy.forward env server r
        let bal3 := ca.Decrease bal2 server
        some (out.1,
          [ProxyEvent.next, ProxyEvent.increase server] ++ out.2 ++ [ProxyEvent.decrease server],
          ⟨bal3, p.connAware⟩)
      | none =>
        let out := Proxy.forward env server r
        some (out.1, [ProxyEvent.next] ++ out.2, ⟨bal1, p.connAware⟩)

/-! ## internal/server: the rate-limit middleware -/

/-- The interface `ratelimiter.RateLimiter` for an implementation with state
`σ` (`Stop` is not used by the middleware). -/
class RateLimiter (σ : Type) where
  Allow : σ → String → Bool × σ

/-- The states of the three collaborators of `rateLimitMiddleware`: the
global limiter, the per-client limiter and the wrapped handler. -/
structure MiddlewareState (G C N : Type) where
  globalRL : G
  clientRL : C
  next : N

/-- The handler returned by `rateLimitMiddleware` around a wrapped handler
`serve`, for one request: the reply, the `log.Errorf` formats emitted and the
collaborators' new states. -/
def rateLimitMiddleware {G C N : Type} [RateLimiter G] [RateLimiter C]
    (serve : N → Request → Response × N) (s : MiddlewareState G C N) (r : Request) :
    Response × List String × MiddlewareState G C N :=
  let g := RateLimiter.Allow s.globalRL r.remoteAddr
  if g.1 = false then
    (Response.error "\x7b\"code\":429,\"message\":\"rate limit exceeded\"\x7d" 429,
      ["rate limit exceeded: %s"], ⟨g.2, s.clientRL, s.next⟩)
  else
    let apiKey := r.header "X-API-Key"
    if apiKey ≠ "" then
      let c := RateLimiter.Allow s.clientRL apiKey
      if c.1 = false then
        (Response.error "\x7b\"code\":429,\"message\":\"client rate limit exceeded\"\x7d" 429,
          ["rate limit exceeded: %s"], ⟨g.2, c.2, s.next⟩)
      else
        let n := serve s.next r
        (n.1, [], ⟨g.2, c.2, n.2⟩)
    else
      let n := serve s.next r
      (n.1, [], ⟨g.2, s.clientRL, n.2⟩)

/-! ## float64

The Go type `float64` (IEEE 754 binary64) with its default rounding, to
nearest with ties to even. A finite value is the rational it denotes; the two
zeros are identified, which no operation used here can tell apart. -/

/-- A `float64` value. `fin q` is meaningful when `q` is representable
(`IsF64 q`); every operation below returns representable values. -/
inductive F64 where
  | nan
  | ninf
  | pinf
  | fin (q : ℚ)
deriving DecidableEq

/-- The finite binary64 values: `m * 2^e` with a significand below `2^53` and
an exponent from `-1074` (subnormals) to `971`. -/
def IsF64 (q : ℚ) : Prop :=
  ∃ m e : Int, |m| < 2 ^ 53 ∧ -1074 ≤ e ∧ e ≤ 971 ∧ q = m * (2 : ℚ) ^ e

/-- The values a `float64` variable can hold: `NaN`, the infinities and the
representable rationals. -/
def F64.Valid : F64 → Prop
  | F64.fin q => IsF64 q
  | _ => True

/-- Rounding of a non-negative rational to an integer, to nearest, a tie going
to the even neighbour. -/
def rne (x : ℚ) : Int :=
  if x - ⌊x⌋ < 1 / 2 then ⌊x⌋
  else if 1 / 2 < x - ⌊x⌋ then ⌊x⌋ + 1
  else if ⌊x⌋ % 2 = 0 then ⌊x⌋
  else ⌊x⌋ + 1

/-- The exponent of the unit in the last place at magnitude `a > 0`: 52 below
the binary exponent of `a`, but not below the subnormal exponent `-1074`. -/
def quantum (a : ℚ) : Int :=
  max (Int.log 2 a - 52) (-1074)

/-- The `float64` nearest to the exact result `q` (ties to even); a rounded
magnitude of `2^1024` or more overflows to an infinity. -/
def F64.round (q : ℚ) : F64 :=
  if q = 0 then F64.fin 0
  else if (2 : ℚ) ^ (1024 : Int) ≤ rne (|q| / (2 : ℚ) ^ quantum |q|) * (2 : ℚ) ^ quantum |q| then
    if q < 0 then F64.ninf else F64.pinf
  else if q < 0 then F64.fin (-(rne (|q| / (2 : ℚ) ^ quantum |q|) * (2 : ℚ) ^ quantum |q|))
  else F64.fin (rne (|q| / (2 : ℚ) ^ quantum |q|) * (2 : ℚ) ^ quantum |q|)

/-- Conversion `float64(n)` of an integer. -/
def F64.ofInt (n : Int) : F64 :=
  F64.round n

/-- Negation. -/
def F64.neg : F64 → F64
  | F64.nan => F64.nan
  | F64.ninf => F64.pinf
  | F64.pinf => F64.ninf
  | F64.fin q => F64.fin (-q)

/-- Addition `x + y`. -/
def F64.add : F64 → F64 → F64
  | F64.fin x, F64.fin y => F64.round (x + y)
  | F64.nan, _ => F64.nan
  | _, F64.nan => F64.nan
  | F64.pinf, F64.ninf => F64.nan
  | F64.ninf, F64.pinf => F64.nan
  | F64.pinf, _ => F64.pinf
  | _, F64.pinf => F64.pinf
  | F64.ninf, _ => F64.ninf
  | _, F64.ninf => F64.ninf

/-- Subtraction `x - y`. -/
def F64.sub (x y : F64) : F64 :=
  F64.add x (F64.neg y)

/-- The sign of a non-NaN value: `-1`, `0` or `1`. -/
def F64.sign : F64 → Int
  | F64.nan => 0
  | F64.ninf => -1
  | F64.pinf => 1
  | F64.fin q => if q < 0 then -1 else if q = 0 then 0 else 1

/-- Multiplication `x * y`. -/
def F64.mul : F64 → F64 → F64
  | F64.fin x, F64.fin y => F64.round (x * y)
  | F64.nan, _ => F64.nan
  | _, F64.nan => F64.nan
  | x, y =>
    if F64.sign x * F64.sign y = 0 then F64.nan
    else if F64.sign x * F64.sign y < 0 then F64.ninf
    else F64.pinf

/-- Division `x / y` by a finite non-zero or an infinite divisor; a zero
divisor gives `NaN` for a zero or `NaN` dividend and an infinity otherwise
(taking the divisor as `+0`). -/
def F64.div : F64 → F64 → F64
  | F64.nan, _ => F64.nan
  | _, F64.nan => F64.nan
  | F64.fin x, F64.fin y =>
    if y = 0 then
      if x = 0 then F64.nan else if x < 0 then F64.ninf else F64.pinf
    else F64.round (x / y)
  | F64.fin _, _ => F64.fin 0
  | x, F64.fin y => if (y < 0) = (x = F64.ninf) then F64.pinf else F64.ninf
  | _, _ => F64.nan

/-- Comparison `x <= y` (false when either side is `NaN`). -/
def F64.le : F64 → F64 → Bool
  | F64.nan, _ => false
  | _, F64.nan => false
  | F64.ninf, _ => true
  | _, F64.pinf => true
  | F64.pinf, _ => false
  | _, F64.ninf => false
  | F64.fin x, F64.fin y => decide (x ≤ y)

/-- Comparison `x < y` (false when either side is `NaN`). -/
def F64.lt : F64 → F64 → Bool
  | F64.nan, _ => false
  | _, F64.nan => false
  | F64.pinf, _ => false
  | _, F64.ninf => false
  | F64.ninf, _ => true
  | _, F64.pinf => true
  | F64.fin x, F64.fin y => decide (x < y)

/-- The builtin `min` of Go on `float64`: `NaN` when either argument is. -/
def F64.min (x y : F64) : F64 :=
  match x, y with
  | F64.nan, _ => F64.nan
  | _, F64.nan => F64.nan
  | x, y => if F64.lt y x then y else x

/-- The `float64` nearest to one tenth, `0x1.999999999999ap-4`: what the
literal `0.1` denotes. -/
def F64.tenth : ℚ :=
  3602879701896397 / 36028797018963968

/-! ## time.Duration -/

/-- Go `time.Duration.Seconds` of a duration of `d` nanoseconds:
`float64(d / Second) + float64(d % Second) / 1e9`, with Go's truncating integer
division. -/
def Duration.Seconds (d : Int) : F64 :=
  F64.add (F64.ofInt (Int.tdiv d 1000000000))
    (F64.div (F64.ofInt (Int.tmod d 1000000000)) (F64.fin 1000000000))

/-! ## internal/ratelimiter: the token-bucket limiter -/

/-- The struct `TokenBucketLimiter`: capacity, tokens added per tick, tick
interval in nanoseconds, and the `sync.Map` from key to the tokens of its
bucket. -/
structure TokenBucketLimiter where
  capacity : F64
  refillTokens : F64
  refillInterval : Int
  buckets : String → Option F64

/-- Go `NewTokenBucketLimiter`: no buckets, `refillTokens` is
`refillRate * refillInterval.Seconds()`. -/
def NewTokenBucketLimiter (capacity refillRate : F64) (refillInterval : Int) :
    TokenBucketLimiter :=
  ⟨capacity, F64.mul refillRate (Duration.Seconds refillInterval), refillInterval, fun _ => none⟩

/-- The tokens of the bucket that `LoadOrStore` returns for `key`: the stored
bucket, or a new one holding `capacity`. -/
def TokenBucketLimiter.loadOrStore (tb : TokenBucketLimiter) (key : String) : F64 :=
  match tb.buckets key with
  | some t => t
  | none => tb.capacity

/-- Go `TokenBucketLimiter.Allow`: with at least one token, take one and grant;
otherwise refuse. The bucket exists afterwards in both cases. -/
def TokenBucketLimiter.Allow (tb : TokenBucketLimiter) (key : String) :
    Bool × TokenBucketLimiter :=
  if F64.le (F64.fin 1) (tb.loadOrStore key) then
    (true, ⟨tb.capacity, tb.refillTokens, tb.refillInterval,
      fun k => if k = key then some (F64.sub (tb.loadOrStore key) (F64.fin 1)) else tb.buckets k⟩)
  else
    (false, ⟨tb.capacity, tb.refillTokens, tb.refillInterval,
      fun k => if k = key then some (tb.loadOrStore key) else tb.buckets k⟩)

/-- The update of one bucket in a refill tick: add `refillTokens`, then cap at
`capacity`. -/
def TokenBucketLimiter.refillBucket (tb : TokenBucketLimiter) (tokens : F64) : F64 :=
  if F64.lt tb.capacity (F64.add tokens tb.refillTokens) then tb.capacity
  else F64.add tokens tb.refillTokens

/-- One tick of `startRefill`: every stored bucket is refilled. -/
def TokenBucketLimiter.refill (tb : TokenBucketLimiter) : TokenBucketLimiter :=
  ⟨tb.capacity, tb.refillTokens, tb.refillInterval,
    fun k => (tb.buckets k).map tb.refillBucket⟩

instance : RateLimiter TokenBucketLimiter := ⟨TokenBucketLimiter.Allow⟩

/-- The result of `n` successive calls `Allow(key)` with no refill tick in
between: the answers in call order and the limiter afterwards. -/
def TokenBucketLimiter.allowN (tb : TokenBucketLimiter) (key : String) :
    Nat → List Bool × TokenBucketLimiter
  | 0 => ([], tb)
  | n + 1 =>
    ((TokenBucketLimiter.allowN tb key n).1 ++ [((TokenBucketLimiter.allowN tb key n).2.Allow key).1],
      ((TokenBucketLimiter.allowN tb key n).2.Allow key).2)

/-- The limiter after `k` successive refill ticks with no `Allow` in
between. -/
def TokenBucketLimiter.refillN (tb : TokenBucketLimiter) : Nat → TokenBucketLimiter
  | 0 => tb
  | k + 1 => (TokenBucketLimiter.refillN tb k).refill

/-- One observable step of a limiter: a call `Allow(key)` or a refill tick. -/
inductive TBOp where
  | allow (key : String)
  | tick

/-- The limiter after one step. -/
def TokenBucketLimiter.step (tb : TokenBucketLimiter) : TBOp → TokenBucketLimiter
  | TBOp.allow key => (tb.Allow key).2
  | TBOp.tick => tb.refill

/-- The limiter after a finite sequence of steps. -/
def TokenBucketLimiter.run (tb : TokenBucketLimiter) (ops : List TBOp) : TokenBucketLimiter :=
  ops.foldl TokenBucketLimiter.step tb

/-- A non-negative `float64`: `+Inf` or a representable rational `≥ 0`. -/
def F64.NonNeg (x : F64) : Prop :=
  x = F64.pinf ∨ ∃ r, x = F64.fin r ∧ 0 ≤ r ∧ IsF64 r

/-- The invariant of a token-bucket limiter with a non-negative capacity and
refill amount: every bucket holds a non-negative `float64` that is at most the
capacity. -/
def TokenBucketLimiter.Inv (tb : TokenBucketLimiter) : Prop :=
  F64.NonNeg tb.capacity ∧ F64.NonNeg tb.refillTokens ∧
    ∀ k t, tb.buckets k = some t → F64.NonNeg t ∧ F64.le t tb.capacity = true

/-! ## Connection accounting: sequences of calls -/

/-- One call on a connection-aware balancer: `Increase(server)` or
`Decrease(server)`. -/
inductive ConnOp where
  | increase (server : String)
  | decrease (server : String)
deriving DecidableEq, Repr

/-- The balancer after one accounting call. -/
def ConnOp.apply {σ : Type} [ConnAware σ] (b : σ) : ConnOp → σ
  | ConnOp.increase s => ConnAware.Increase b s
  | ConnOp.decrease s => ConnAware.Decrease b s

/-- The balancer after a sequence of accounting calls, in order. -/
def runConn {σ : Type} [ConnAware σ] (b : σ) (ops : List ConnOp) : σ :=
  ops.foldl ConnOp.apply b

/-- By how much a sequence of calls moves the counter of `s`: `+1` for an
`Increase(s)`, `-1` for a `Decrease(s)`. -/
def ConnOp.net (s : String) : List ConnOp → Int
  | [] => 0
  | ConnOp.increase t :: rest => (if t = s then 1 else 0) + ConnOp.net s rest
  | ConnOp.decrease t :: rest => (if t = s then -1 else 0) + ConnOp.net s rest

/-- Every server receives as many `Decrease` calls as `Increase` calls. -/
def ConnOp.Balanced (ops : List ConnOp) : Prop :=
  ∀ s, ops.count (ConnOp.increase s) = ops.count (ConnOp.decrease s)

/-! ## internal/balancer/p2c: the health probe -/

/-- What `b.hcClient.Do(req)` does in `checkOne`: it panics (as it does on the
nil request left by a failed `http.NewRequest`, whose error is dropped), it
returns a transport error (a timeout included), or it returns a response with
a status code. -/
inductive ProbeOutcome where
  | panic
  | transportError
  | reply (status : Int)
deriving DecidableEq, Repr

/-- The value of `up` in `checkOne`: `err == nil && resp.StatusCode < 500`. -/
def ProbeOutcome.up : ProbeOutcome → Bool
  | ProbeOutcome.reply status => decide (status < 500)
  | _ => false

/-- Go `p2cBalancer.checkOne` for one probe outcome: the health entry of the
probed server becomes `up`; `none` when the probe panics. -/
def p2cBalancer.checkOne (b : p2cBalancer) (server : String) (o : ProbeOutcome) :
    Option p2cBalancer :=
  match o with
  | ProbeOutcome.panic => none
  | _ =>
    some ⟨b.servers, b.counts, b.rand,
      fun s => if s = server then some o.up else b.health s, b.stopHealthClosed⟩

/-! ## Token bucket: interleaved keys -/

/-- The answers that the `Allow(key)` calls of a run receive, in call order. -/
def TokenBucketLimiter.answers (key : String) :
    TokenBucketLimiter → List TBOp → List Bool
  | _, [] => []
  | tb, TBOp.allow k :: rest =>
    if k = key then (tb.Allow k).1 :: TokenBucketLimiter.answers key (tb.Allow k).2 rest
    else TokenBucketLimiter.answers key (tb.Allow k).2 rest
  | tb, TBOp.tick :: rest => TokenBucketLimiter.answers key tb.refill rest

/-- The steps of a run that concern `key`: its own `Allow` calls and the refill
ticks. -/
def TBOp.concerns (key : String) : TBOp → Bool
  | TBOp.allow k => decide (k = key)
  | TBOp.tick => true

/-! ## internal/ratelimiter: the persistent client manager

Go `error` results are `Option String` (`none` is `nil`). The durable table is
the list of its rows, one per id. The `config` column, the JSON text of a
`ClientConfig`, is represented by the value it decodes to: `encoding/json`
writes a finite `float64` and an `int64` so that they read back unchanged.
Each call to the database takes its outcome (`true`: no error) as a
parameter; a failed statement leaves the table as it was. Opening the
database, creating the table and scanning rows are taken to succeed. -/

/-- The struct `ClientConfig`. -/
structure ClientConfig where
  Capacity : F64
  RefillRate : F64
  RefillInterval : Int
  Tokens : F64
deriving DecidableEq

/-- A `float64` that is neither `NaN` nor an infinity. -/
def F64.isFinite : F64 → Bool
  | F64.fin _ => true
  | _ => false

/-- Whether `json.Marshal(cfg)` succeeds: it returns an error for a `NaN` or
infinite `float64` field. -/
def ClientConfig.marshalOk (cfg : ClientConfig) : Bool :=
  cfg.Capacity.isFinite && cfg.RefillRate.isFinite && cfg.Tokens.isFinite

/-- The struct `tokenBucketClient`: configuration, current tokens and whether
`stopCh` has been closed (which ends the client's refill task). -/
structure tokenBucketClient where
  config : ClientConfig
  tokens : F64
  stopClosed : Bool
deriving DecidableEq

/-- A row of the table `clients`: the columns `config` and `tokens`
(`last_updated` is written and never read). -/
structure ClientRow where
  config : ClientConfig
  tokens : F64
deriving DecidableEq

/-- The struct `DBManager`: the durable table, the map of clients and whether
`stopAll` has been closed. -/
structure DBManager where
  db : List (String × ClientRow)
  clients : String → Option tokenBucketClient
  stopAllClosed : Bool

/-- The statement `INSERT ... ON CONFLICT(id) DO UPDATE`: the row of `id` is
replaced or added. -/
def dbUpsert (db : List (String × ClientRow)) (id : String) (row : ClientRow) :
    List (String × ClientRow) :=
  (id, row) :: db.filter fun r => r.1 ≠ id

/-- The statement `DELETE FROM clients WHERE id = ?`. -/
def dbDelete (db : List (String × ClientRow)) (id : String) : List (String × ClientRow) :=
  db.filter fun r => r.1 ≠ id

/-- The statement `UPDATE clients SET tokens = ? ... WHERE id = ?`: the
`config` column is kept; nothing changes when there is no such row. -/
def dbUpdateTokens (db : List (String × ClientRow)) (id : String) (tokens : F64) :
    List (String × ClientRow) :=
  db.map fun r => if r.1 = id then (r.1, ⟨r.2.config, tokens⟩) else r

/-- Go `NewDBManager` on a store holding the rows `db`: `loadFromDB` makes one
client per row, with the stored tokens. `time.NewTicker` panics on a
non-positive interval (`none`). -/
def NewDBManager (db : List (String × ClientRow)) : Option DBManager :=
  if db.any (fun r => decide (r.2.config.RefillInterval ≤ 0)) then none
  else
    some ⟨db, fun id => (db.lookup id).map fun row => ⟨row.config, row.tokens, false⟩, false⟩

/-- Go `DBManager.AddClient`. Closing the `stopCh` of an existing client panics
if it is already closed, and `time.NewTicker` panics on a non-positive
interval (`none`; the manager's lock is then never released). Otherwise the new
client is installed with `tokens = cfg.Capacity`, and the error is that of
`json.Marshal` or of the upsert. -/
def DBManager.AddClient (m : DBManager) (id : String) (cfg : ClientConfig) (dbOk : Bool) :
    Option (Option String × DBManager) :=
  if (match m.clients id with
      | some old => old.stopClosed
      | none => false) then none
  else if cfg.RefillInterval ≤ 0 then none
  else if cfg.marshalOk = false then
    some (some "json: unsupported value",
      ⟨m.db, fun k => if k = id then some ⟨cfg, cfg.Capacity, false⟩ else m.clients k,
        m.stopAllClosed⟩)
  else if dbOk then
    some (none,
      ⟨dbUpsert m.db id ⟨cfg, cfg.Capacity⟩,
        fun k => if k = id then some ⟨cfg, cfg.Capacity, false⟩ else m.clients k,
        m.stopAllClosed⟩)
  else
    some (some "sql: statement failed",
      ⟨m.db, fun k => if k = id then some ⟨cfg, cfg.Capacity, false⟩ else m.clients k,
        m.stopAllClosed⟩)

/-- Go `DBManager.Allow`. -/
def DBManager.Allow (m : DBManager) (id : String) : Bool × DBManager :=
  match m.clients id with
  | none => (false, m)
  | some tb =>
    if F64.le (F64.fin 1) tb.tokens then
      (true, ⟨m.db,
        fun k => if k = id then some ⟨tb.config, F64.sub tb.tokens (F64.fin 1), tb.stopClosed⟩
          else m.clients k,
        m.stopAllClosed⟩)
    else (false, m)

/-- Go `DBManager.GetClient`: the client's configuration with its `Tokens` field
set to the current tokens, or the error `not found`. -/
def DBManager.GetClient (m : DBManager) (id : String) : Except String ClientConfig :=
  match m.clients id with
  | none => Except.error "not found"
  | some tb => Except.ok ⟨tb.config.Capacity, tb.config.RefillRate, tb.config.RefillInterval,
      tb.tokens⟩

/-- Go `DBManager.RemoveClient`. An unknown id is the error `not found`. Closing
an already closed `stopCh` panics (`none`). When the delete statement fails its
error is returned and the client, now stopped, stays in the map. -/
def DBManager.RemoveClient (m : DBManager) (id : String) (dbOk : Bool) :
    Option (Option String × DBManager) :=
  match m.clients id with
  | none => some (some "not found", m)
  | some tb =>
    if tb.stopClosed then none
    else if dbOk then
      some (none,
        ⟨dbDelete m.db id, fun k => if k = id then none else m.clients k, m.stopAllClosed⟩)
    else
      some (some "sql: statement failed",
        ⟨m.db, fun k => if k = id then some ⟨tb.config, tb.tokens, true⟩ else m.clients k,
          m.stopAllClosed⟩)

/-- One tick of the task `runRefill` of a client: add
`RefillRate * RefillInterval.Seconds()`, then cap at `Capacity`. -/
def tokenBucketClient.refill (tb : tokenBucketClient) : tokenBucketClient :=
  ⟨tb.config,
    if F64.lt tb.config.Capacity
        (F64.add tb.tokens
          (F64.mul tb.config.RefillRate (Duration.Seconds tb.config.RefillInterval)))
    then tb.config.Capacity
    else F64.add tb.tokens
      (F64.mul tb.config.RefillRate (Duration.Seconds tb.config.RefillInterval)),
    tb.stopClosed⟩

/-- A refill tick of the client `id`; a stopped or absent client has no refill
task. -/
def DBManager.refillTick (m : DBManager) (id : String) : DBManager :=
  match m.clients id with
  | none => m
  | some tb =>
    if tb.stopClosed then m
    else ⟨m.db, fun k => if k = id then some tb.refill else m.clients k, m.stopAllClosed⟩

/-- One tick of `startPersistLoop` visiting the clients in the order `order`
(the iteration order of the Go map): the tokens of each visited client are
written to its row; at the first failed statement the task returns. The
result says whether the task is still running. -/
def DBManager.persistTick (ok : String → Bool) : DBManager → List String → DBManager × Bool
  | m, [] => (m, true)
  | m, id :: rest =>
    match m.clients id with
    | none => DBManager.persistTick ok m rest
    | some tb =>
      if ok id then
        DBManager.persistTick ok
          ⟨dbUpdateTokens m.db id tb.tokens, m.clients, m.stopAllClosed⟩ rest
      else (m, false)

/-- A step of a running manager that neither adds nor removes a client. -/
inductive ManagerStep where
  | allow (id : String)
  | refill (id : String)
  | persist (ok : String → Bool) (order : List String)

/-- The manager after one such step. -/
def DBManager.step (m : DBManager) : ManagerStep → DBManager
  | ManagerStep.allow id => (m.Allow id).2
  | ManagerStep.refill id => m.refillTick id
  | ManagerStep.persist ok order => (DBManager.persistTick ok m order).1

/-- The manager after a sequence of such steps. -/
def DBManager.run (m : DBManager) (steps : List ManagerStep) : DBManager :=
  steps.foldl DBManager.step m

/-! ## internal/api: the admin handlers registered by `Register` -/

/-- The parts of `*http.Request` that the admin handlers read: the method,
`r.URL.Path`, `r.URL.Query().Get("id")` and what
`json.NewDecoder(r.Body).Decode(&cfg)` yields (`none`: a decoding error). -/
structure AdminRequest where
  method : String
  path : String
  queryId : String
  body : Option ClientConfig

/-- What an admin handler leaves on the `http.ResponseWriter`. -/
inductive AdminReply where
  /-- A call `http.Error(w, msg, code)` -/
  | error (msg : String) (code : Nat)
  /-- A call `w.WriteHeader(code)` and nothing else -/
  | status (code : Nat)
  /-- The header `Content-Type: application/json` and the encoded
  configuration, with the default status 200 -/
  | json (cfg : ClientConfig)
  /-- No status and no body written: the default status 200, empty body -/
  | nothing
deriving DecidableEq

/-- The first segment of a path up to a slash, and what follows the slash when
there is one. -/
def takeSegment : List Char → List Char × Option (List Char)
  | [] => ([], none)
  | c :: cs =>
    if c = '/' then ([], some cs)
    else ((takeSegment cs).1.cons c, (takeSegment cs).2)

/-- Go `strings.SplitN(s, "/", 3)`: at most three parts, the third being the
unsplit remainder. -/
def splitN3 (s : String) : List String :=
  match takeSegment s.toList with
  | (a, none) => [String.mk a]
  | (a, some r1) =>
    match takeSegment r1 with
    | (b, none) => [String.mk a, String.mk b]
    | (b, some r2) => [String.mk a, String.mk b, String.mk r2]

/-- The handler of `/clients` (logging left out): `none` when `AddClient`
panics. After an `AddClient` error it returns without writing. -/
def Register.clients (mgr : Option DBManager) (r : AdminRequest) (dbOk : Bool) :
    Option (AdminReply × Option DBManager) :=
  match mgr with
  | none => some (AdminReply.error "\x7b\"error\":\"service unavailable\"\x7d" 503, none)
  | some m =>
    if r.method ≠ "POST" then some (AdminReply.error "method not allowed" 405, some m)
    else if r.queryId = "" then
      some (AdminReply.error "\x7b\"error\":\"missing id\"\x7d" 400, some m)
    else
      match r.body with
      | none => some (AdminReply.error "\x7b\"error\":\"invalid body\"\x7d" 400, some m)
      | some cfg =>
        match m.AddClient r.queryId cfg dbOk with
        | none => none
        | some (some _, m1) => some (AdminReply.nothing, some m1)
        | some (none, m1) => some (AdminReply.status 201, some m1)

/-- The handler of `/clients/` (logging left out), as called by the router
(`Register.mux`) on the paths it lets through: `none` when it panics, as it
does on a nil manager, which this handler does not check, and when
`RemoveClient` panics. A configuration that `json` cannot encode leaves the
body empty. -/
def Register.clientByID (mgr : Option DBManager) (r : AdminRequest) (dbOk : Bool) :
    Option (AdminReply × Option DBManager) :=
  match splitN3 r.path with
  | [_, _, id] =>
    if id = "" then some (AdminReply.error "not found" 404, mgr)
    else if r.method = "GET" then
      match mgr with
      | none => none
      | some m =>
        match m.GetClient id with
        | Except.error _ =>
          some (AdminReply.error "\x7b\"error\":\"not found\"\x7d" 404, some m)
        | Except.ok cfg =>
          if cfg.marshalOk then some (AdminReply.json cfg, some m)
          else some (AdminReply.nothing, some m)
    else if r.method = "DELETE" then
      match mgr with
      | none => none
      | some m =>
        match m.RemoveClient id dbOk with
        | none => none
        | some (some _, m1) =>
          some (AdminReply.error "\x7b\"error\":\"not found\"\x7d" 404, some m1)
        | some (none, m1) => some (AdminReply.status 204, some m1)
    else some (AdminReply.error "method not allowed" 405, mgr)
  | _ => some (AdminReply.error "not found" 404, mgr)

/-! ## internal/balancer/p2c: `Stop` -/

/-- Go `p2cBalancer.Stop`: `close(b.stopHealth)`. Closing a channel that is
already closed panics (`none`). -/
def p2cBalancer.Stop (b : p2cBalancer) : Option p2cBalancer :=
  if b.stopHealthClosed then none
  else some ⟨b.servers, b.counts, b.rand, b.health, true⟩

/-! ## The dispatcher over the adaptive balancer -/

/-- The adaptive balancer over the three concrete children. -/
abbrev Adaptive : Type := AdaptiveBalancer rrBalancer lcBalancer p2cBalancer

/-- Go `proxy.NewProxy` over the adaptive balancer built from one backend list,
as in `Start` and in `TestIntegration_AdaptiveModes`. The adaptive balancer has
the methods of `ConnAware`, so the type assertion in the handler succeeds. -/
def NewAdaptiveProxy (servers : List String) (seed : Rand) (low high : Int) : Proxy Adaptive :=
  ⟨NewAdaptiveBalancer (NewRoundRobinBalancer servers) (NewLeastConnBalancer servers)
    (NewP2CBalancer servers seed) low high, some inferInstance⟩

/-- Requests served strictly one after another by the handler of
`Proxy.Handler`: each request is handled to completion on the state left by
the one before. The result lists, per request, the reply and the calls made;
`none` when a handler call panics in `Next`. -/
def Proxy.serve {σ : Type} [Balancer σ] (env : ProxyEnv) :
    Proxy σ → List Request → Option (List (Response × List ProxyEvent) × Proxy σ)
  | p, [] => some ([], p)
  | p, r :: rs =>
    match p.Handler env r with
    | none => none
    | some out =>
      match Proxy.serve env out.2.2 rs with
      | none => none
      | some rest => some ((out.1, out.2.1) :: rest.1, rest.2)

/-- What the handler of `Proxy.Handler` replies and calls on a connection-aware
balancer once `Next` has returned `server`. -/
def Proxy.served (env : ProxyEnv) (server : String) (r : Request) :
    Response × List ProxyEvent :=
  if server = "" then
    (Response.error "no servers available" 503,
      [ProxyEvent.next, ProxyEvent.write (Response.error "no servers available" 503)])
  else
    ((Proxy.forward env server r).1,
      [ProxyEvent.next, ProxyEvent.increase server] ++ (Proxy.forward env server r).2
        ++ [ProxyEvent.decrease server])

/-- The body that the client reads from a reply (`http.Error` ends its message
with a newline). -/
def Response.body : Response → String
  | Response.error msg _ => msg ++ "\n"
  | Response.upstream _ body => body
  | Response.aborted => ""

/-- The backends of `TestIntegration_AdaptiveModes`: every backend address
parses, and the backend reached replies 200 with its own name as the body. -/
def echoEnv : ProxyEnv :=
  ⟨fun s => some ("http", s), fun target _ => Upstream.reply 200 target.2⟩

/-- The first candidate index of each of `k` consecutive calls of
`p2cBalancer.Next` over `n ≥ 2` healthy servers, from the generator `g`. -/
def p2cBalancer.firstPicks (n : Nat) : Nat → Rand → List Nat
  | 0, _ => []
  | k + 1, g => (p2cBalancer.pick g n).1 :: p2cBalancer.firstPicks n k (p2cBalancer.pick g n).2.2

/-! ## internal/server: threshold validation and the middleware chain of `Start` -/

/-- The validation of the adaptive thresholds in `Start`, on the `int64`
values of the configuration: `low = 10` if `low < 0`, then `high = low * 10`
(an `int64` product) if `high ≤ low`. -/
def Start.thresholds (low high : Int) : Int × Int :=
  let low1 := if low < 0 then 10 else low
  let high1 := if high ≤ low1 then wrapInt64 (low1 * 10) else high
  (low1, high1)

/-- A record written through `logger.Logger`: the level and the format. -/
inductive LogRecord where
  | infof (format : String)
  | errorf (format : String)
deriving DecidableEq, Repr

/-- The handler returned by `loggingMiddleware` around a wrapped handler
`serve`, for one request. The state carries the records logged so far. The
completion record is written after `next.ServeHTTP` returns, so not when the
wrapped handler panics. -/
def loggingMiddleware {N : Type} (serve : N → Request → Response × N)
    (s : N × List LogRecord) (r : Request) : Response × (N × List LogRecord) :=
  let out := serve s.1 r
  match out.1 with
  | Response.aborted =>
    (Response.aborted, (out.2, s.2 ++ [LogRecord.infof "incoming request: %s %s"]))
  | resp =>
    (resp, (out.2, s.2 ++ [LogRecord.infof "incoming request: %s %s",
      LogRecord.infof "completed %s %s in %v"]))

/-- The chain built by `Start` around the router `mux`:
`handler := loggingMiddleware(mux, log)` and then
`handler = rateLimitMiddleware(handler, globalRL, dbMgr, log)`. -/
def Start.handler {G C N : Type} [RateLimiter G] [RateLimiter C]
    (mux : N → Request → Response × N) (s : MiddlewareState G C (N × List LogRecord))
    (r : Request) : Response × List String × MiddlewareState G C (N × List LogRecord) :=
  rateLimitMiddleware (loggingMiddleware mux) s r

instance : RateLimiter DBManager := ⟨DBManager.Allow⟩

/-! ## internal/ratelimiter: the checkpoint task -/

/-- The task `startPersistLoop` over a sequence of ticks, each with the outcome
of its writes and the order in which the map is visited. `alive` says whether
the task is still running: once it has returned, later ticks do nothing. -/
def DBManager.persistLoop :
    DBManager → Bool → List ((String → Bool) × List String) → DBManager × Bool
  | m, alive, [] => (m, alive)
  | m, false, _ :: _ => (m, false)
  | m, true, tick :: rest =>
    DBManager.persistLoop (DBManager.persistTick tick.1 m tick.2).1
      (DBManager.persistTick tick.1 m tick.2).2 rest

/-! ## internal/api: what the client receives -/

/-- The status code the client receives: `net/http` sends 200 when the handler
returns without having written a status. -/
def AdminReply.statusCode : AdminReply → Nat
  | AdminReply.error _ code => code
  | AdminReply.status code => code
  | AdminReply.json _ => 200
  | AdminReply.nothing => 200

/-- Whether the body the client receives is empty. -/
def AdminReply.bodyEmpty : AdminReply → Bool
  | AdminReply.error _ _ => false
  | AdminReply.status _ => true
  | AdminReply.json _ => false
  | AdminReply.nothing => true

/-- The dispatcher between two sequential requests over the backends `servers`:
the connection counters of the least-connections and the P2C child are at zero
and all backends are admissible, as constructed; the round-robin child has
index `k`, the generator of the P2C child is `g` and the in-flight counter is
`i`. -/
def idleProxy (servers : List String) (low high : Int) (k : Nat) (g : Rand) (i : Int) :
    Proxy Adaptive :=
  ⟨⟨⟨servers, k⟩, NewLeastConnBalancer servers, NewP2CBalancer servers g, low, high, i⟩,
    some inferInstance⟩

/-- The bodies read by a client that sends the requests one after another, as
`results` in `TestIntegration_AdaptiveModes`. -/
def Proxy.results {σ : Type} [Balancer σ] (env : ProxyEnv) (p : Proxy σ) (rs : List Request) :
    Option (List String) :=
  (Proxy.serve env p rs).map fun x => x.1.map fun o => o.1.body

/-- The name of the backend at index `i` of `[B1, B2]`. -/
def backendName (i : Nat) : String :=
  if i = 0 then "B1" else "B2"

/-- The request of `TestIntegration_AdaptiveModes`: `GET /foo` from a local
client, without headers that the handlers read. -/
def getFoo : Request :=
  ⟨"GET", "/foo", "127.0.0.1:40000", fun _ => ""⟩

/-! ## internal/api: the router in front of the admin handlers

`Register` installs its handlers on an `http.ServeMux`. Before calling a
handler the router compares the request path with its cleaned form
(`cleanPath`: no empty, `.` or `..` segment; a trailing slash is kept) and
answers a path that differs with a redirect to the cleaned one. The path is
taken as sent, without percent-escapes. -/

/-- The segments of the part of a path that follows its leading slash, split
at every slash. -/
def pathSegments : List Char → List (List Char)
  | [] => [[]]
  | c :: cs =>
    if c = '/' then [] :: pathSegments cs
    else
      match pathSegments cs with
      | [] => [[c]]
      | s :: rest => (c :: s) :: rest

/-- A segment that `path.Clean` keeps as it is: not empty, not `.`, not `..`. -/
def keptSegment (s : List Char) : Bool :=
  decide (s ≠ []) && decide (s ≠ ['.']) && decide (s ≠ ['.', '.'])

/-- Whether every segment is kept by `path.Clean`; the last one may also be
empty, which is a trailing slash. -/
def canonicalSegments : List (List Char) → Bool
  | [] => true
  | [s] => decide (s = []) || keptSegment s
  | s :: rest => keptSegment s && canonicalSegments rest

/-- Whether `cleanPath(p) == p` in `net/http`: the path starts with a slash and
has no empty, `.` or `..` segment. -/
def canonicalPath (p : String) : Bool :=
  match p.toList with
  | '/' :: rest => canonicalSegments (pathSegments rest)
  | _ => false

/-- What the router set up by `Register` does with a request. -/
inductive MuxReply where
  /-- The redirect (status 301 to the cleaned path) that `http.ServeMux`
  answers itself, without calling a handler -/
  | redirect
  /-- The reply of the admin handler that the path selects -/
  | admin (reply : AdminReply)
  /-- The request goes to the proxy handler, registered on `/` -/
  | proxy
deriving DecidableEq

/-- The `http.ServeMux` filled by `Register`, for one request: a path that is
not in canonical form is redirected (except for `CONNECT`); `/clients` selects
the first admin handler, a path under `/clients/` the second, and every other
path the proxy handler. -/
def Register.mux (mgr : Option DBManager) (r : AdminRequest) (dbOk : Bool) :
    Option (MuxReply × Option DBManager) :=
  if r.method ≠ "CONNECT" ∧ canonicalPath r.path = false then some (MuxReply.redirect, mgr)
  else if r.path = "/clients" then
    (Register.clients mgr r dbOk).map fun x => (MuxReply.admin x.1, x.2)
  else
    match r.path.toList with
    | '/' :: 'c' :: 'l' :: 'i' :: 'e' :: 'n' :: 't' :: 's' :: '/' :: _ =>
      (Register.clientByID mgr r dbOk).map fun x => (MuxReply.admin x.1, x.2)
    | _ => some (MuxReply.proxy, mgr)

end LB

namespace LB

/-! ## Round-robin: lemmas -/

theorem rrBalancer.after_servers (k : Nat) (r : rrBalancer) :
    (rrBalancer.after k r).servers = r.servers := by
  induction k with
  | zero => rfl
  | succ k ih =>
    simp only [rrBalancer.after, rrBalancer.Next]
    split
    · exact ih
    · exact ih

theorem rrBalancer.after_idx (servers : List String) (hne : servers ≠ [])
    (k : Nat) (hk : k < 2 ^ 64) :
    (rrBalancer.after k (NewRoundRobinBalancer servers)).idx = k := by
  induction k with
  | zero => rfl
  | succ k ih =>
    have ih1 := ih (by omega)
    have hs := rrBalancer.after_servers k (NewRoundRobinBalancer servers)
    have hlen : (rrBalancer.after k (NewRoundRobinBalancer servers)).servers.length ≠ 0 := by
      rw [hs]
      simpa [NewRoundRobinBalancer] using hne
    simp only [rrBalancer.after, rrBalancer.Next, dif_neg hlen, ih1]
    exact Nat.mod_eq_of_lt hk

/-- C1. On a freshly constructed round-robin balancer over a non-empty list of
`n` backends, the `k`-th sequential call of `Next` (`1 ≤ k < 2^64`) returns
`servers[k mod n]`; for `[B1, B2, B3]` six calls return
`[B2, B3, B1, B2, B3, B1]`. -/
theorem rr_kth_call (servers : List String) (k : Nat)
    (hne : servers ≠ []) (hk1 : 1 ≤ k) (hk2 : k < 2 ^ 64) :
    some (rrBalancer.nthNext k (NewRoundRobinBalancer servers))
        = servers.get? (k % servers.length)
      ∧ rrBalancer.calls 6 (NewRoundRobinBalancer ["B1", "B2", "B3"])
        = ["B2", "B3", "B1", "B2", "B3", "B1"] := by
  refine ⟨?_, by decide⟩
  have hs : (rrBalancer.after (k - 1) (NewRoundRobinBalancer servers)).servers = servers :=
    rrBalancer.after_servers (k - 1) (NewRoundRobinBalancer servers)
  have hi := rrBalancer.after_idx servers hne (k - 1) (by omega)
  have hlen : (rrBalancer.after (k - 1) (NewRoundRobinBalancer servers)).servers.length ≠ 0 := by
    rw [hs]; simpa using hne
  have hk : (k - 1 + 1) % 2 ^ 64 = k := by
    rw [Nat.sub_add_cancel hk1]; exact Nat.mod_eq_of_lt hk2
  simp only [rrBalancer.nthNext, rrBalancer.Next, dif_neg hlen, hi, hk]
  rw [← List.get?_eq_get, hs]

/-- Witness for C1: the fourth call on `[B1, B2, B3]`. -/
theorem rr_kth_call_witness :
    some (rrBalancer.nthNext 4 (NewRoundRobinBalancer ["B1", "B2", "B3"]))
        = ["B1", "B2", "B3"].get? (4 % 3)
      ∧ rrBalancer.calls 6 (NewRoundRobinBalancer ["B1", "B2", "B3"])
        = ["B2", "B3", "B1", "B2", "B3", "B1"] :=
  rr_kth_call ["B1", "B2", "B3"] 4 (by decide) (by decide) (by decide)

/-! ## Least-connections: lemmas -/

/-- The scan over servers with non-negative counters, entered with a
non-negative running minimum: either the incoming `best` survives and no
scanned counter is below `mn`, or the result is the first scanned server whose
counter is the least and below `mn`. -/
theorem lcBalancer.scan_of_nonneg (counts : String → Option Int) (xs : List String)
    (h : ∀ s ∈ xs, ∃ c, counts s = some c ∧ 0 ≤ c) (mn : Int) (hmn : 0 ≤ mn) (best : String) :
    (lcBalancer.scan counts xs mn best = some best ∧ ∀ s ∈ xs, ∀ c, counts s = some c → mn ≤ c) ∨
    (∃ r c pre post, lcBalancer.scan counts xs mn best = some r ∧ xs = pre ++ r :: post ∧
      counts r = some c ∧ c < mn ∧ (∀ s ∈ pre, ∀ d, counts s = some d → c < d) ∧
      (∀ s ∈ post, ∀ d, counts s = some d → c ≤ d)) := by
  induction xs generalizing mn best with
  | nil => exact Or.inl ⟨rfl, by simp⟩
  | cons s rest ih =>
    obtain ⟨cnt, hcnt, hcnt0⟩ := h s (List.mem_cons_self _ _)
    have hrest : ∀ t ∈ rest, ∃ c, counts t = some c ∧ 0 ≤ c :=
      fun t ht => h t (List.mem_cons_of_mem _ ht)
    by_cases hlt : cnt < mn
    · have hstep : lcBalancer.scan counts (s :: rest) mn best = lcBalancer.scan counts rest cnt s := by
        simp [lcBalancer.scan, hcnt, hlt]
      rw [hstep]
      rcases ih hrest cnt hcnt0 s with ⟨hres, hall⟩ | ⟨r, c, pre, post, hres, hsplit, hc, hclt, hpre, hpost⟩
      · exact Or.inr ⟨s, cnt, [], rest, hres, rfl, hcnt, hlt, by simp, hall⟩
      · refine Or.inr ⟨r, c, s :: pre, post, hres, by simp [hsplit], hc, by omega, ?_, hpost⟩
        intro t ht d hd
        rcases List.mem_cons.mp ht with rfl | ht
        · rw [hcnt] at hd; cases hd; exact hclt
        · exact hpre t ht d hd
    · have hstep : lcBalancer.scan counts (s :: rest) mn best = lcBalancer.scan counts rest mn best := by
        have : ¬ mn < 0 := by omega
        simp [lcBalancer.scan, hcnt, hlt, this]
      rw [hstep]
      rcases ih hrest mn hmn best with ⟨hres, hall⟩ | ⟨r, c, pre, post, hres, hsplit, hc, hclt, hpre, hpost⟩
      · refine Or.inl ⟨hres, ?_⟩
        intro t ht d hd
        rcases List.mem_cons.mp ht with rfl | ht
        · rw [hcnt] at hd; cases hd; omega
        · exact hall t ht d hd
      · refine Or.inr ⟨r, c, s :: pre, post, hres, by simp [hsplit], hc, hclt, ?_, hpost⟩
        intro t ht d hd
        rcases List.mem_cons.mp ht with rfl | ht
        · rw [hcnt] at hd; cases hd; omega
        · exact hpre t ht d hd

/-- With non-negative counters `Next` returns the first server of least
counter: the list splits around it into strictly larger counters before and
no smaller counters after. -/
theorem lcBalancer.Next_split (l : lcBalancer) (hne : l.servers ≠ [])
    (hnn : ∀ s ∈ l.servers, ∃ c, l.counts s = some c ∧ 0 ≤ c) :
    ∃ best c pre post, l.Next = some best ∧ l.servers = pre ++ best :: post ∧
      l.counts best = some c ∧ (∀ s ∈ pre, ∀ d, l.counts s = some d → c < d) ∧
      (∀ s ∈ post, ∀ d, l.counts s = some d → c ≤ d) := by
  obtain ⟨servers, counts⟩ := l
  cases servers with
  | nil => exact absurd rfl hne
  | cons x xs =>
    obtain ⟨cx, hcx, hcx0⟩ := hnn x (List.mem_cons_self _ _)
    have hrest : ∀ t ∈ xs, ∃ c, counts t = some c ∧ 0 ≤ c :=
      fun t ht => hnn t (List.mem_cons_of_mem _ ht)
    simp only at hcx
    have hstep : lcBalancer.Next ⟨x :: xs, counts⟩ = lcBalancer.scan counts xs cx x := by
      simp [lcBalancer.Next, lcBalancer.scan, hcx]
    rw [hstep]
    rcases lcBalancer.scan_of_nonneg counts xs hrest cx hcx0 x with
      ⟨hres, hall⟩ | ⟨r, c, pre, post, hres, hsplit, hc, hclt, hpre, hpost⟩
    · exact ⟨x, cx, [], xs, hres, rfl, hcx, by simp, hall⟩
    · refine ⟨r, c, x :: pre, post, hres, by simp [hsplit], hc, ?_, hpost⟩
      intro t ht d hd
      rcases List.mem_cons.mp ht with rfl | ht
      · simp only at hd
        rw [hcx] at hd; cases hd; exact hclt
      · exact hpre t ht d hd

/-- C2 as stated fails: on the fresh balancer over `[a, b]` after one
`Decrease("a")` the counters are `-1` and `0`, yet `Next` returns `b`. -/
theorem lc_next_negative_counter :
    ((NewLeastConnBalancer ["a", "b"]).Decrease "a").counts "a" = some (-1)
      ∧ ((NewLeastConnBalancer ["a", "b"]).Decrease "a").counts "b" = some 0
      ∧ ((NewLeastConnBalancer ["a", "b"]).Decrease "a").Next = some "b" := by
  decide

/-- C2, amended. For a least-connections balancer with a non-empty backend
list whose counters are all non-negative, `Next` returns the backend with the
smallest counter, and among those the first in list order; so a backend `b`
whose counter exceeds that of some listed backend `a` is never returned, and
over the two backends `a`, `b` with `counts[a] < counts[b]` the result is `a`. -/
theorem lc_next_min (l : lcBalancer) (hne : l.servers ≠ [])
    (hnn : ∀ s ∈ l.servers, ∃ c, l.counts s = some c ∧ 0 ≤ c) :
    ∃ best c pre post, l.Next = some best ∧ l.servers = pre ++ best :: post ∧
      l.counts best = some c ∧
      (∀ s ∈ pre, ∀ d, l.counts s = some d → c < d) ∧
      (∀ s ∈ post, ∀ d, l.counts s = some d → c ≤ d) ∧
      (∀ a b ca cb, a ∈ l.servers → l.counts a = some ca → l.counts b = some cb →
        ca < cb → best ≠ b) ∧
      (∀ a b ca cb, l.servers = [a, b] ∨ l.servers = [b, a] → l.counts a = some ca →
        l.counts b = some cb → ca < cb → best = a) := by
  obtain ⟨best, c, pre, post, hres, hsplit, hc, hpre, hpost⟩ := lcBalancer.Next_split l hne hnn
  have hmin : ∀ a ca, a ∈ l.servers → l.counts a = some ca → c ≤ ca := by
    intro a ca ha hca
    rw [hsplit] at ha
    rcases List.mem_append.mp ha with ha | ha
    · exact le_of_lt (hpre a ha ca hca)
    · rcases List.mem_cons.mp ha with rfl | ha
      · rw [hc] at hca; cases hca; exact le_refl _
      · exact hpost a ha ca hca
  have hnot : ∀ a b ca cb, a ∈ l.servers → l.counts a = some ca → l.counts b = some cb →
      ca < cb → best ≠ b := by
    intro a b ca cb ha hca hcb hlt hbb
    subst hbb
    rw [hc] at hcb; cases hcb
    have := hmin a ca ha hca
    omega
  have hmem : best ∈ l.servers := by rw [hsplit]; simp
  refine ⟨best, c, pre, post, hres, hsplit, hc, hpre, hpost, hnot, ?_⟩
  intro a b ca cb hab hca hcb hlt
  have hb : best ≠ b := by
    refine hnot a b ca cb ?_ hca hcb hlt
    rcases hab with h | h <;> simp [h]
  rcases hab with h | h <;> rw [h] at hmem <;> simp at hmem <;> tauto

/-- Witness for C2 (amended): the fresh balancer of the test, over
`[X, Y, Z]`. -/
theorem lc_next_min_witness :
    ∃ best c pre post, (NewLeastConnBalancer ["X", "Y", "Z"]).Next = some best ∧
      (NewLeastConnBalancer ["X", "Y", "Z"]).servers = pre ++ best :: post ∧
      (NewLeastConnBalancer ["X", "Y", "Z"]).counts best = some c ∧
      (∀ s ∈ pre, ∀ d, (NewLeastConnBalancer ["X", "Y", "Z"]).counts s = some d → c < d) ∧
      (∀ s ∈ post, ∀ d, (NewLeastConnBalancer ["X", "Y", "Z"]).counts s = some d → c ≤ d) ∧
      (∀ a b ca cb, a ∈ (NewLeastConnBalancer ["X", "Y", "Z"]).servers →
        (NewLeastConnBalancer ["X", "Y", "Z"]).counts a = some ca →
        (NewLeastConnBalancer ["X", "Y", "Z"]).counts b = some cb → ca < cb → best ≠ b) ∧
      (∀ a b ca cb, (NewLeastConnBalancer ["X", "Y", "Z"]).servers = [a, b]
          ∨ (NewLeastConnBalancer ["X", "Y", "Z"]).servers = [b, a] →
        (NewLeastConnBalancer ["X", "Y", "Z"]).counts a = some ca →
        (NewLeastConnBalancer ["X", "Y", "Z"]).counts b = some cb → ca < cb → best = a) :=
  lc_next_min (NewLeastConnBalancer ["X", "Y", "Z"]) (by simp [NewLeastConnBalancer])
    (by
      intro s hs
      refine ⟨0, ?_, le_refl _⟩
      simp only [NewLeastConnBalancer] at hs ⊢
      simp [hs])

/-! ## P2C: lemmas -/

theorem Rand.Intn_lt (g : Rand) (n : Nat) (hn : 0 < n) : (g.Intn n).1 < n :=
  Nat.mod_lt _ hn

theorem p2cBalancer.pick_lt (g : Rand) (n : Nat) (hn : 0 < n) :
    (p2cBalancer.pick g n).1 < n ∧ (p2cBalancer.pick g n).2.1 < n := by
  simp only [p2cBalancer.pick]
  split_ifs
  · exact ⟨Rand.Intn_lt _ _ hn, Rand.Intn_lt _ _ hn⟩
  · exact ⟨Rand.Intn_lt _ _ hn, Rand.Intn_lt _ _ hn⟩

theorem p2cBalancer.mem_healthy (b : p2cBalancer) (s : String) :
    s ∈ b.getHealthyServers ↔ s ∈ b.servers ∧ b.health s = some true := by
  unfold p2cBalancer.getHealthyServers
  rw [List.mem_filter]
  cases h : b.health s with
  | none => simp
  | some v => simp

/-- With a counter for every listed server, `Next` over a non-empty healthy
list returns one of the healthy servers. -/
theorem p2cBalancer.Next_mem_healthy (b : p2cBalancer)
    (hwf : ∀ s ∈ b.servers, ∃ c, b.counts s = some c) (hne : b.getHealthyServers ≠ []) :
    ∃ r b1, b.Next = some (r, b1) ∧ r ∈ b.getHealthyServers := by
  have hlen0 : b.getHealthyServers.length ≠ 0 := by simpa using hne
  by_cases h1 : b.getHealthyServers.length = 1
  · obtain ⟨y, hy⟩ := List.length_eq_one.mp h1
    refine ⟨y, b, ?_, by simp [hy]⟩
    simp [p2cBalancer.Next, hy]
  · have hpos : 0 < b.getHealthyServers.length := Nat.pos_of_ne_zero hlen0
    obtain ⟨hp1, hp2⟩ := p2cBalancer.pick_lt b.rand _ hpos
    have hg1 := List.get?_eq_get hp1
    have hg2 := List.get?_eq_get hp2
    have hm1 : b.getHealthyServers.get ⟨_, hp1⟩ ∈ b.getHealthyServers := List.get_mem _ _ _
    have hm2 : b.getHealthyServers.get ⟨_, hp2⟩ ∈ b.getHealthyServers := List.get_mem _ _ _
    obtain ⟨c1, hc1⟩ := hwf _ ((p2cBalancer.mem_healthy b _).mp hm1).1
    obtain ⟨c2, hc2⟩ := hwf _ ((p2cBalancer.mem_healthy b _).mp hm2).1
    by_cases hle : c1 ≤ c2
    · refine ⟨b.getHealthyServers.get ⟨_, hp1⟩, ⟨b.servers, b.counts,
        (p2cBalancer.pick b.rand b.getHealthyServers.length).2.2, b.health,
        b.stopHealthClosed⟩, ?_, hm1⟩
      simp only [p2cBalancer.Next, if_neg hlen0, if_neg h1, hg1, hg2, hc1, hc2, if_pos hle]
    · refine ⟨b.getHealthyServers.get ⟨_, hp2⟩, ⟨b.servers, b.counts,
        (p2cBalancer.pick b.rand b.getHealthyServers.length).2.2, b.health,
        b.stopHealthClosed⟩, ?_, hm2⟩
      simp only [p2cBalancer.Next, if_neg hlen0, if_neg h1, hg1, hg2, hc1, hc2, if_neg hle]

/-- Whatever `Next` returns over a non-empty healthy list is one of the
healthy servers, for every state of the balancer. -/
theorem p2cBalancer.Next_result_healthy (b : p2cBalancer) (r : String) (b1 : p2cBalancer)
    (hres : b.Next = some (r, b1)) (hne : b.getHealthyServers ≠ []) :
    r ∈ b.getHealthyServers := by
  have hlen0 : b.getHealthyServers.length ≠ 0 := by simpa using hne
  unfold p2cBalancer.Next at hres
  simp only [if_neg hlen0] at hres
  split_ifs at hres with h1
  · cases hg : b.getHealthyServers.get? 0 with
    | none => rw [hg] at hres; simp at hres
    | some s =>
      rw [hg] at hres
      simp only [Option.map_some', Option.some.injEq, Prod.mk.injEq] at hres
      rw [← hres.1]
      exact List.get?_mem hg
  · split at hres
    · rename_i s1 s2 hs1 hs2
      split at hres
      · split_ifs at hres
        · simp only [Option.some.injEq, Prod.mk.injEq] at hres
          rw [← hres.1]
          exact List.get?_mem hs1
        · simp only [Option.some.injEq, Prod.mk.injEq] at hres
          rw [← hres.1]
          exact List.get?_mem hs2
      · simp at hres
    · simp at hres

/-- C3. For every health map, counter state and outcome of the generator, P2C
`Next` returns `""` and changes nothing when no backend is admissible, returns
the single admissible backend when exactly one is, and otherwise whatever it
returns is a listed backend whose health flag is true, and it does return when
every listed backend has a counter; with only `Y` admissible among `[X, Y, Z]`
every call returns `Y`. -/
theorem p2c_next_admissible (b : p2cBalancer) :
    (b.getHealthyServers = [] → b.Next = some ("", b)) ∧
    (∀ y, b.getHealthyServers = [y] → b.Next = some (y, b)) ∧
    (∀ r b1, b.Next = some (r, b1) → b.getHealthyServers ≠ [] →
      r ∈ b.servers ∧ b.health r = some true) ∧
    ((∀ s ∈ b.servers, ∃ c, b.counts s = some c) → b.getHealthyServers ≠ [] →
      ∃ r b1, b.Next = some (r, b1)) ∧
    (∀ y, (∀ s ∈ b.servers, ∃ c, b.counts s = some c) → b.getHealthyServers ≠ [] →
      (∀ s ∈ b.servers, b.health s = some true → s = y) → ∃ b1, b.Next = some (y, b1)) ∧
    (b.servers = ["X", "Y", "Z"] → b.health "X" = some false → b.health "Y" = some true →
      b.health "Z" = some false → b.Next = some ("Y", b)) := by
  have hone : ∀ y, b.getHealthyServers = [y] → b.Next = some (y, b) := by
    intro y hy
    simp [p2cBalancer.Next, hy]
  refine ⟨?_, hone, ?_, ?_, ?_, ?_⟩
  · intro h
    simp [p2cBalancer.Next, h]
  · intro r b1 hres hne
    exact (p2cBalancer.mem_healthy b r).mp (p2cBalancer.Next_result_healthy b r b1 hres hne)
  · intro hwf hne
    obtain ⟨r, b1, hres, _⟩ := p2cBalancer.Next_mem_healthy b hwf hne
    exact ⟨r, b1, hres⟩
  · intro y hwf hne hall
    obtain ⟨r, b1, hres, hmem⟩ := p2cBalancer.Next_mem_healthy b hwf hne
    obtain ⟨hr1, hr2⟩ := (p2cBalancer.mem_healthy b r).mp hmem
    have := hall r hr1 hr2
    subst this
    exact ⟨b1, hres⟩
  · intro hs hx hy hz
    apply hone
    simp [p2cBalancer.getHealthyServers, hs, hx, hy, hz]

/-! ## Adaptive supervisor -/

theorem wrapInt64_of_range (x : Int) (h1 : -2 ^ 63 ≤ x) (h2 : x < 2 ^ 63) : wrapInt64 x = x := by
  unfold wrapInt64
  rw [Int.emod_eq_of_lt (by omega) (by omega)]
  omega

/-- C4 as stated fails: at the largest `int64` in-flight value the increment
of `Next` wraps, so the counter drops to `-2^63` instead of growing by one. -/
theorem adaptive_next_wraps :
    (AdaptiveBalancer.Next
        (⟨NewRoundRobinBalancer ["B1", "B2"], NewLeastConnBalancer ["B1", "B2"],
          NewP2CBalancer ["B1", "B2"] ⟨fun _ => 0, 0⟩, 5, 10, 2 ^ 63 - 1⟩ :
          AdaptiveBalancer rrBalancer lcBalancer p2cBalancer)).map (fun x => (x.1, x.2.active))
      = some ("B1", -2 ^ 63) := by
  decide

/-- C4, amended. For every in-flight value `cur` and thresholds `(low, high)`,
adaptive `Next` returns the result of the round-robin child's `Next` if
`cur < low`, of the P2C child's if `low ≤ cur < high`, and of the
least-connections child's otherwise; only that child's state is replaced, the
thresholds are kept, and the in-flight counter becomes `cur + 1` whenever
`cur` is below the largest `int64`. With `low = 5`, `high = 10`: `cur = 0`
gives RR, `6` gives P2C, `12` gives LC. -/
theorem adaptive_next_band {R L P : Type} [Balancer R] [Balancer L] [Balancer P]
    (a : AdaptiveBalancer R L P) (hlo : -2 ^ 63 ≤ a.active) (hhi : a.active < 2 ^ 63 - 1) :
    (a.active < a.lowThresh →
      a.Next = (Balancer.Next a.rr).map fun x =>
        (x.1, ⟨x.2, a.lc, a.p2c, a.lowThresh, a.highThresh, a.active + 1⟩)) ∧
    (a.lowThresh ≤ a.active → a.active < a.highThresh →
      a.Next = (Balancer.Next a.p2c).map fun x =>
        (x.1, ⟨a.rr, a.lc, x.2, a.lowThresh, a.highThresh, a.active + 1⟩)) ∧
    (a.lowThresh ≤ a.active → a.highThresh ≤ a.active →
      a.Next = (Balancer.Next a.lc).map fun x =>
        (x.1, ⟨a.rr, x.2, a.p2c, a.lowThresh, a.highThresh, a.active + 1⟩)) ∧
    ((AdaptiveBalancer.Next (⟨⟨"rr"⟩, ⟨"lc", 0⟩, ⟨"p2c", 0⟩, 5, 10, 0⟩ :
        AdaptiveBalancer stubRR stubLC stubLC)).map (fun x => (x.1, x.2.active)) = some ("rr", 1) ∧
      (AdaptiveBalancer.Next (⟨⟨"rr"⟩, ⟨"lc", 0⟩, ⟨"p2c", 0⟩, 5, 10, 6⟩ :
        AdaptiveBalancer stubRR stubLC stubLC)).map (fun x => (x.1, x.2.active)) = some ("p2c", 7) ∧
      (AdaptiveBalancer.Next (⟨⟨"rr"⟩, ⟨"lc", 0⟩, ⟨"p2c", 0⟩, 5, 10, 12⟩ :
        AdaptiveBalancer stubRR stubLC stubLC)).map (fun x => (x.1, x.2.active))
          = some ("lc", 13)) := by
  have hw : wrapInt64 (a.active + 1) = a.active + 1 :=
    wrapInt64_of_range _ (by omega) (by omega)
  refine ⟨?_, ?_, ?_, by decide, by decide, by decide⟩
  · intro h
    simp only [AdaptiveBalancer.Next, AdaptiveBalancer.choose, if_pos h, Option.map_map]
    congr 1
    funext x
    simp [hw]
  · intro h1 h2
    have h1n : ¬ a.active < a.lowThresh := by omega
    simp only [AdaptiveBalancer.Next, AdaptiveBalancer.choose, if_neg h1n, if_pos h2,
      Option.map_map]
    congr 1
    funext x
    simp [hw]
  · intro h1 h2
    have h1n : ¬ a.active < a.lowThresh := by omega
    have h2n : ¬ a.active < a.highThresh := by omega
    simp only [AdaptiveBalancer.Next, AdaptiveBalancer.choose, if_neg h1n, if_neg h2n,
      Option.map_map]
    congr 1
    funext x
    simp [hw]

/-- Witness for C4 (amended): the real children over `[B1, B2]`, thresholds
`(5, 10)` and six requests in flight. -/
theorem adaptive_next_band_witness :
    AdaptiveBalancer.Next
        (⟨NewRoundRobinBalancer ["B1", "B2"], NewLeastConnBalancer ["B1", "B2"],
          NewP2CBalancer ["B1", "B2"] ⟨fun _ => 0, 0⟩, 5, 10, 6⟩ :
          AdaptiveBalancer rrBalancer lcBalancer p2cBalancer)
      = (Balancer.Next (NewP2CBalancer ["B1", "B2"] ⟨fun _ => 0, 0⟩)).map fun x =>
          (x.1, ⟨NewRoundRobinBalancer ["B1", "B2"], NewLeastConnBalancer ["B1", "B2"], x.2,
            5, 10, 6 + 1⟩) :=
  (adaptive_next_band
    (⟨NewRoundRobinBalancer ["B1", "B2"], NewLeastConnBalancer ["B1", "B2"],
      NewP2CBalancer ["B1", "B2"] ⟨fun _ => 0, 0⟩, 5, 10, 6⟩ :
      AdaptiveBalancer rrBalancer lcBalancer p2cBalancer)
    (by decide) (by decide)).2.1 (by decide) (by decide)

/-! ## Proxy dispatcher -/

/-- The forwarding part of the handler never touches the connection
counters. -/
theorem Proxy.forward_no_accounting (env : ProxyEnv) (server : String) (r : Request) (s : String) :
    ProxyEvent.increase s ∉ (Proxy.forward env server r).2
      ∧ ProxyEvent.decrease s ∉ (Proxy.forward env server r).2 := by
  unfold Proxy.forward
  cases env.parse server with
  | none => simp
  | some target =>
    cases h : env.roundTrip target r <;> simp [h]

/-- When the target parses, the forwarding part hands the request to the
transport. -/
theorem Proxy.forward_forwards (env : ProxyEnv) (server : String) (r : Request)
    (target : String × String) (h : env.parse server = some target) :
    ProxyEvent.forward target.1 target.2 ∈ (Proxy.forward env server r).2 := by
  unfold Proxy.forward
  rw [h]
  cases h2 : env.roundTrip target r <;> simp [h2]

/-- C8. For a request for which the balancer's `Next` returns a non-empty
backend `b` and the balancer is connection-aware, the handler calls
`Increase(b)` once, before anything of the forwarding, and `Decrease(b)` once,
after it, whatever the outcome of parsing the backend URL and of the transport
(reply, transport error, abort); when `Next` returns `""` it only writes the
503 reply and calls neither. -/
theorem proxy_increase_decrease {σ : Type} [Balancer σ] (p : Proxy σ) (env : ProxyEnv)
    (r : Request) (ca : ConnAware σ) (b : String) (bal1 : σ)
    (hca : p.connAware = some ca) (hnext : Balancer.Next p.balancer = some (b, bal1)) :
    (b ≠ "" →
      p.Handler env r = some ((Proxy.forward env b r).1,
          [ProxyEvent.next, ProxyEvent.increase b] ++ (Proxy.forward env b r).2
            ++ [ProxyEvent.decrease b],
          ⟨ca.Decrease (ca.Increase bal1 b) b, p.connAware⟩)
        ∧ (∀ s, ProxyEvent.increase s ∉ (Proxy.forward env b r).2
            ∧ ProxyEvent.decrease s ∉ (Proxy.forward env b r).2)
        ∧ ([ProxyEvent.next, ProxyEvent.increase b] ++ (Proxy.forward env b r).2
            ++ [ProxyEvent.decrease b]).count (ProxyEvent.increase b) = 1
        ∧ ([ProxyEvent.next, ProxyEvent.increase b] ++ (Proxy.forward env b r).2
            ++ [ProxyEvent.decrease b]).count (ProxyEvent.decrease b) = 1
        ∧ (∀ target, env.parse b = some target →
            ProxyEvent.forward target.1 target.2 ∈ (Proxy.forward env b r).2)) ∧
    (b = "" →
      p.Handler env r = some (Response.error "no servers available" 503,
        [ProxyEvent.next, ProxyEvent.write (Response.error "no servers available" 503)],
        ⟨bal1, p.connAware⟩)) := by
  constructor
  · intro hb
    have hi := List.count_eq_zero.mpr (Proxy.forward_no_accounting env b r b).1
    have hd := List.count_eq_zero.mpr (Proxy.forward_no_accounting env b r b).2
    refine ⟨?_, Proxy.forward_no_accounting env b r, ?_, ?_, Proxy.forward_forwards env b r⟩
    · simp only [Proxy.Handler, hnext, if_neg hb, hca]
    · simp [List.count_append, List.count_cons, hi]
    · simp [List.count_append, List.count_cons, hd]
  · intro hb
    subst hb
    simp only [Proxy.Handler, hnext, if_true]

/-- Witness for C8: a least-connections balancer over one backend whose URL
parses and which replies 200. -/
theorem proxy_increase_decrease_witness :
    (Proxy.mk (NewLeastConnBalancer ["http://a"]) (some inferInstance)).Handler
        ⟨fun _ => some ("http", "a"), fun _ _ => Upstream.reply 200 "ok"⟩
        ⟨"GET", "/", "1.2.3.4:5", fun _ => ""⟩
      = some ((Proxy.forward ⟨fun _ => some ("http", "a"), fun _ _ => Upstream.reply 200 "ok"⟩
            "http://a" ⟨"GET", "/", "1.2.3.4:5", fun _ => ""⟩).1,
          [ProxyEvent.next, ProxyEvent.increase "http://a"]
            ++ (Proxy.forward ⟨fun _ => some ("http", "a"), fun _ _ => Upstream.reply 200 "ok"⟩
              "http://a" ⟨"GET", "/", "1.2.3.4:5", fun _ => ""⟩).2
            ++ [ProxyEvent.decrease "http://a"],
          ⟨lcBalancer.Decrease (lcBalancer.Increase (NewLeastConnBalancer ["http://a"]) "http://a")
            "http://a", some inferInstance⟩) :=
  ((proxy_increase_decrease (Proxy.mk (NewLeastConnBalancer ["http://a"]) (some inferInstance))
    ⟨fun _ => some ("http", "a"), fun _ _ => Upstream.reply 200 "ok"⟩
    ⟨"GET", "/", "1.2.3.4:5", fun _ => ""⟩ inferInstance "http://a"
    (NewLeastConnBalancer ["http://a"]) rfl rfl).1 (by decide)).1

/-- C9 as stated fails: with a chosen backend whose URL does not parse there is
no transport error and no upstream reply, and the handler answers 500 with
`bad server URL`. -/
theorem proxy_bad_server_url :
    ((Proxy.mk (NewRoundRobinBalancer [":bad"]) none).Handler
        ⟨fun _ => none, fun _ _ => Upstream.reply 200 "ok"⟩
        ⟨"GET", "/", "1.2.3.4:5", fun _ => ""⟩).map (fun x => x.1)
      = some (Response.error "bad server URL" 500) := by
  decide

/-- C9, amended. The handler answers 503 `no servers available` when `Next`
returns `""`; otherwise 500 `bad server URL` when the chosen backend does not
parse as a URL; otherwise 502 `bad gateway` when the transport fails; otherwise
the transport has returned a reply, and the handler answers the upstream's
status and body unchanged, whatever the status, unless copying the reply to the
client fails, in which case the handler is aborted by a panic and delivers no
complete reply. These cases cover every outcome of the transport. -/
theorem proxy_failure_mapping {σ : Type} [Balancer σ] (p : Proxy σ) (env : ProxyEnv)
    (r : Request) (b : String) (bal1 : σ)
    (hnext : Balancer.Next p.balancer = some (b, bal1)) :
    (b = "" → (p.Handler env r).map (fun x => x.1)
      = some (Response.error "no servers available" 503)) ∧
    (b ≠ "" → env.parse b = none →
      (p.Handler env r).map (fun x => x.1) = some (Response.error "bad server URL" 500)) ∧
    (b ≠ "" → ∀ target, env.parse b = some target →
      env.roundTrip target r = Upstream.transportError →
      (p.Handler env r).map (fun x => x.1) = some (Response.error "bad gateway" 502)) ∧
    (b ≠ "" → ∀ target status body, env.parse b = some target →
      env.roundTrip target r = Upstream.reply status body →
      (p.Handler env r).map (fun x => x.1) = some (Response.upstream status body)) ∧
    (b ≠ "" → ∀ target, env.parse b = some target →
      env.roundTrip target r = Upstream.abort →
      (p.Handler env r).map (fun x => x.1) = some Response.aborted) ∧
    (∀ target, env.roundTrip target r = Upstream.transportError ∨
      (∃ status body, env.roundTrip target r = Upstream.reply status body) ∨
      env.roundTrip target r = Upstream.abort) := by
  have hresp : b ≠ "" → (p.Handler env r).map (fun x => x.1) = some (Proxy.forward env b r).1 := by
    intro hb
    simp only [Proxy.Handler, hnext, if_neg hb]
    cases p.connAware <;> rfl
  refine ⟨?_, ?_, ?_, ?_, ?_, ?_⟩
  · intro hb
    subst hb
    simp [Proxy.Handler, hnext]
  · intro hb hp
    rw [hresp hb]
    simp [Proxy.forward, hp]
  · intro hb target hp ht
    rw [hresp hb]
    simp [Proxy.forward, hp, ht]
  · intro hb target status body hp ht
    rw [hresp hb]
    simp [Proxy.forward, hp, ht]
  · intro hb target hp ht
    rw [hresp hb]
    simp [Proxy.forward, hp, ht]
  · intro target
    cases h : env.roundTrip target r with
    | reply status body => exact Or.inr (Or.inl ⟨status, body, rfl⟩)
    | transportError => exact Or.inl rfl
    | abort => exact Or.inr (Or.inr rfl)

/-- Witness for C9 (amended): the refused connection of the test, a transport
error on `http://127.0.0.1:1`. -/
theorem proxy_failure_mapping_witness :
    ((Proxy.mk (NewRoundRobinBalancer ["http://127.0.0.1:1"]) none).Handler
        ⟨fun _ => some ("http", "127.0.0.1:1"), fun _ _ => Upstream.transportError⟩
        ⟨"GET", "http://any/foo", "1.2.3.4:5", fun _ => ""⟩).map (fun x => x.1)
      = some (Response.error "bad gateway" 502) :=
  (proxy_failure_mapping (Proxy.mk (NewRoundRobinBalancer ["http://127.0.0.1:1"]) none)
    ⟨fun _ => some ("http", "127.0.0.1:1"), fun _ _ => Upstream.transportError⟩
    ⟨"GET", "http://any/foo", "1.2.3.4:5", fun _ => ""⟩ "http://127.0.0.1:1"
    (NewRoundRobinBalancer ["http://127.0.0.1:1"]).Next.2 rfl).2.2.1
    (by decide) ("http", "127.0.0.1:1") rfl rfl

/-! ## Rate-limit middleware -/

/-- C10. When the global limiter's `Allow(remote address)` is false the
middleware answers 429 `rate limit exceeded` and touches neither the per-client
limiter nor the next handler; otherwise, when `X-API-Key` is non-empty and the
per-client `Allow(key)` is false, it answers 429 `client rate limit exceeded`
without calling the next handler; otherwise it calls the next handler exactly
once and returns its reply, and with an absent or empty header the per-client
limiter is not called. -/
theorem middleware_rate_limit {G C N : Type} [RateLimiter G] [RateLimiter C]
    (serve : N → Request → Response × N) (s : MiddlewareState G C N) (r : Request) :
    ((RateLimiter.Allow s.globalRL r.remoteAddr).1 = false →
      rateLimitMiddleware serve s r
        = (Response.error "\x7b\"code\":429,\"message\":\"rate limit exceeded\"\x7d" 429,
            ["rate limit exceeded: %s"],
            ⟨(RateLimiter.Allow s.globalRL r.remoteAddr).2, s.clientRL, s.next⟩)) ∧
    ((RateLimiter.Allow s.globalRL r.remoteAddr).1 = true → r.header "X-API-Key" ≠ "" →
      (RateLimiter.Allow s.clientRL (r.header "X-API-Key")).1 = false →
      rateLimitMiddleware serve s r
        = (Response.error "\x7b\"code\":429,\"message\":\"client rate limit exceeded\"\x7d" 429,
            ["rate limit exceeded: %s"],
            ⟨(RateLimiter.Allow s.globalRL r.remoteAddr).2,
              (RateLimiter.Allow s.clientRL (r.header "X-API-Key")).2, s.next⟩)) ∧
    ((RateLimiter.Allow s.globalRL r.remoteAddr).1 = true → r.header "X-API-Key" ≠ "" →
      (RateLimiter.Allow s.clientRL (r.header "X-API-Key")).1 = true →
      rateLimitMiddleware serve s r
        = ((serve s.next r).1, [],
            ⟨(RateLimiter.Allow s.globalRL r.remoteAddr).2,
              (RateLimiter.Allow s.clientRL (r.header "X-API-Key")).2, (serve s.next r).2⟩)) ∧
    ((RateLimiter.Allow s.globalRL r.remoteAddr).1 = true → r.header "X-API-Key" = "" →
      rateLimitMiddleware serve s r
        = ((serve s.next r).1, [],
            ⟨(RateLimiter.Allow s.globalRL r.remoteAddr).2, s.clientRL, (serve s.next r).2⟩)) := by
  refine ⟨?_, ?_, ?_, ?_⟩
  · intro hg
    simp [rateLimitMiddleware, hg]
  · intro hg hk hc
    simp [rateLimitMiddleware, hg, hk, hc]
  · intro hg hk hc
    simp [rateLimitMiddleware, hg, hk, hc]
  · intro hg hk
    simp [rateLimitMiddleware, hg, hk]

/-! ## float64: rounding lemmas -/

theorem rne_intCast (n : Int) : rne (n : ℚ) = n := by
  simp [rne]

theorem rne_le_of_le {x : ℚ} {n : Int} (h : x ≤ n) : rne x ≤ n := by
  have hf : ⌊x⌋ ≤ n := by
    have := Int.floor_le x
    exact_mod_cast this.trans h
  unfold rne
  have hup : ¬ x - ⌊x⌋ < 1 / 2 → ⌊x⌋ + 1 ≤ n := by
    intro hh
    by_contra hc
    have h1 : n ≤ ⌊x⌋ := by omega
    have h2 : (n : ℚ) ≤ (⌊x⌋ : ℚ) := by exact_mod_cast h1
    apply hh
    linarith
  split_ifs with h1 h2 h3
  · exact hf
  · exact hup h1
  · exact hf
  · exact hup h1

theorem le_rne_of_le {x : ℚ} {n : Int} (h : (n : ℚ) ≤ x) : n ≤ rne x := by
  have hf : n ≤ ⌊x⌋ := Int.le_floor.mpr h
  unfold rne
  split_ifs <;> omega

theorem two_zpow_pos (e : Int) : (0 : ℚ) < (2 : ℚ) ^ e :=
  zpow_pos (by norm_num) e

theorem two_zpow_le {a b : Int} (h : a ≤ b) : (2 : ℚ) ^ a ≤ (2 : ℚ) ^ b :=
  zpow_le_zpow_right₀ (by norm_num) h

theorem two_zpow_lt {a b : Int} (h : a < b) : (2 : ℚ) ^ a < (2 : ℚ) ^ b :=
  zpow_lt_zpow_right₀ (by norm_num) h

theorem two_zpow_log_le {a : ℚ} (ha : 0 < a) : (2 : ℚ) ^ Int.log 2 a ≤ a := by
  have := Int.zpow_log_le_self (b := 2) (by norm_num) ha
  simpa using this

theorem lt_two_zpow_log_succ (a : ℚ) : a < (2 : ℚ) ^ (Int.log 2 a + 1) := by
  have := Int.lt_zpow_succ_log_self (b := 2) (by norm_num) a
  simpa using this

theorem log_lt_of_lt_two_zpow {a : ℚ} (ha : 0 < a) {k : Int} (h : a < (2 : ℚ) ^ k) :
    Int.log 2 a < k := by
  have := (Int.lt_zpow_iff_log_lt (b := 2) (by norm_num) (x := k) ha).mp (by simpa using h)
  exact this

theorem le_log_of_two_zpow_le {a : ℚ} (ha : 0 < a) {k : Int} (h : (2 : ℚ) ^ k ≤ a) :
    k ≤ Int.log 2 a := by
  have := (Int.zpow_le_iff_le_log (b := 2) (by norm_num) (x := k) ha).mp (by simpa using h)
  exact this

theorem quantum_ge (a : ℚ) : -1074 ≤ quantum a :=
  le_max_right _ _

theorem quantum_mono {a b : ℚ} (ha : 0 < a) (h : a ≤ b) : quantum a ≤ quantum b := by
  unfold quantum
  have := Int.log_mono_right (b := 2) ha h
  exact max_le_max (by omega) (le_refl _)

/-- A positive value with a 53-bit significand at exponent `e` has its
quantum at or below `e`. -/
theorem quantum_le_of_repr {a : ℚ} (ha : 0 < a) {m e : Int} (hm : m < 2 ^ 53)
    (he : -1074 ≤ e) (h : a = m * (2 : ℚ) ^ e) : quantum a ≤ e := by
  have hlt : a < (2 : ℚ) ^ (53 + e) := by
    rw [h, zpow_add₀ (by norm_num)]
    have : (m : ℚ) < (2 : ℚ) ^ (53 : Int) := by
      have h1 : (m : ℚ) < ((2 ^ 53 : Int) : ℚ) := by exact_mod_cast hm
      norm_num at h1 ⊢
      exact h1
    exact mul_lt_mul_of_pos_right this (two_zpow_pos e)
  have := log_lt_of_lt_two_zpow ha hlt
  unfold quantum
  exact max_le (by omega) he

/-- The scaled magnitude stays below `2^53`. -/
theorem scaled_lt (a : ℚ) : a / (2 : ℚ) ^ quantum a < (2 : ℚ) ^ (53 : Int) := by
  rw [div_lt_iff₀ (two_zpow_pos _), ← zpow_add₀ (by norm_num)]
  refine lt_of_lt_of_le (lt_two_zpow_log_succ a) (two_zpow_le ?_)
  have : Int.log 2 a - 52 ≤ quantum a := le_max_left _ _
  omega

/-- Above the subnormal range the scaled magnitude is at least `2^52`. -/
theorem le_scaled {a : ℚ} (ha : 0 < a) (hq : quantum a = Int.log 2 a - 52) :
    (2 : ℚ) ^ (52 : Int) ≤ a / (2 : ℚ) ^ quantum a := by
  rw [le_div_iff₀ (two_zpow_pos _), ← zpow_add₀ (by norm_num), hq]
  have : (52 : Int) + (Int.log 2 a - 52) = Int.log 2 a := by omega
  rw [this]
  exact two_zpow_log_le ha

theorem lt_of_two_zpow_lt {a b : Int} (h : (2 : ℚ) ^ a < (2 : ℚ) ^ b) : a < b := by
  by_contra hc
  exact absurd (two_zpow_le (not_lt.mp hc)) (not_le.mpr h)

theorem F64.round_of_pos {q : ℚ} (hq : 0 < q) :
    F64.round q =
      if (2 : ℚ) ^ (1024 : Int) ≤ rne (q / (2 : ℚ) ^ quantum q) * (2 : ℚ) ^ quantum q then F64.pinf
      else F64.fin (rne (q / (2 : ℚ) ^ quantum q) * (2 : ℚ) ^ quantum q) := by
  unfold F64.round
  rw [abs_of_pos hq, if_neg hq.ne', if_neg (not_lt.mpr hq.le), if_neg (not_lt.mpr hq.le)]

theorem rne_scaled_nonneg {q : ℚ} (hq : 0 < q) : 0 ≤ rne (q / (2 : ℚ) ^ quantum q) := by
  apply le_rne_of_le
  have := div_nonneg hq.le (two_zpow_pos (quantum q)).le
  simpa using this

theorem rne_scaled_le (q : ℚ) : rne (q / (2 : ℚ) ^ quantum q) ≤ 2 ^ 53 := by
  apply rne_le_of_le
  have := (scaled_lt q).le
  norm_num at this ⊢
  exact this

/-- A rounded positive magnitude that does not overflow is representable. -/
theorem isF64_rounded {q : ℚ} (hq : 0 < q)
    (hno : ¬ (2 : ℚ) ^ (1024 : Int) ≤ rne (q / (2 : ℚ) ^ quantum q) * (2 : ℚ) ^ quantum q) :
    IsF64 (rne (q / (2 : ℚ) ^ quantum q) * (2 : ℚ) ^ quantum q) := by
  have h0 := rne_scaled_nonneg hq
  have h53 := rne_scaled_le q
  have hge := quantum_ge q
  have hno1 := not_le.mp hno
  rcases eq_or_lt_of_le h53 with heq | hlt
  · -- the significand rounded up to 2^53: renormalise
    rw [heq] at hno1 ⊢
    have h1 : (((2 : Int) ^ 53 : Int) : ℚ) * (2 : ℚ) ^ quantum q = (2 : ℚ) ^ (53 + quantum q) := by
      rw [zpow_add₀ (by norm_num)]; norm_num
    rw [h1] at hno1
    have h2 := lt_of_two_zpow_lt hno1
    refine ⟨2 ^ 52, quantum q + 1, by norm_num, by omega, by omega, ?_⟩
    rw [zpow_add₀ (by norm_num)]
    push_cast
    ring
  · have hq971 : quantum q ≤ 971 := by
      rcases max_cases (Int.log 2 q - 52) (-1074) with ⟨hm, _⟩ | ⟨hm, _⟩
      · have hqq : quantum q = Int.log 2 q - 52 := hm
        have h52 : (2 : Int) ^ 52 ≤ rne (q / (2 : ℚ) ^ quantum q) := by
          apply le_rne_of_le
          have := le_scaled hq hqq
          norm_num at this ⊢
          exact this
        have h52q : ((2 : ℚ) ^ (52 : Int)) ≤ (rne (q / (2 : ℚ) ^ quantum q) : ℚ) := by
          have : (((2 : Int) ^ 52 : Int) : ℚ) ≤ (rne (q / (2 : ℚ) ^ quantum q) : ℚ) := by
            exact_mod_cast h52
          norm_num at this ⊢
          exact this
        have h3 : (2 : ℚ) ^ (52 + quantum q) < (2 : ℚ) ^ (1024 : Int) := by
          rw [zpow_add₀ (by norm_num)]
          exact lt_of_le_of_lt (mul_le_mul_of_nonneg_right h52q (two_zpow_pos _).le) hno1
        have := lt_of_two_zpow_lt h3
        omega
      · have hqq : quantum q = -1074 := hm
        omega
    refine ⟨rne (q / (2 : ℚ) ^ quantum q), quantum q, ?_, hge, hq971, rfl⟩
    rw [abs_of_nonneg h0]
    exact hlt

/-- Rounding a positive rational yields `+Inf` or a non-negative representable
value. -/
theorem F64.round_pos_cases {q : ℚ} (hq : 0 < q) :
    F64.round q = F64.pinf ∨ ∃ r, F64.round q = F64.fin r ∧ 0 ≤ r ∧ IsF64 r := by
  rw [F64.round_of_pos hq]
  split_ifs with h
  · exact Or.inl rfl
  · refine Or.inr ⟨_, rfl, ?_, isF64_rounded hq h⟩
    exact mul_nonneg (by exact_mod_cast rne_scaled_nonneg hq) (two_zpow_pos _).le

theorem isF64_zero : IsF64 0 :=
  ⟨0, 0, by norm_num, by norm_num, by norm_num, by simp⟩

/-- Rounding is exact on positive representable values. -/
theorem F64.round_exact_pos {q : ℚ} (hq : 0 < q) (hr : IsF64 q) : F64.round q = F64.fin q := by
  obtain ⟨m, e, hm, he1, he2, hqe⟩ := hr
  have hmpos : 0 < m := by
    by_contra hc
    have : (m : ℚ) ≤ 0 := by exact_mod_cast not_lt.mp hc
    have := mul_nonpos_of_nonpos_of_nonneg this (two_zpow_pos e).le
    rw [← hqe] at this
    exact absurd hq (not_lt.mpr this)
  have hm53 : m < 2 ^ 53 := lt_of_le_of_lt (le_abs_self m) hm
  have hqle := quantum_le_of_repr hq hm53 he1 hqe
  -- the scaled value is the integer m * 2^(e - quantum q)
  have hk : 0 ≤ e - quantum q := by omega
  obtain ⟨k, hk⟩ := Int.eq_ofNat_of_zero_le hk
  have hscaled : q / (2 : ℚ) ^ quantum q = ((m * 2 ^ k : Int) : ℚ) := by
    rw [div_eq_iff (two_zpow_pos _).ne']
    push_cast
    rw [mul_assoc, ← zpow_natCast, ← zpow_add₀ (by norm_num), ← hk, hqe]
    congr 2
    omega
  have hback : ((m * 2 ^ k : Int) : ℚ) * (2 : ℚ) ^ quantum q = q := by
    rw [← hscaled]
    exact div_mul_cancel₀ _ (two_zpow_pos _).ne'
  rw [F64.round_of_pos hq, hscaled, rne_intCast, hback]
  have hlt : q < (2 : ℚ) ^ (1024 : Int) := by
    have h1 : (m : ℚ) < (2 : ℚ) ^ (53 : Int) := by
      have h1 : (m : ℚ) < ((2 ^ 53 : Int) : ℚ) := by exact_mod_cast hm53
      norm_num at h1 ⊢
      exact h1
    have h2 : (2 : ℚ) ^ e ≤ (2 : ℚ) ^ (971 : Int) := two_zpow_le he2
    have h3 : (2 : ℚ) ^ (1024 : Int) = (2 : ℚ) ^ (53 : Int) * (2 : ℚ) ^ (971 : Int) := by
      rw [← zpow_add₀ (by norm_num)]; norm_num
    rw [hqe, h3]
    exact mul_lt_mul h1 h2 (two_zpow_pos e) (two_zpow_pos _).le
  rw [if_neg (not_le.mpr hlt)]

/-- Rounding is exact on non-negative representable values. -/
theorem F64.round_exact {q : ℚ} (hq : 0 ≤ q) (hr : IsF64 q) : F64.round q = F64.fin q := by
  rcases eq_or_lt_of_le hq with h | h
  · subst h; simp [F64.round]
  · exact F64.round_exact_pos h hr

/-- A representable value is below the overflow threshold. -/
theorem IsF64.lt_overflow {t : ℚ} (ht : IsF64 t) : t < (2 : ℚ) ^ (1024 : Int) := by
  obtain ⟨m, e, hm, _, he2, hte⟩ := ht
  have hm53 : m < 2 ^ 53 := lt_of_le_of_lt (le_abs_self m) hm
  have h1 : (m : ℚ) < (2 : ℚ) ^ (53 : Int) := by
    have h1 : (m : ℚ) < ((2 ^ 53 : Int) : ℚ) := by exact_mod_cast hm53
    norm_num at h1 ⊢
    exact h1
  have h2 : (2 : ℚ) ^ e ≤ (2 : ℚ) ^ (971 : Int) := two_zpow_le he2
  have h3 : (2 : ℚ) ^ (1024 : Int) = (2 : ℚ) ^ (53 : Int) * (2 : ℚ) ^ (971 : Int) := by
    rw [← zpow_add₀ (by norm_num)]; norm_num
  rw [hte, h3]
  exact mul_lt_mul h1 h2 (two_zpow_pos e) (two_zpow_pos _).le

/-- A value on the grid of exponent `e` is an integer multiple of every finer
grid `2^q`, `q ≤ e`. -/
theorem scaled_int {t : ℚ} {m e q : Int} (ht : t = m * (2 : ℚ) ^ e) (hq : q ≤ e) :
    ∃ N : Int, t / (2 : ℚ) ^ q = (N : ℚ) ∧ (N : ℚ) * (2 : ℚ) ^ q = t := by
  obtain ⟨k, hk⟩ := Int.eq_ofNat_of_zero_le (show 0 ≤ e - q by omega)
  have h1 : t / (2 : ℚ) ^ q = ((m * 2 ^ k : Int) : ℚ) := by
    rw [div_eq_iff (two_zpow_pos _).ne']
    push_cast
    rw [mul_assoc, ← zpow_natCast, ← zpow_add₀ (by norm_num), ← hk, ht]
    congr 2
    omega
  refine ⟨m * 2 ^ k, h1, ?_⟩
  rw [← h1]
  exact div_mul_cancel₀ _ (two_zpow_pos _).ne'

/-- The significand of a positive representable value is positive and below
`2^53`. -/
theorem IsF64.pos_repr {t : ℚ} (ht : IsF64 t) (hpos : 0 < t) :
    ∃ m e : Int, 0 < m ∧ m < 2 ^ 53 ∧ -1074 ≤ e ∧ e ≤ 971 ∧ t = m * (2 : ℚ) ^ e := by
  obtain ⟨m, e, hm, he1, he2, hte⟩ := ht
  refine ⟨m, e, ?_, lt_of_le_of_lt (le_abs_self m) hm, he1, he2, hte⟩
  by_contra hc
  have : (m : ℚ) ≤ 0 := by exact_mod_cast not_lt.mp hc
  have := mul_nonpos_of_nonpos_of_nonneg this (two_zpow_pos e).le
  rw [← hte] at this
  exact absurd hpos (not_lt.mpr this)

/-- Rounding does not cross a representable value from below: the rounding of
a positive `x ≤ t` is finite and at most `t`. -/
theorem F64.round_le_of_le {x t : ℚ} (hx : 0 < x) (hxt : x ≤ t) (ht : IsF64 t) :
    ∃ r, F64.round x = F64.fin r ∧ 0 ≤ r ∧ r ≤ t ∧ IsF64 r := by
  have htpos : 0 < t := lt_of_lt_of_le hx hxt
  obtain ⟨m, e, _, hm53, he1, _, hte⟩ := ht.pos_repr htpos
  have hq1 : quantum x ≤ quantum t := quantum_mono hx hxt
  have hq2 : quantum t ≤ e := quantum_le_of_repr htpos hm53 he1 hte
  obtain ⟨N, hN1, hN2⟩ := scaled_int hte (le_trans hq1 hq2)
  have hle : rne (x / (2 : ℚ) ^ quantum x) ≤ N := by
    apply rne_le_of_le
    rw [← hN1]
    exact div_le_div_of_nonneg_right hxt (two_zpow_pos _).le
  have hr : (rne (x / (2 : ℚ) ^ quantum x) : ℚ) * (2 : ℚ) ^ quantum x ≤ t := by
    rw [← hN2]
    exact mul_le_mul_of_nonneg_right (by exact_mod_cast hle) (two_zpow_pos _).le
  have hno : ¬ (2 : ℚ) ^ (1024 : Int) ≤
      rne (x / (2 : ℚ) ^ quantum x) * (2 : ℚ) ^ quantum x :=
    not_le.mpr (lt_of_le_of_lt hr ht.lt_overflow)
  refine ⟨_, ?_, ?_, hr, isF64_rounded hx hno⟩
  · rw [F64.round_of_pos hx, if_neg hno]
  · exact mul_nonneg (by exact_mod_cast rne_scaled_nonneg hx) (two_zpow_pos _).le

/-- Rounding does not cross a representable value from above: the rounded
magnitude of `x ≥ t > 0` is at least `t`. -/
theorem le_rounded_of_le {x t : ℚ} (htpos : 0 < t) (htx : t ≤ x) (ht : IsF64 t) :
    t ≤ rne (x / (2 : ℚ) ^ quantum x) * (2 : ℚ) ^ quantum x := by
  have hx : 0 < x := lt_of_lt_of_le htpos htx
  obtain ⟨m, e, hm0, hm53, he1, _, hte⟩ := ht.pos_repr htpos
  have hlog : Int.log 2 t ≤ Int.log 2 x := Int.log_mono_right htpos htx
  rcases eq_or_lt_of_le hlog with heq | hlt
  · -- same binade: t lies on the grid of x
    have hq1 : quantum x = quantum t := by unfold quantum; rw [heq]
    have hq2 : quantum t ≤ e := quantum_le_of_repr htpos hm53 he1 hte
    obtain ⟨N, hN1, hN2⟩ := scaled_int hte (show quantum x ≤ e by omega)
    have hle : N ≤ rne (x / (2 : ℚ) ^ quantum x) := by
      apply le_rne_of_le
      rw [← hN1]
      exact div_le_div_of_nonneg_right htx (two_zpow_pos _).le
    rw [← hN2]
    exact mul_le_mul_of_nonneg_right (by exact_mod_cast hle) (two_zpow_pos _).le
  · -- a higher binade: the power of two at its bottom lies in between
    have ht1074 : (2 : ℚ) ^ (-1074 : Int) ≤ t := by
      rw [hte]
      have h1 : (1 : ℚ) ≤ (m : ℚ) := by exact_mod_cast hm0
      calc (2 : ℚ) ^ (-1074 : Int) ≤ (2 : ℚ) ^ e := two_zpow_le he1
        _ = 1 * (2 : ℚ) ^ e := (one_mul _).symm
        _ ≤ (m : ℚ) * (2 : ℚ) ^ e := mul_le_mul_of_nonneg_right h1 (two_zpow_pos _).le
    have hLt : -1074 ≤ Int.log 2 t := le_log_of_two_zpow_le htpos ht1074
    have hqx : quantum x ≤ Int.log 2 x := by
      unfold quantum
      exact max_le (by omega) (by omega)
    have hpow : (2 : ℚ) ^ Int.log 2 x = (1 : Int) * (2 : ℚ) ^ Int.log 2 x := by simp
    obtain ⟨N, hN1, hN2⟩ := scaled_int hpow hqx
    have hle : N ≤ rne (x / (2 : ℚ) ^ quantum x) := by
      apply le_rne_of_le
      rw [← hN1]
      exact div_le_div_of_nonneg_right (two_zpow_log_le hx) (two_zpow_pos _).le
    have h1 : t < (2 : ℚ) ^ Int.log 2 x :=
      lt_of_lt_of_le (lt_two_zpow_log_succ t) (two_zpow_le (by omega))
    refine le_trans h1.le ?_
    rw [← hN2]
    exact mul_le_mul_of_nonneg_right (by exact_mod_cast hle) (two_zpow_pos _).le

/-- The rounding of `x ≥ t > 0`, `t` representable, is `+Inf` or a
representable value at least `t`. -/
theorem F64.le_round_of_le {x t : ℚ} (htpos : 0 < t) (htx : t ≤ x) (ht : IsF64 t) :
    F64.round x = F64.pinf ∨ ∃ r, F64.round x = F64.fin r ∧ t ≤ r ∧ IsF64 r := by
  have hx : 0 < x := lt_of_lt_of_le htpos htx
  rw [F64.round_of_pos hx]
  split_ifs with h
  · exact Or.inl rfl
  · exact Or.inr ⟨_, rfl, le_rounded_of_le htpos htx ht, isF64_rounded hx h⟩

/-! ## Token bucket: consuming the initial tokens -/

/-- Below `2^53` the representable values are closed under subtracting a
whole number, as long as the result stays non-negative. -/
theorem isF64_sub_nat {q : ℚ} (hq : IsF64 q) (h53 : q ≤ 2 ^ 53) (k : Nat) (hk : 0 ≤ q - k) :
    IsF64 (q - k) := by
  have hq0 : 0 ≤ q := le_trans hk (by simp)
  rcases eq_or_lt_of_le hq0 with h0 | hpos
  · have hk0 : (k : ℚ) = 0 := by
      have : (0 : ℚ) ≤ (k : ℚ) := Nat.cast_nonneg k
      rw [← h0] at hk
      linarith
    rw [hk0, sub_zero]
    exact hq
  · obtain ⟨m, e, hm0, hm53, he1, he2, hqe⟩ := hq.pos_repr hpos
    by_cases he : 0 ≤ e
    · obtain ⟨j, hj⟩ := Int.eq_ofNat_of_zero_le he
      have hqn : q = ((m * 2 ^ j : Int) : ℚ) := by
        rw [hqe, hj]; push_cast; rw [zpow_natCast]
      have hsub : q - k = ((m * 2 ^ j - k : Int) : ℚ) := by rw [hqn]; push_cast; ring
      have hlo : 0 ≤ m * 2 ^ j - (k : Int) := by
        have : (0 : ℚ) ≤ ((m * 2 ^ j - k : Int) : ℚ) := by rw [← hsub]; exact hk
        exact_mod_cast this
      have hhi : m * 2 ^ j - (k : Int) ≤ 2 ^ 53 := by
        have h1 : ((m * 2 ^ j - k : Int) : ℚ) ≤ q := by rw [← hsub]; simp
        have h2 : ((m * 2 ^ j - k : Int) : ℚ) ≤ ((2 ^ 53 : Int) : ℚ) := by
          refine le_trans h1 (le_trans h53 ?_); norm_num
        exact_mod_cast h2
      rcases eq_or_lt_of_le hhi with heq | hlt
      · refine ⟨2 ^ 52, 1, by norm_num, by norm_num, by norm_num, ?_⟩
        rw [hsub, heq]; norm_num
      · refine ⟨m * 2 ^ j - k, 0, ?_, by norm_num, by norm_num, ?_⟩
        · rw [abs_of_nonneg hlo]; exact hlt
        · rw [hsub]; simp
    · obtain ⟨j, hj⟩ := Int.eq_ofNat_of_zero_le (show 0 ≤ -e by omega)
      have hpow : (2 : ℚ) ^ e * (2 : ℚ) ^ j = 1 := by
        rw [← zpow_natCast, ← zpow_add₀ (by norm_num), ← hj]; simp
      have hsub : q - k = ((m - k * 2 ^ j : Int) : ℚ) * (2 : ℚ) ^ e := by
        push_cast
        rw [sub_mul, ← hqe, mul_assoc, mul_comm ((2 : ℚ) ^ j), hpow, mul_one]
      have hlo : 0 ≤ m - (k : Int) * 2 ^ j := by
        by_contra hc
        have h1 : ((m - k * 2 ^ j : Int) : ℚ) < 0 := by exact_mod_cast not_le.mp hc
        have := mul_neg_of_neg_of_pos h1 (two_zpow_pos e)
        rw [← hsub] at this
        exact absurd hk (not_le.mpr this)
      have hhi : m - (k : Int) * 2 ^ j ≤ m := by
        have : (0 : Int) ≤ (k : Int) * 2 ^ j := by positivity
        omega
      refine ⟨m - k * 2 ^ j, e, ?_, he1, he2, hsub⟩
      rw [abs_of_nonneg hlo]
      omega

/-- Calling `Allow` on a bucket holding a finite `t ≥ 1` whose predecessor `t - 1` is
representable grants and stores exactly `t - 1`. -/
theorem TokenBucketLimiter.Allow_grant (tb : TokenBucketLimiter) (key : String) (t : ℚ)
    (hload : tb.loadOrStore key = F64.fin t) (h1 : 1 ≤ t) (hrep : IsF64 (t - 1)) :
    (tb.Allow key).1 = true ∧ (tb.Allow key).2.capacity = tb.capacity ∧
      (tb.Allow key).2.loadOrStore key = F64.fin (t - 1) := by
  have hle : F64.le (F64.fin 1) (tb.loadOrStore key) = true := by
    rw [hload]; simp [F64.le, h1]
  have hsub : F64.sub (F64.fin t) (F64.fin 1) = F64.fin (t - 1) := by
    simp only [F64.sub, F64.neg, F64.add]
    rw [← sub_eq_add_neg]
    exact F64.round_exact (by linarith) hrep
  simp only [TokenBucketLimiter.Allow, hle, if_true]
  refine ⟨trivial, trivial, ?_⟩
  simp [TokenBucketLimiter.loadOrStore, hsub, ← hload]
  simp [TokenBucketLimiter.loadOrStore] at hload
  rw [hload, hsub]

/-- Calling `Allow` on a bucket holding a finite `t < 1` refuses and keeps `t`. -/
theorem TokenBucketLimiter.Allow_refuse (tb : TokenBucketLimiter) (key : String) (t : ℚ)
    (hload : tb.loadOrStore key = F64.fin t) (h1 : t < 1) :
    (tb.Allow key).1 = false ∧ (tb.Allow key).2.capacity = tb.capacity ∧
      (tb.Allow key).2.loadOrStore key = F64.fin t := by
  have hle : F64.le (F64.fin 1) (tb.loadOrStore key) = false := by
    rw [hload]; simp [F64.le, h1]
  simp only [TokenBucketLimiter.Allow, hle]
  refine ⟨by simp, by simp, ?_⟩
  simp [TokenBucketLimiter.loadOrStore]
  simp [TokenBucketLimiter.loadOrStore] at hload
  exact hload

/-- The state reached by `n` successive `Allow(key)` calls on a key whose
bucket starts at a representable `q` with `0 ≤ q ≤ 2^53`. -/
theorem TokenBucketLimiter.allowN_spec (tb : TokenBucketLimiter) (key : String) (q : ℚ)
    (hload : tb.loadOrStore key = F64.fin q) (hq : IsF64 q) (h0 : 0 ≤ q) (h53 : q ≤ 2 ^ 53)
    (n : Nat) :
    (tb.allowN key n).1
        = List.replicate (min n ⌊q⌋₊) true ++ List.replicate (n - ⌊q⌋₊) false ∧
      (tb.allowN key n).2.capacity = tb.capacity ∧
      (tb.allowN key n).2.loadOrStore key = F64.fin (q - (min n ⌊q⌋₊ : Nat)) := by
  induction n with
  | zero => simp [TokenBucketLimiter.allowN, hload]
  | succ n ih =>
    obtain ⟨ih1, ih2, ih3⟩ := ih
    have hfl : ((⌊q⌋₊ : Nat) : ℚ) ≤ q := Nat.floor_le h0
    by_cases hn : n < ⌊q⌋₊
    · have hmin : min n ⌊q⌋₊ = n := min_eq_left hn.le
      have hmin1 : min (n + 1) ⌊q⌋₊ = n + 1 := min_eq_left hn
      rw [hmin] at ih1 ih3
      have hn1 : ((n + 1 : Nat) : ℚ) ≤ q := le_trans (by exact_mod_cast hn) hfl
      push_cast at hn1
      have hrep : IsF64 (q - (n : ℚ) - 1) := by
        have := isF64_sub_nat hq h53 (n + 1) (by push_cast; linarith)
        push_cast at this
        rwa [← sub_sub] at this
      obtain ⟨g1, g2, g3⟩ := TokenBucketLimiter.Allow_grant (tb.allowN key n).2 key _ ih3
        (by linarith) hrep
      refine ⟨?_, ?_, ?_⟩
      · simp only [TokenBucketLimiter.allowN, ih1, g1, hmin1]
        have e1 : n - ⌊q⌋₊ = 0 := by omega
        have e2 : n + 1 - ⌊q⌋₊ = 0 := by omega
        rw [e1, e2, List.replicate_succ']
        simp
      · simp only [TokenBucketLimiter.allowN, g2, ih2]
      · simp only [TokenBucketLimiter.allowN, g3, hmin1]
        push_cast
        rw [sub_sub]
    · have hn2 : ⌊q⌋₊ ≤ n := not_lt.mp hn
      have hmin : min n ⌊q⌋₊ = ⌊q⌋₊ := min_eq_right hn2
      have hmin1 : min (n + 1) ⌊q⌋₊ = ⌊q⌋₊ := min_eq_right (by omega)
      rw [hmin] at ih1 ih3
      have hlt : q - ((⌊q⌋₊ : Nat) : ℚ) < 1 := by
        have := Nat.lt_floor_add_one q
        linarith
      obtain ⟨g1, g2, g3⟩ := TokenBucketLimiter.Allow_refuse (tb.allowN key n).2 key _ ih3 hlt
      refine ⟨?_, ?_, ?_⟩
      · simp only [TokenBucketLimiter.allowN, ih1, g1, hmin1]
        have e2 : n + 1 - ⌊q⌋₊ = (n - ⌊q⌋₊) + 1 := by omega
        rw [e2, List.replicate_succ' (n - ⌊q⌋₊)]
        simp
      · simp only [TokenBucketLimiter.allowN, g2, ih2]
      · simp only [TokenBucketLimiter.allowN, g3, hmin1]

/-- C5 as stated fails: with capacity `2^53 + 2` the first granted call
leaves `2^53` tokens, two less than before, because `2^53 + 1` is not a
`float64`. -/
theorem tb_allow_large_capacity :
    ((NewTokenBucketLimiter (F64.fin (2 ^ 53 + 2)) (F64.fin 1) 1000000000).Allow "k").1 = true
      ∧ ((NewTokenBucketLimiter (F64.fin (2 ^ 53 + 2)) (F64.fin 1) 1000000000).Allow "k").2.buckets
          "k" = some (F64.fin (2 ^ 53)) := by
  have hlog : Int.log 2 ((2 : ℚ) ^ 53 + 1) = 53 := by
    apply le_antisymm
    · have := log_lt_of_lt_two_zpow (a := (2 : ℚ) ^ 53 + 1) (k := 54) (by norm_num) (by norm_num)
      omega
    · exact le_log_of_two_zpow_le (by norm_num) (by norm_num)
  have hquant : quantum ((2 : ℚ) ^ 53 + 1) = 1 := by
    unfold quantum; rw [hlog]; norm_num
  have hfloor : ⌊((2 : ℚ) ^ 53 + 1) / 2⌋ = 2 ^ 52 := by
    rw [Int.floor_eq_iff]; norm_num
  have hrne : rne (((2 : ℚ) ^ 53 + 1) / (2 : ℚ) ^ (1 : Int)) = 2 ^ 52 := by
    have h2 : ((2 : ℚ) ^ 53 + 1) / (2 : ℚ) ^ (1 : Int) = ((2 : ℚ) ^ 53 + 1) / 2 := by norm_num
    rw [h2]
    unfold rne
    rw [hfloor]
    norm_num
  have hround : F64.round ((2 : ℚ) ^ 53 + 1) = F64.fin (2 ^ 53) := by
    rw [F64.round_of_pos (by norm_num), hquant, hrne]
    norm_num
  have hsub : F64.sub (F64.fin (2 ^ 53 + 2)) (F64.fin 1) = F64.fin (2 ^ 53) := by
    simp only [F64.sub, F64.neg, F64.add]
    have : ((2 : ℚ) ^ 53 + 2 + -1) = (2 : ℚ) ^ 53 + 1 := by ring
    rw [this, hround]
  have hle : F64.le (F64.fin 1) (F64.fin (2 ^ 53 + 2)) = true := by
    simp only [F64.le]; norm_num
  simp only [TokenBucketLimiter.Allow, NewTokenBucketLimiter, TokenBucketLimiter.loadOrStore,
    hle, hsub, if_true]
  simp

/-- C5, amended. For a token-bucket limiter whose capacity is a `float64`
`c` with `0 ≤ c ≤ 2^53` and a key not used before, with no refill tick the
first `floor(c)` calls of `Allow(key)` return true and every later call returns
false; after `n` calls the bucket holds `c - min(n, floor(c))`, so each granted
call lowers the tokens by exactly 1 and a refused call leaves them unchanged. -/
theorem tb_allow_initial (tb : TokenBucketLimiter) (key : String) (c : ℚ)
    (hcap : tb.capacity = F64.fin c) (hc : IsF64 c) (h0 : 0 ≤ c) (h53 : c ≤ 2 ^ 53)
    (hnew : tb.buckets key = none) (n : Nat) :
    (tb.allowN key n).1
        = List.replicate (min n ⌊c⌋₊) true ++ List.replicate (n - ⌊c⌋₊) false ∧
      (tb.allowN key n).2.loadOrStore key = F64.fin (c - (min n ⌊c⌋₊ : Nat)) := by
  have hload : tb.loadOrStore key = F64.fin c := by
    simp [TokenBucketLimiter.loadOrStore, hnew, hcap]
  obtain ⟨h1, _, h3⟩ := TokenBucketLimiter.allowN_spec tb key c hload hc h0 h53 n
  exact ⟨h1, h3⟩

/-- Witness for C5 (amended): capacity 2 gives true, true, false. -/
theorem tb_allow_initial_witness :
    ((NewTokenBucketLimiter (F64.fin 2) (F64.fin 0) 1000000000).allowN "k" 3).1
        = [true, true, false] ∧
      ((NewTokenBucketLimiter (F64.fin 2) (F64.fin 0) 1000000000).allowN "k" 3).2.loadOrStore "k"
        = F64.fin 0 := by
  have h := tb_allow_initial (NewTokenBucketLimiter (F64.fin 2) (F64.fin 0) 1000000000) "k" 2 rfl
    ⟨1, 1, by norm_num, by norm_num, by norm_num, by norm_num⟩ (by norm_num) (by norm_num) rfl 3
  have hf : ⌊(2 : ℚ)⌋₊ = 2 := by
    have : ((2 : Nat) : ℚ) = (2 : ℚ) := by norm_num
    rw [← this, Nat.floor_natCast]
  rw [hf] at h
  simpa using h

/-! ## float64: non-negative values -/

theorem F64.NonNeg.zero_le {x : F64} (h : F64.NonNeg x) : F64.le (F64.fin 0) x = true := by
  rcases h with rfl | ⟨r, rfl, hr, _⟩
  · rfl
  · simp [F64.le, hr]

theorem F64.NonNeg.le_self {x : F64} (h : F64.NonNeg x) : F64.le x x = true := by
  rcases h with rfl | ⟨r, rfl, _, _⟩
  · rfl
  · simp [F64.le]

theorem F64.NonNeg.le_of_not_lt {x y : F64} (hx : F64.NonNeg x) (hy : F64.NonNeg y)
    (h : F64.lt y x = false) : F64.le x y = true := by
  rcases hx with rfl | ⟨a, rfl, _, _⟩ <;> rcases hy with rfl | ⟨b, rfl, _, _⟩
  · rfl
  · simp [F64.lt] at h
  · rfl
  · simp only [F64.lt, decide_eq_false_iff_not, not_lt] at h
    simp [F64.le, h]

theorem F64.NonNeg.round {q : ℚ} (hq : 0 ≤ q) : F64.NonNeg (F64.round q) := by
  rcases eq_or_lt_of_le hq with h | h
  · subst h
    exact Or.inr ⟨0, by simp [F64.round], le_refl _, isF64_zero⟩
  · rcases F64.round_pos_cases h with h1 | ⟨r, h1, h2, h3⟩
    · exact Or.inl h1
    · exact Or.inr ⟨r, h1, h2, h3⟩

theorem F64.NonNeg.add {x y : F64} (hx : F64.NonNeg x) (hy : F64.NonNeg y) :
    F64.NonNeg (F64.add x y) := by
  rcases hx with rfl | ⟨a, rfl, ha, _⟩ <;> rcases hy with rfl | ⟨b, rfl, hb, _⟩
  · exact Or.inl rfl
  · exact Or.inl rfl
  · exact Or.inl rfl
  · exact F64.NonNeg.round (add_nonneg ha hb)

/-- Taking one token from a bucket that holds at least one: the result is
non-negative and does not exceed what the bucket held. -/
theorem F64.sub_one_le {x cap : F64} (hx : F64.NonNeg x) (h1 : F64.le (F64.fin 1) x = true)
    (hcap : F64.le x cap = true) :
    F64.NonNeg (F64.sub x (F64.fin 1)) ∧ F64.le (F64.sub x (F64.fin 1)) cap = true := by
  rcases hx with rfl | ⟨t, rfl, ht0, htr⟩
  · exact ⟨Or.inl rfl, hcap⟩
  · have ht1 : 1 ≤ t := by simpa [F64.le] using h1
    have hsub : F64.sub (F64.fin t) (F64.fin 1) = F64.round (t - 1) := by
      simp only [F64.sub, F64.neg, F64.add, sub_eq_add_neg]
    rw [hsub]
    have hr : ∃ r, F64.round (t - 1) = F64.fin r ∧ 0 ≤ r ∧ r ≤ t ∧ IsF64 r := by
      rcases eq_or_lt_of_le ht1 with h | h
      · refine ⟨0, ?_, le_refl _, ht0, isF64_zero⟩
        rw [← h]; simp [F64.round]
      · exact F64.round_le_of_le (by linarith) (by linarith) htr
    obtain ⟨r, hr1, hr2, hr3, hr4⟩ := hr
    rw [hr1]
    refine ⟨Or.inr ⟨r, rfl, hr2, hr4⟩, ?_⟩
    cases cap with
    | nan => simp [F64.le] at hcap
    | ninf => simp [F64.le] at hcap
    | pinf => rfl
    | fin c =>
      have : t ≤ c := by simpa [F64.le] using hcap
      simp only [F64.le, decide_eq_true_eq]
      linarith

/-! ## time.Duration.Seconds -/

theorem isF64_natCast_small (n : Int) (h0 : 0 ≤ n) (h : n < 2 ^ 53) : IsF64 (n : ℚ) :=
  ⟨n, 0, by rw [abs_of_nonneg h0]; exact h, by norm_num, by norm_num, by simp⟩

/-- The value `Seconds` of a positive `int64` duration is a positive finite `float64`. -/
theorem Duration.Seconds_pos (d : Int) (h0 : 0 < d) (h63 : d < 2 ^ 63) :
    ∃ s, Duration.Seconds d = F64.fin s ∧ 0 < s ∧ IsF64 s := by
  have hdiv : Int.tdiv d 1000000000 = d / 1000000000 :=
    Int.tdiv_eq_ediv h0.le (by norm_num)
  have hmod : Int.tmod d 1000000000 = d % 1000000000 :=
    Int.tmod_eq_emod h0.le (by norm_num)
  have hs0 : 0 ≤ d / 1000000000 := by omega
  have hs1 : d / 1000000000 < 2 ^ 34 := by omega
  have hn0 : 0 ≤ d % 1000000000 := by omega
  have hn1 : d % 1000000000 < 1000000000 := by omega
  have hpos : 1 ≤ d / 1000000000 ∨ 1 ≤ d % 1000000000 := by omega
  have hsec : F64.ofInt (d / 1000000000) = F64.fin ((d / 1000000000 : Int) : ℚ) :=
    F64.round_exact (by exact_mod_cast hs0) (isF64_natCast_small _ hs0 (by omega))
  have hnsec : F64.ofInt (d % 1000000000) = F64.fin ((d % 1000000000 : Int) : ℚ) :=
    F64.round_exact (by exact_mod_cast hn0) (isF64_natCast_small _ hn0 (by omega))
  have hsq0 : (0 : ℚ) ≤ ((d / 1000000000 : Int) : ℚ) := by exact_mod_cast hs0
  have hsq1 : ((d / 1000000000 : Int) : ℚ) ≤ 2 ^ 34 - 1 := by
    have : d / 1000000000 ≤ 2 ^ 34 - 1 := by omega
    exact_mod_cast this
  have hnq0 : (0 : ℚ) ≤ ((d % 1000000000 : Int) : ℚ) := by exact_mod_cast hn0
  have hnq1 : ((d % 1000000000 : Int) : ℚ) ≤ 1000000000 := by exact_mod_cast hn1.le
  have hone : IsF64 (1 : ℚ) := ⟨1, 0, by norm_num, by norm_num, by norm_num, by norm_num⟩
  have hsmall : IsF64 ((2 : ℚ) ^ (-30 : Int)) :=
    ⟨1, -30, by norm_num, by norm_num, by norm_num, by norm_num⟩
  have hbig : IsF64 ((2 : ℚ) ^ (34 : Int)) :=
    ⟨1, 34, by norm_num, by norm_num, by norm_num, by norm_num⟩
  -- the fractional part
  have hfrac : ∃ f, F64.div (F64.ofInt (d % 1000000000)) (F64.fin 1000000000) = F64.fin f ∧
      0 ≤ f ∧ f ≤ 1 ∧ (1 ≤ d % 1000000000 → (2 : ℚ) ^ (-30 : Int) ≤ f) := by
    rw [hnsec]
    simp only [F64.div]
    rw [if_neg (by norm_num)]
    rcases eq_or_lt_of_le hnq0 with h | h
    · rw [← h]
      refine ⟨0, by simp [F64.round], le_refl _, by norm_num, ?_⟩
      intro h1
      have : (1 : ℚ) ≤ ((d % 1000000000 : Int) : ℚ) := by exact_mod_cast h1
      linarith
    · have hx : (0 : ℚ) < ((d % 1000000000 : Int) : ℚ) / 1000000000 := by positivity
      have hx1 : ((d % 1000000000 : Int) : ℚ) / 1000000000 ≤ 1 := by
        rw [div_le_one (by norm_num)]; exact hnq1
      obtain ⟨r, hr1, hr2, hr3, _⟩ := F64.round_le_of_le hx hx1 hone
      refine ⟨r, hr1, hr2, hr3, ?_⟩
      intro h1
      have h1q : (1 : ℚ) ≤ ((d % 1000000000 : Int) : ℚ) := by exact_mod_cast h1
      have hlow : (2 : ℚ) ^ (-30 : Int) ≤ ((d % 1000000000 : Int) : ℚ) / 1000000000 := by
        rw [le_div_iff₀ (by norm_num)]
        refine le_trans ?_ h1q
        norm_num
      rcases F64.le_round_of_le (two_zpow_pos _) hlow hsmall with h2 | ⟨r2, h2, h3, _⟩
      · rw [hr1] at h2; cases h2
      · rw [hr1] at h2; cases h2; exact h3
  obtain ⟨f, hf, hf0, hf1, hfpos⟩ := hfrac
  unfold Duration.Seconds
  rw [hdiv, hmod, hf, hsec]
  simp only [F64.add]
  have hsum_low : (2 : ℚ) ^ (-30 : Int) ≤ ((d / 1000000000 : Int) : ℚ) + f := by
    rcases hpos with h | h
    · have h1q : (1 : ℚ) ≤ ((d / 1000000000 : Int) : ℚ) := by exact_mod_cast h
      have h30 : (2 : ℚ) ^ (-30 : Int) ≤ 1 := by norm_num
      exact le_trans (le_trans h30 h1q) (le_add_of_nonneg_right hf0)
    · exact le_trans (hfpos h) (le_add_of_nonneg_left hsq0)
  have hsum_pos : (0 : ℚ) < ((d / 1000000000 : Int) : ℚ) + f :=
    lt_of_lt_of_le (two_zpow_pos _) hsum_low
  have hsum_hi : ((d / 1000000000 : Int) : ℚ) + f ≤ (2 : ℚ) ^ (34 : Int) := by
    have : (2 : ℚ) ^ (34 : Int) = 2 ^ 34 := by norm_num
    rw [this]; linarith
  obtain ⟨r, hr1, _, _, hr4⟩ := F64.round_le_of_le hsum_pos hsum_hi hbig
  refine ⟨r, hr1, ?_, hr4⟩
  rcases F64.le_round_of_le (two_zpow_pos _) hsum_low hsmall with h2 | ⟨r2, h2, h3, _⟩
  · rw [hr1] at h2; cases h2
  · rw [hr1] at h2; cases h2
    exact lt_of_lt_of_le (two_zpow_pos _) h3

/-! ## Token bucket: the bounds invariant -/

theorem F64.pos_cases {x : F64} (hv : x.Valid) (hp : F64.lt (F64.fin 0) x = true) :
    x = F64.pinf ∨ ∃ r, x = F64.fin r ∧ 0 < r ∧ IsF64 r := by
  cases x with
  | nan => simp [F64.lt] at hp
  | ninf => simp [F64.lt] at hp
  | pinf => exact Or.inl rfl
  | fin r => exact Or.inr ⟨r, rfl, by simpa [F64.lt] using hp, hv⟩

theorem F64.NonNeg.of_pos {x : F64} (hv : x.Valid) (hp : F64.lt (F64.fin 0) x = true) :
    F64.NonNeg x := by
  rcases F64.pos_cases hv hp with h | ⟨r, h, hr, hrep⟩
  · exact Or.inl h
  · exact Or.inr ⟨r, h, hr.le, hrep⟩

/-- A freshly constructed limiter with positive capacity, rate and interval
satisfies the invariant. -/
theorem NewTokenBucketLimiter_inv (cap rate : F64) (d : Int)
    (hcv : cap.Valid) (hcp : F64.lt (F64.fin 0) cap = true)
    (hrv : rate.Valid) (hrp : F64.lt (F64.fin 0) rate = true)
    (hd0 : 0 < d) (hd63 : d < 2 ^ 63) :
    (NewTokenBucketLimiter cap rate d).Inv := by
  obtain ⟨s, hs, hspos, _⟩ := Duration.Seconds_pos d hd0 hd63
  refine ⟨F64.NonNeg.of_pos hcv hcp, ?_, ?_⟩
  · show F64.NonNeg (F64.mul rate (Duration.Seconds d))
    rw [hs]
    rcases F64.pos_cases hrv hrp with h | ⟨r, h, hr, _⟩
    · subst h
      refine Or.inl ?_
      simp [F64.mul, F64.sign, hspos.ne', not_lt.mpr hspos.le]
    · subst h
      simp only [F64.mul]
      exact F64.NonNeg.round (mul_pos hr hspos).le
  · intro k t hk
    simp [NewTokenBucketLimiter] at hk

/-- Calling `Allow` preserves the invariant. -/
theorem TokenBucketLimiter.Inv.Allow {tb : TokenBucketLimiter} (h : tb.Inv) (key : String) :
    (tb.Allow key).2.Inv := by
  obtain ⟨hcap, hre, hb⟩ := h
  have hload : F64.NonNeg (tb.loadOrStore key) ∧ F64.le (tb.loadOrStore key) tb.capacity = true := by
    unfold TokenBucketLimiter.loadOrStore
    cases hk : tb.buckets key with
    | none => exact ⟨hcap, hcap.le_self⟩
    | some t => exact hb key t hk
  unfold TokenBucketLimiter.Allow
  by_cases hle : F64.le (F64.fin 1) (tb.loadOrStore key) = true
  · rw [if_pos hle]
    refine ⟨hcap, hre, ?_⟩
    intro k t hk
    simp only at hk
    split_ifs at hk with hkey
    · cases hk
      exact F64.sub_one_le hload.1 hle hload.2
    · exact hb k t hk
  · rw [if_neg hle]
    refine ⟨hcap, hre, ?_⟩
    intro k t hk
    simp only at hk
    split_ifs at hk with hkey
    · cases hk
      exact hload
    · exact hb k t hk

/-- A refill tick preserves the invariant. -/
theorem TokenBucketLimiter.Inv.refill {tb : TokenBucketLimiter} (h : tb.Inv) : tb.refill.Inv := by
  obtain ⟨hcap, hre, hb⟩ := h
  refine ⟨hcap, hre, ?_⟩
  intro k t hk
  simp only [TokenBucketLimiter.refill, Option.map_eq_some'] at hk
  obtain ⟨t0, ht0, rfl⟩ := hk
  have hsum : F64.NonNeg (F64.add t0 tb.refillTokens) := (hb k t0 ht0).1.add hre
  unfold TokenBucketLimiter.refillBucket
  by_cases hlt : F64.lt tb.capacity (F64.add t0 tb.refillTokens) = true
  · rw [if_pos hlt]
    exact ⟨hcap, hcap.le_self⟩
  · rw [if_neg hlt]
    exact ⟨hsum, hsum.le_of_not_lt hcap (by simpa using hlt)⟩

/-- Every finite run of `Allow` calls and refill ticks preserves the
invariant. -/
theorem TokenBucketLimiter.Inv.run {tb : TokenBucketLimiter} (h : tb.Inv) (ops : List TBOp) :
    (tb.run ops).Inv := by
  induction ops generalizing tb with
  | nil => exact h
  | cons op rest ih =>
    have hstep : (tb.step op).Inv := by
      cases op with
      | allow key => exact h.Allow key
      | tick => exact h.refill
    exact ih hstep

/-- No step changes the capacity. -/
theorem TokenBucketLimiter.run_capacity (tb : TokenBucketLimiter) (ops : List TBOp) :
    (tb.run ops).capacity = tb.capacity := by
  induction ops generalizing tb with
  | nil => rfl
  | cons op rest ih =>
    have h1 : (tb.step op).capacity = tb.capacity := by
      cases op with
      | allow key =>
        simp only [TokenBucketLimiter.step, TokenBucketLimiter.Allow]
        split_ifs <;> rfl
      | tick => rfl
    exact (ih (tb.step op)).trans h1

/-- C6. For a token-bucket limiter constructed with positive capacity, refill
rate and refill interval, after every finite sequence of `Allow` calls (on any
keys) and refill ticks every bucket holds tokens with
`0 ≤ tokens ≤ capacity`. -/
theorem tb_tokens_bounded (cap rate : F64) (d : Int)
    (hcv : cap.Valid) (hcp : F64.lt (F64.fin 0) cap = true)
    (hrv : rate.Valid) (hrp : F64.lt (F64.fin 0) rate = true)
    (hd0 : 0 < d) (hd63 : d < 2 ^ 63) :
    ∀ (ops : List TBOp) (key : String) (t : F64),
      ((NewTokenBucketLimiter cap rate d).run ops).buckets key = some t →
        F64.le (F64.fin 0) t = true ∧ F64.le t cap = true := by
  intro ops key t hk
  have hinv := (NewTokenBucketLimiter_inv cap rate d hcv hcp hrv hrp hd0 hd63).run ops
  have hcapeq : ((NewTokenBucketLimiter cap rate d).run ops).capacity = cap :=
    TokenBucketLimiter.run_capacity _ ops
  obtain ⟨h1, h2⟩ := hinv.2.2 key t hk
  rw [hcapeq] at h2
  exact ⟨h1.zero_le, h2⟩

/-- Witness for C6: the limiter of `TestTokenBucketLimiter_RefillLogic`
(capacity 2, rate 2, interval 200 ms) after one `Allow("a")`. -/
theorem tb_tokens_bounded_witness :
    F64.le (F64.fin 0) (F64.sub (F64.fin 2) (F64.fin 1)) = true
      ∧ F64.le (F64.sub (F64.fin 2) (F64.fin 1)) (F64.fin 2) = true :=
  tb_tokens_bounded (F64.fin 2) (F64.fin 2) 200000000
    ⟨1, 1, by norm_num, by norm_num, by norm_num, by norm_num⟩ (by simp [F64.lt])
    ⟨1, 1, by norm_num, by norm_num, by norm_num, by norm_num⟩ (by simp [F64.lt])
    (by norm_num) (by norm_num) [TBOp.allow "a"] "a" (F64.sub (F64.fin 2) (F64.fin 1))
    (by
      have hle : F64.le (F64.fin 1) (F64.fin 2) = true := by simp [F64.le]
      simp [TokenBucketLimiter.run, TokenBucketLimiter.step, TokenBucketLimiter.Allow,
        TokenBucketLimiter.loadOrStore, NewTokenBucketLimiter, hle])

/-! ## float64: evaluating a rounding -/

theorem rne_eval_lt {x : ℚ} {f : Int} (h1 : (f : ℚ) ≤ x) (h2 : x - f < 1 / 2) : rne x = f := by
  have hf : ⌊x⌋ = f := by
    rw [Int.floor_eq_iff]
    exact ⟨h1, by linarith⟩
  unfold rne
  rw [hf, if_pos h2]

theorem rne_eval_gt {x : ℚ} {f : Int} (h1 : 1 / 2 < x - f) (h2 : x < f + 1) : rne x = f + 1 := by
  have hf : ⌊x⌋ = f := by
    rw [Int.floor_eq_iff]
    exact ⟨by linarith, h2⟩
  unfold rne
  rw [hf, if_neg (not_lt.mpr h1.le), if_pos h1]

theorem rne_eval_tie_even {x : ℚ} {f : Int} (h : x - f = 1 / 2) (he : f % 2 = 0) : rne x = f := by
  have hf : ⌊x⌋ = f := by
    rw [Int.floor_eq_iff]
    constructor <;> linarith
  unfold rne
  rw [hf, if_neg (by rw [h]; exact lt_irrefl _), if_neg (by rw [h]; exact lt_irrefl _), if_pos he]

theorem rne_eval_tie_odd {x : ℚ} {f : Int} (h : x - f = 1 / 2) (ho : f % 2 = 1) :
    rne x = f + 1 := by
  have hf : ⌊x⌋ = f := by
    rw [Int.floor_eq_iff]
    constructor <;> linarith
  unfold rne
  rw [hf, if_neg (by rw [h]; exact lt_irrefl _), if_neg (by rw [h]; exact lt_irrefl _),
    if_neg (by omega)]

/-- The rounding of a positive `q` in the binade `[2^L, 2^(L+1))` of the normal
range, from the rounding `m` of its scaled magnitude. -/
theorem F64.round_eval {q : ℚ} {L m : Int} (hlo : (2 : ℚ) ^ L ≤ q) (hhi : q < (2 : ℚ) ^ (L + 1))
    (hL : -1074 ≤ L - 52) (hm : rne (q / (2 : ℚ) ^ (L - 52)) = m)
    (hov : (m : ℚ) * (2 : ℚ) ^ (L - 52) < (2 : ℚ) ^ (1024 : Int)) :
    F64.round q = F64.fin (m * (2 : ℚ) ^ (L - 52)) := by
  have hq : 0 < q := lt_of_lt_of_le (two_zpow_pos L) hlo
  have hlog : Int.log 2 q = L := by
    apply le_antisymm
    · have := log_lt_of_lt_two_zpow hq hhi
      omega
    · exact le_log_of_two_zpow_le hq hlo
  have hquant : quantum q = L - 52 := by
    unfold quantum
    rw [hlog]
    exact max_eq_left hL
  rw [F64.round_of_pos hq, hquant, hm, if_neg (not_le.mpr hov)]

/-! ## Token bucket: refill ticks -/

theorem TokenBucketLimiter.refillN_capacity (tb : TokenBucketLimiter) (k : Nat) :
    (tb.refillN k).capacity = tb.capacity := by
  induction k with
  | zero => rfl
  | succ k ih => exact ih

theorem TokenBucketLimiter.refillN_refillTokens (tb : TokenBucketLimiter) (k : Nat) :
    (tb.refillN k).refillTokens = tb.refillTokens := by
  induction k with
  | zero => rfl
  | succ k ih => exact ih

theorem TokenBucketLimiter.refillBucket_congr (tb1 tb2 : TokenBucketLimiter)
    (hc : tb1.capacity = tb2.capacity) (hr : tb1.refillTokens = tb2.refillTokens) (t : F64) :
    tb1.refillBucket t = tb2.refillBucket t := by
  unfold TokenBucketLimiter.refillBucket
  rw [hc, hr]

/-- The bucket of a key after one more tick. -/
theorem TokenBucketLimiter.refillN_succ_bucket (tb : TokenBucketLimiter) (k : Nat) (key : String) :
    (tb.refillN (k + 1)).buckets key = ((tb.refillN k).buckets key).map tb.refillBucket := by
  show ((tb.refillN k).buckets key).map (tb.refillN k).refillBucket = _
  congr 1
  funext t
  exact TokenBucketLimiter.refillBucket_congr _ _ (tb.refillN_capacity k) (tb.refillN_refillTokens k) t

/-- One bucket update, evaluated: the rounded sum `b` when it does not exceed
the capacity. -/
theorem TokenBucketLimiter.refillBucket_eval (tb : TokenBucketLimiter) {a b r c : ℚ}
    (hc : tb.capacity = F64.fin c) (hr : tb.refillTokens = F64.fin r)
    (hround : F64.round (a + r) = F64.fin b) (hle : b ≤ c) :
    tb.refillBucket (F64.fin a) = F64.fin b := by
  unfold TokenBucketLimiter.refillBucket
  rw [hc, hr]
  simp only [F64.add, hround, F64.lt]
  rw [if_neg (by simpa using hle)]

/-- The value `Seconds` of one second is `1`. -/
theorem Duration.Seconds_one_second : Duration.Seconds 1000000000 = F64.fin 1 := by
  have h1 : F64.round 1 = F64.fin 1 :=
    F64.round_exact (by norm_num) ⟨1, 0, by norm_num, by norm_num, by norm_num, by norm_num⟩
  have h0 : F64.round 0 = F64.fin 0 := by simp [F64.round]
  have hd : Int.tdiv 1000000000 1000000000 = 1 := by decide
  have hm : Int.tmod 1000000000 1000000000 = 0 := by decide
  unfold Duration.Seconds
  rw [hd, hm]
  simp only [F64.ofInt, Int.cast_one, Int.cast_zero, h1, h0, F64.div]
  norm_num [F64.add, h0, h1]

/-- C7 as stated fails: with capacity 1, rate 0.1 tokens per second (the
`float64` nearest to one tenth) and a one-second interval, a bucket emptied by
one `Allow` holds `1 - 2^-53` tokens after ten ticks and still refuses, whereas
`min(capacity, 10 * rate * 1)` is 1. -/
theorem tb_refill_tenths :
    (((NewTokenBucketLimiter (F64.fin 1) (F64.fin F64.tenth) 1000000000).Allow "k").2.refillN
          10).buckets "k"
        = some (F64.fin (9007199254740991 / 9007199254740992))
      ∧ ((((NewTokenBucketLimiter (F64.fin 1) (F64.fin F64.tenth) 1000000000).Allow
          "k").2.refillN 10).Allow "k").1 = false
      ∧ min (1 : ℚ) (10 * F64.tenth * 1) = 1 := by
  unfold F64.tenth
  generalize htb : (NewTokenBucketLimiter (F64.fin 1)
    (F64.fin (3602879701896397 / 36028797018963968)) 1000000000).Allow "k" = a
  have s1 : F64.round ((0 : ℚ) + 3602879701896397 / 36028797018963968)
      = F64.fin (3602879701896397 / 36028797018963968) := by
    have hm : rne (((0 : ℚ) + 3602879701896397 / 36028797018963968)
        / (2 : ℚ) ^ ((-4 : Int) - 52)) = 7205759403792794 := by
      exact rne_eval_lt (f := 7205759403792794) (by norm_num) (by norm_num)
    rw [F64.round_eval (L := -4) (by norm_num) (by norm_num) (by norm_num) hm (by norm_num)]
    norm_num
  have s2 : F64.round ((3602879701896397 : ℚ) / 36028797018963968 + 3602879701896397 / 36028797018963968)
      = F64.fin (3602879701896397 / 18014398509481984) := by
    have hm : rne (((3602879701896397 : ℚ) / 36028797018963968 + 3602879701896397 / 36028797018963968)
        / (2 : ℚ) ^ ((-3 : Int) - 52)) = 7205759403792794 := by
      exact rne_eval_lt (f := 7205759403792794) (by norm_num) (by norm_num)
    rw [F64.round_eval (L := -3) (by norm_num) (by norm_num) (by norm_num) hm (by norm_num)]
    norm_num
  have s3 : F64.round ((3602879701896397 : ℚ) / 18014398509481984 + 3602879701896397 / 36028797018963968)
      = F64.fin (1351079888211149 / 4503599627370496) := by
    have hm : rne (((3602879701896397 : ℚ) / 18014398509481984 + 3602879701896397 / 36028797018963968)
        / (2 : ℚ) ^ ((-2 : Int) - 52)) = 5404319552844596 := by
      have h := rne_eval_tie_odd (x := ((3602879701896397 : ℚ) / 18014398509481984 + 3602879701896397 / 36028797018963968) / (2 : ℚ) ^ ((-2 : Int) - 52))
        (f := 5404319552844595) (by norm_num) (by decide)
      rw [h]; norm_num
    rw [F64.round_eval (L := -2) (by norm_num) (by norm_num) (by norm_num) hm (by norm_num)]
    norm_num
  have s4 : F64.round ((1351079888211149 : ℚ) / 4503599627370496 + 3602879701896397 / 36028797018963968)
      = F64.fin (3602879701896397 / 9007199254740992) := by
    have hm : rne (((1351079888211149 : ℚ) / 4503599627370496 + 3602879701896397 / 36028797018963968)
        / (2 : ℚ) ^ ((-2 : Int) - 52)) = 7205759403792794 := by
      exact rne_eval_tie_even (f := 7205759403792794) (by norm_num) (by decide)
    rw [F64.round_eval (L := -2) (by norm_num) (by norm_num) (by norm_num) hm (by norm_num)]
    norm_num
  have s5 : F64.round ((3602879701896397 : ℚ) / 9007199254740992 + 3602879701896397 / 36028797018963968)
      = F64.fin (1 / 2) := by
    have hm : rne (((3602879701896397 : ℚ) / 9007199254740992 + 3602879701896397 / 36028797018963968)
        / (2 : ℚ) ^ ((-1 : Int) - 52)) = 4503599627370496 := by
      exact rne_eval_lt (f := 4503599627370496) (by norm_num) (by norm_num)
    rw [F64.round_eval (L := -1) (by norm_num) (by norm_num) (by norm_num) hm (by norm_num)]
    norm_num
  have s6 : F64.round ((1 : ℚ) / 2 + 3602879701896397 / 36028797018963968)
      = F64.fin (5404319552844595 / 9007199254740992) := by
    have hm : rne (((1 : ℚ) / 2 + 3602879701896397 / 36028797018963968)
        / (2 : ℚ) ^ ((-1 : Int) - 52)) = 5404319552844595 := by
      exact rne_eval_lt (f := 5404319552844595) (by norm_num) (by norm_num)
    rw [F64.round_eval (L := -1) (by norm_num) (by norm_num) (by norm_num) hm (by norm_num)]
    norm_num
  have s7 : F64.round ((5404319552844595 : ℚ) / 9007199254740992 + 3602879701896397 / 36028797018963968)
      = F64.fin (3152519739159347 / 4503599627370496) := by
    have hm : rne (((5404319552844595 : ℚ) / 9007199254740992 + 3602879701896397 / 36028797018963968)
        / (2 : ℚ) ^ ((-1 : Int) - 52)) = 6305039478318694 := by
      exact rne_eval_lt (f := 6305039478318694) (by norm_num) (by norm_num)
    rw [F64.round_eval (L := -1) (by norm_num) (by norm_num) (by norm_num) hm (by norm_num)]
    norm_num
  have s8 : F64.round ((3152519739159347 : ℚ) / 4503599627370496 + 3602879701896397 / 36028797018963968)
      = F64.fin (7205759403792793 / 9007199254740992) := by
    have hm : rne (((3152519739159347 : ℚ) / 4503599627370496 + 3602879701896397 / 36028797018963968)
        / (2 : ℚ) ^ ((-1 : Int) - 52)) = 7205759403792793 := by
      exact rne_eval_lt (f := 7205759403792793) (by norm_num) (by norm_num)
    rw [F64.round_eval (L := -1) (by norm_num) (by norm_num) (by norm_num) hm (by norm_num)]
    norm_num
  have s9 : F64.round ((7205759403792793 : ℚ) / 9007199254740992 + 3602879701896397 / 36028797018963968)
      = F64.fin (2026619832316723 / 2251799813685248) := by
    have hm : rne (((7205759403792793 : ℚ) / 9007199254740992 + 3602879701896397 / 36028797018963968)
        / (2 : ℚ) ^ ((-1 : Int) - 52)) = 8106479329266892 := by
      exact rne_eval_lt (f := 8106479329266892) (by norm_num) (by norm_num)
    rw [F64.round_eval (L := -1) (by norm_num) (by norm_num) (by norm_num) hm (by norm_num)]
    norm_num
  have s10 : F64.round ((2026619832316723 : ℚ) / 2251799813685248 + 3602879701896397 / 36028797018963968)
      = F64.fin (9007199254740991 / 9007199254740992) := by
    have hm : rne (((2026619832316723 : ℚ) / 2251799813685248 + 3602879701896397 / 36028797018963968)
        / (2 : ℚ) ^ ((-1 : Int) - 52)) = 9007199254740991 := by
      exact rne_eval_lt (f := 9007199254740991) (by norm_num) (by norm_num)
    rw [F64.round_eval (L := -1) (by norm_num) (by norm_num) (by norm_num) hm (by norm_num)]
    norm_num
  have hrho : F64.mul (F64.fin (3602879701896397 / 36028797018963968)) (F64.fin 1)
      = F64.fin (3602879701896397 / 36028797018963968) := by
    simp only [F64.mul, mul_one]
    have h := s1
    rw [zero_add] at h
    exact h
  have hnew : NewTokenBucketLimiter (F64.fin 1) (F64.fin (3602879701896397 / 36028797018963968)) 1000000000
      = ⟨F64.fin 1, F64.fin (3602879701896397 / 36028797018963968), 1000000000, fun _ => none⟩ := by
    simp only [NewTokenBucketLimiter, Duration.Seconds_one_second, hrho]
  have hsub : F64.sub (F64.fin 1) (F64.fin 1) = F64.fin 0 := by
    simp [F64.sub, F64.neg, F64.add, F64.round]
  have hle : F64.le (F64.fin 1) (F64.fin 1) = true := by simp [F64.le]
  have hcap : a.2.capacity = F64.fin 1 := by
    rw [← htb, hnew]; simp [TokenBucketLimiter.Allow, TokenBucketLimiter.loadOrStore, hle]
  have href : a.2.refillTokens = F64.fin (3602879701896397 / 36028797018963968) := by
    rw [← htb, hnew]; simp [TokenBucketLimiter.Allow, TokenBucketLimiter.loadOrStore, hle]
  have b0 : (a.2.refillN 0).buckets "k" = some (F64.fin 0) := by
    rw [← htb, hnew]
    simp [TokenBucketLimiter.refillN, TokenBucketLimiter.Allow, TokenBucketLimiter.loadOrStore,
      hle, hsub]
  have b1 : (a.2.refillN 1).buckets "k" = some (F64.fin (3602879701896397 / 36028797018963968)) := by
    rw [TokenBucketLimiter.refillN_succ_bucket, b0, Option.map_some']
    exact congrArg some (TokenBucketLimiter.refillBucket_eval _ hcap href s1 (by norm_num))
  have b2 : (a.2.refillN 2).buckets "k" = some (F64.fin (3602879701896397 / 18014398509481984)) := by
    rw [TokenBucketLimiter.refillN_succ_bucket, b1, Option.map_some']
    exact congrArg some (TokenBucketLimiter.refillBucket_eval _ hcap href s2 (by norm_num))
  have b3 : (a.2.refillN 3).buckets "k" = some (F64.fin (1351079888211149 / 4503599627370496)) := by
    rw [TokenBucketLimiter.refillN_succ_bucket, b2, Option.map_some']
    exact congrArg some (TokenBucketLimiter.refillBucket_eval _ hcap href s3 (by norm_num))
  have b4 : (a.2.refillN 4).buckets "k" = some (F64.fin (3602879701896397 / 9007199254740992)) := by
    rw [TokenBucketLimiter.refillN_succ_bucket, b3, Option.map_some']
    exact congrArg some (TokenBucketLimiter.refillBucket_eval _ hcap href s4 (by norm_num))
  have b5 : (a.2.refillN 5).buckets "k" = some (F64.fin (1 / 2)) := by
    rw [TokenBucketLimiter.refillN_succ_bucket, b4, Option.map_some']
    exact congrArg some (TokenBucketLimiter.refillBucket_eval _ hcap href s5 (by norm_num))
  have b6 : (a.2.refillN 6).buckets "k" = some (F64.fin (5404319552844595 / 9007199254740992)) := by
    rw [TokenBucketLimiter.refillN_succ_bucket, b5, Option.map_some']
    exact congrArg some (TokenBucketLimiter.refillBucket_eval _ hcap href s6 (by norm_num))
  have b7 : (a.2.refillN 7).buckets "k" = some (F64.fin (3152519739159347 / 4503599627370496)) := by
    rw [TokenBucketLimiter.refillN_succ_bucket, b6, Option.map_some']
    exact congrArg some (TokenBucketLimiter.refillBucket_eval _ hcap href s7 (by norm_num))
  have b8 : (a.2.refillN 8).buckets "k" = some (F64.fin (7205759403792793 / 9007199254740992)) := by
    rw [TokenBucketLimiter.refillN_succ_bucket, b7, Option.map_some']
    exact congrArg some (TokenBucketLimiter.refillBucket_eval _ hcap href s8 (by norm_num))
  have b9 : (a.2.refillN 9).buckets "k" = some (F64.fin (2026619832316723 / 2251799813685248)) := by
    rw [TokenBucketLimiter.refillN_succ_bucket, b8, Option.map_some']
    exact congrArg some (TokenBucketLimiter.refillBucket_eval _ hcap href s9 (by norm_num))
  have b10 : (a.2.refillN 10).buckets "k" = some (F64.fin (9007199254740991 / 9007199254740992)) := by
    rw [TokenBucketLimiter.refillN_succ_bucket, b9, Option.map_some']
    exact congrArg some (TokenBucketLimiter.refillBucket_eval _ hcap href s10 (by norm_num))
  refine ⟨b10, ?_, by norm_num⟩
  refine (TokenBucketLimiter.Allow_refuse _ "k" (9007199254740991 / 9007199254740992) ?_
    (by norm_num)).1
  simp only [TokenBucketLimiter.loadOrStore, b10]

/-- The bucket update of a tick is the minimum of the capacity and the float
sum, for a capacity that is not `NaN`. -/
theorem TokenBucketLimiter.refillBucket_eq_min (tb : TokenBucketLimiter)
    (hcap : tb.capacity ≠ F64.nan) (t : F64) :
    tb.refillBucket t = F64.min tb.capacity (F64.add t tb.refillTokens) := by
  unfold TokenBucketLimiter.refillBucket
  generalize F64.add t tb.refillTokens = s
  generalize tb.capacity = cap at hcap
  cases cap with
  | nan => exact absurd rfl hcap
  | ninf => cases s <;> simp [F64.min, F64.lt]
  | pinf => cases s <;> simp [F64.min, F64.lt]
  | fin c =>
    cases s with
    | nan => simp [F64.min, F64.lt]
    | ninf => simp [F64.min, F64.lt]
    | pinf => simp [F64.min, F64.lt]
    | fin x =>
      simp only [F64.min, F64.lt, decide_eq_true_eq]
      split_ifs with h1 h2 h2
      · exact absurd h2 (not_lt.mpr h1.le)
      · rfl
      · rfl
      · have : x = c := le_antisymm (not_lt.mp h1) (not_lt.mp h2)
        rw [this]

/-- The tokens of an empty bucket after `k` ticks, when every multiple of the
refill amount up to the `k`-th is a `float64`. -/
theorem TokenBucketLimiter.refillN_empty (tb : TokenBucketLimiter) (key : String) (r : ℚ)
    (hcap : F64.NonNeg tb.capacity) (href : tb.refillTokens = F64.fin r) (hr0 : 0 ≤ r)
    (hb : tb.buckets key = some (F64.fin 0)) (k : Nat)
    (hrep : ∀ j : Nat, j ≤ k → IsF64 ((j : ℚ) * r)) :
    (tb.refillN k).buckets key = some (F64.min tb.capacity (F64.fin ((k : ℚ) * r))) := by
  induction k with
  | zero =>
    simp only [TokenBucketLimiter.refillN, hb, Nat.cast_zero, zero_mul]
    rcases hcap with h | ⟨c, h, hc0, _⟩
    · rw [h]; simp [F64.min, F64.lt]
    · rw [h]
      simp only [F64.min, F64.lt, decide_eq_true_eq]
      split_ifs with h1
      · rfl
      · have : c = 0 := le_antisymm (not_lt.mp h1) hc0
        rw [this]
  | succ k ih =>
    have ih1 := ih (fun j hj => hrep j (Nat.le_succ_of_le hj))
    rw [TokenBucketLimiter.refillN_succ_bucket, ih1, Option.map_some']
    congr 1
    have hk0 : (0 : ℚ) ≤ (k : ℚ) * r := mul_nonneg (Nat.cast_nonneg k) hr0
    have hsucc : ((k + 1 : Nat) : ℚ) * r = (k : ℚ) * r + r := by push_cast; ring
    have hexact : F64.round ((k : ℚ) * r + r) = F64.fin ((k : ℚ) * r + r) := by
      rw [← hsucc]
      exact F64.round_exact (by rw [hsucc]; linarith) (hrep (k + 1) (le_refl _))
    unfold TokenBucketLimiter.refillBucket
    rw [href, hsucc]
    rcases hcap with h | ⟨c, h, hc0, hcrep⟩
    · rw [h]
      simp [F64.min, F64.lt, F64.add, hexact]
    · rw [h]
      by_cases hlt : (k : ℚ) * r < c
      · have hmin : F64.min (F64.fin c) (F64.fin ((k : ℚ) * r)) = F64.fin ((k : ℚ) * r) := by
          simp [F64.min, F64.lt, hlt]
        rw [hmin]
        simp only [F64.add, hexact, F64.min, F64.lt, decide_eq_true_eq]
        split_ifs with h1 h2 h2
        · exact absurd h2 (not_lt.mpr h1.le)
        · rfl
        · rfl
        · have : (k : ℚ) * r + r = c := le_antisymm (not_lt.mp h1) (not_lt.mp h2)
          rw [this]
      · have hge : c ≤ (k : ℚ) * r := not_lt.mp hlt
        have hmin : F64.min (F64.fin c) (F64.fin ((k : ℚ) * r)) = F64.fin c := by
          simp [F64.min, F64.lt, hlt]
        have hmin2 : F64.min (F64.fin c) (F64.fin ((k : ℚ) * r + r)) = F64.fin c := by
          have : ¬ (k : ℚ) * r + r < c := by linarith
          simp [F64.min, F64.lt, this]
        rw [hmin, hmin2]
        simp only [F64.add]
        have hsum : F64.round (c + r) = F64.pinf ∨
            ∃ x, F64.round (c + r) = F64.fin x ∧ c ≤ x := by
          rcases eq_or_lt_of_le hc0 with h0 | hpos
          · rcases F64.NonNeg.round (show 0 ≤ c + r by linarith) with h1 | ⟨x, h1, h2, _⟩
            · exact Or.inl h1
            · exact Or.inr ⟨x, h1, by rw [← h0]; exact h2⟩
          · rcases F64.le_round_of_le hpos (show c ≤ c + r by linarith) hcrep with
              h1 | ⟨x, h1, h2, _⟩
            · exact Or.inl h1
            · exact Or.inr ⟨x, h1, h2⟩
        rcases hsum with h1 | ⟨x, h1, h2⟩
        · rw [h1]; simp [F64.lt]
        · rw [h1]
          simp only [F64.lt, decide_eq_true_eq]
          split_ifs with h3
          · rfl
          · have : x = c := le_antisymm (not_lt.mp h3) h2
            rw [this]

/-- C7, amended. One refill tick replaces the tokens of every existing bucket
by `min(capacity, tokens + refillTokens)`, where the sum is the `float64` sum
and `refillTokens` is the `float64` product `refill_rate * Seconds(interval)`,
and neither creates nor removes a bucket; so an empty bucket holds
`min(capacity, k * refillTokens)` after `k` ticks with no `Allow` in between
whenever every multiple `j * refillTokens`, `j ≤ k`, is itself a `float64`. -/
theorem tb_refill_tick (tb : TokenBucketLimiter) (hcap : tb.capacity ≠ F64.nan) :
    (∀ key, tb.refill.buckets key
        = (tb.buckets key).map fun t => F64.min tb.capacity (F64.add t tb.refillTokens)) ∧
    (∀ key, (tb.refill.buckets key).isSome = (tb.buckets key).isSome) ∧
    tb.refill.capacity = tb.capacity ∧ tb.refill.refillTokens = tb.refillTokens ∧
    (∀ cap rate d, (NewTokenBucketLimiter cap rate d).refillTokens
        = F64.mul rate (Duration.Seconds d)) ∧
    (∀ (key : String) (r : ℚ) (k : Nat), F64.NonNeg tb.capacity → tb.refillTokens = F64.fin r →
      0 ≤ r → tb.buckets key = some (F64.fin 0) → (∀ j : Nat, j ≤ k → IsF64 ((j : ℚ) * r)) →
      (tb.refillN k).buckets key = some (F64.min tb.capacity (F64.fin ((k : ℚ) * r)))) := by
  refine ⟨?_, ?_, rfl, rfl, fun _ _ _ => rfl, ?_⟩
  · intro key
    simp only [TokenBucketLimiter.refill]
    congr 1
    funext t
    exact TokenBucketLimiter.refillBucket_eq_min tb hcap t
  · intro key
    simp [TokenBucketLimiter.refill]
  · intro key r k h1 h2 h3 h4 h5
    exact TokenBucketLimiter.refillN_empty tb key r h1 h2 h3 h4 k h5

/-- Witness for C7 (amended): capacity 2, one token per tick, three ticks on
an empty bucket. -/
theorem tb_refill_tick_witness :
    (TokenBucketLimiter.refillN
        ⟨F64.fin 2, F64.fin 1, 1000000000, fun k => if k = "k" then some (F64.fin 0) else none⟩
        3).buckets "k"
      = some (F64.min (F64.fin 2) (F64.fin (((3 : Nat) : ℚ) * 1))) :=
  (tb_refill_tick
      ⟨F64.fin 2, F64.fin 1, 1000000000, fun k => if k = "k" then some (F64.fin 0) else none⟩
      (by simp)).2.2.2.2.2 "k" 1 3
    (Or.inr ⟨2, rfl, by norm_num, ⟨1, 1, by norm_num, by norm_num, by norm_num, by norm_num⟩⟩)
    rfl (by norm_num) (by simp)
    (fun j hj => ⟨j, 0, by
      have : (j : Int) ≤ 3 := by exact_mod_cast hj
      rw [abs_of_nonneg (by positivity)]
      omega, by norm_num, by norm_num, by simp⟩)

/-! ## Connection accounting: convergence of the counters -/

theorem wrapInt64_succ (x : Int) : wrapInt64 (wrapInt64 x + 1) = wrapInt64 (x + 1) := by
  unfold wrapInt64
  omega

theorem wrapInt64_pred (x : Int) : wrapInt64 (wrapInt64 x - 1) = wrapInt64 (x - 1) := by
  unfold wrapInt64
  omega

theorem wrapInt64_zero : wrapInt64 0 = 0 := by
  decide

/-- The net movement of a counter is the number of its `Increase` calls minus
the number of its `Decrease` calls. -/
theorem ConnOp.net_eq_count (s : String) (ops : List ConnOp) :
    ConnOp.net s ops
      = (ops.count (ConnOp.increase s) : Int) - (ops.count (ConnOp.decrease s) : Int) := by
  induction ops with
  | nil => simp [ConnOp.net]
  | cons op rest ih =>
    cases op with
    | increase t =>
      by_cases h : t = s
      · subst h
        simp [ConnOp.net, ih, List.count_cons]
        ring
      · have h2 : ¬ (ConnOp.increase t = ConnOp.increase s) := by
          intro hc; injection hc with hc; exact h hc
        simp [ConnOp.net, ih, List.count_cons, h, h2]
    | decrease t =>
      by_cases h : t = s
      · subst h
        simp [ConnOp.net, ih, List.count_cons]
        ring
      · have h2 : ¬ (ConnOp.decrease t = ConnOp.decrease s) := by
          intro hc; injection hc with hc; exact h hc
        simp [ConnOp.net, ih, List.count_cons, h, h2]

theorem ConnOp.Balanced.net_zero {ops : List ConnOp} (h : ConnOp.Balanced ops) (s : String) :
    ConnOp.net s ops = 0 := by
  rw [ConnOp.net_eq_count, h s]
  simp

/-- Least-connections: after a run of accounting calls every counter holds its
start value moved by the net number of calls, wrapped to `int64`. -/
theorem lcBalancer.runConn_lc_counts (ops : List ConnOp) (b : lcBalancer) (k : String → Int)
    (h : ∀ s, b.counts s = if s ∈ b.servers then some (wrapInt64 (k s)) else none) :
    (runConn b ops).servers = b.servers ∧
      ∀ s, (runConn b ops).counts s
        = if s ∈ b.servers then some (wrapInt64 (k s + ConnOp.net s ops)) else none := by
  induction ops generalizing b k with
  | nil => exact ⟨rfl, fun s => by simpa [runConn, ConnOp.net] using h s⟩
  | cons op rest ih =>
    cases op with
    | increase t =>
      have hstep : (lcBalancer.Increase b t).servers = b.servers ∧
          ∀ s, (lcBalancer.Increase b t).counts s
            = if s ∈ b.servers then some (wrapInt64 (k s + (if t = s then 1 else 0))) else none := by
        unfold lcBalancer.Increase
        cases hc : b.counts t with
        | none =>
          refine ⟨rfl, fun s => ?_⟩
          by_cases hts : t = s
          · subst hts
            have := h t
            rw [hc] at this
            by_cases hm : t ∈ b.servers
            · rw [if_pos hm] at this; cases this
            · simp [hm, hc]
          · simp [hts, h s]
        | some c =>
          refine ⟨rfl, fun s => ?_⟩
          have ht := h t
          rw [hc] at ht
          by_cases hm : t ∈ b.servers
          · rw [if_pos hm] at ht
            cases ht
            by_cases hts : t = s
            · subst hts
              simp [hm, wrapInt64_succ]
            · have hst : ¬ s = t := fun e => hts e.symm
              simp [hts, hst, h s]
          · rw [if_neg hm] at ht; cases ht
      obtain ⟨hs1, hc1⟩ := hstep
      have := ih (lcBalancer.Increase b t) (fun s => k s + (if t = s then 1 else 0))
        (by intro s; rw [hs1]; exact hc1 s)
      refine ⟨this.1.trans hs1, fun s => ?_⟩
      have h2 := this.2 s
      rw [hs1] at h2
      simp only [runConn, List.foldl_cons, ConnOp.apply] at h2 ⊢
      rw [show (ConnAware.Increase b t) = lcBalancer.Increase b t from rfl, h2]
      simp only [ConnOp.net, add_assoc]
    | decrease t =>
      have hstep : (lcBalancer.Decrease b t).servers = b.servers ∧
          ∀ s, (lcBalancer.Decrease b t).counts s
            = if s ∈ b.servers then some (wrapInt64 (k s + (if t = s then -1 else 0))) else none := by
        unfold lcBalancer.Decrease
        cases hc : b.counts t with
        | none =>
          refine ⟨rfl, fun s => ?_⟩
          by_cases hts : t = s
          · subst hts
            have := h t
            rw [hc] at this
            by_cases hm : t ∈ b.servers
            · rw [if_pos hm] at this; cases this
            · simp [hm, hc]
          · simp [hts, h s]
        | some c =>
          refine ⟨rfl, fun s => ?_⟩
          have ht := h t
          rw [hc] at ht
          by_cases hm : t ∈ b.servers
          · rw [if_pos hm] at ht
            cases ht
            by_cases hts : t = s
            · subst hts
              simp [hm, ← sub_eq_add_neg, wrapInt64_pred]
            · have hst : ¬ s = t := fun e => hts e.symm
              simp [hts, hst, h s]
          · rw [if_neg hm] at ht; cases ht
      obtain ⟨hs1, hc1⟩ := hstep
      have := ih (lcBalancer.Decrease b t) (fun s => k s + (if t = s then -1 else 0))
        (by intro s; rw [hs1]; exact hc1 s)
      refine ⟨this.1.trans hs1, fun s => ?_⟩
      have h2 := this.2 s
      rw [hs1] at h2
      simp only [runConn, List.foldl_cons, ConnOp.apply] at h2 ⊢
      rw [show (ConnAware.Decrease b t) = lcBalancer.Decrease b t from rfl, h2]
      simp only [ConnOp.net, add_assoc]

/-- One accounting call on the P2C balancer moves the counter of a listed,
non-empty server by `d` and touches nothing else. -/
theorem p2cBalancer.account_step (b : p2cBalancer) (t : String) (d : Int) (k : String → Int)
    (h : ∀ s, b.counts s = if s ∈ b.servers then some (wrapInt64 (k s)) else none)
    (b1 : p2cBalancer)
    (hb1 : b1 = if t = "" then b else
      match b.counts t with
      | some c =>
        ⟨b.servers, fun s => if s = t then some (wrapInt64 (c + d)) else b.counts s,
          b.rand, b.health, b.stopHealthClosed⟩
      | none => b)
    (hw : ∀ x, wrapInt64 (wrapInt64 x + d) = wrapInt64 (x + d)) :
    b1.servers = b.servers ∧
      ∀ s, b1.counts s
        = if s ∈ b.servers then
            some (wrapInt64 (k s + (if s = "" then 0 else if t = s then d else 0)))
          else none := by
  subst hb1
  by_cases ht0 : t = ""
  · rw [if_pos ht0]
    refine ⟨rfl, fun s => ?_⟩
    rw [h s]
    by_cases hs0 : s = ""
    · simp [hs0]
    · have : ¬ t = s := by rw [ht0]; exact fun e => hs0 e.symm
      simp [hs0, this]
  · rw [if_neg ht0]
    cases hc : b.counts t with
    | none =>
      refine ⟨rfl, fun s => ?_⟩
      by_cases hts : t = s
      · subst hts
        have := h t
        rw [hc] at this
        by_cases hm : t ∈ b.servers
        · rw [if_pos hm] at this; cases this
        · simp [hm, hc]
      · by_cases hs0 : s = ""
        · subst hs0; simp [h ""]
        · simp [hts, hs0, h s]
    | some c =>
      refine ⟨rfl, fun s => ?_⟩
      have htt := h t
      rw [hc] at htt
      by_cases hm : t ∈ b.servers
      · rw [if_pos hm] at htt
        cases htt
        by_cases hts : t = s
        · subst hts
          simp [hm, ht0, hw]
        · have hst : ¬ s = t := fun e => hts e.symm
          by_cases hs0 : s = ""
          · subst hs0; simp [hst, h ""]
          · simp [hts, hst, hs0, h s]
      · rw [if_neg hm] at htt; cases htt

/-- P2C: after a run of accounting calls every counter of a non-empty server
holds its start value moved by the net number of calls, wrapped to `int64`; the
counter of the empty name never moves. -/
theorem p2cBalancer.runConn_p2c_counts (ops : List ConnOp) (b : p2cBalancer) (k : String → Int)
    (h : ∀ s, b.counts s = if s ∈ b.servers then some (wrapInt64 (k s)) else none) :
    (runConn b ops).servers = b.servers ∧
      ∀ s, (runConn b ops).counts s
        = if s ∈ b.servers then
            some (wrapInt64 (k s + (if s = "" then 0 else ConnOp.net s ops)))
          else none := by
  induction ops generalizing b k with
  | nil =>
    refine ⟨rfl, fun s => ?_⟩
    by_cases hs0 : s = ""
    · subst hs0; simp [runConn, h ""]
    · simp [runConn, ConnOp.net, h s, hs0]
  | cons op rest ih =>
    cases op with
    | increase t =>
      obtain ⟨hs1, hc1⟩ := p2cBalancer.account_step b t 1 k h (p2cBalancer.Increase b t)
        rfl wrapInt64_succ
      have := ih (p2cBalancer.Increase b t)
        (fun s => k s + (if s = "" then 0 else if t = s then 1 else 0))
        (by intro s; rw [hs1]; exact hc1 s)
      refine ⟨this.1.trans hs1, fun s => ?_⟩
      have h2 := this.2 s
      rw [hs1] at h2
      simp only [runConn, List.foldl_cons, ConnOp.apply] at h2 ⊢
      rw [show (ConnAware.Increase b t) = p2cBalancer.Increase b t from rfl, h2]
      by_cases hs0 : s = "" <;> simp [ConnOp.net, hs0, add_assoc]
    | decrease t =>
      obtain ⟨hs1, hc1⟩ := p2cBalancer.account_step b t (-1) k h (p2cBalancer.Decrease b t)
        rfl (fun x => by
          have := wrapInt64_pred x
          simpa [sub_eq_add_neg] using this)
      have := ih (p2cBalancer.Decrease b t)
        (fun s => k s + (if s = "" then 0 else if t = s then -1 else 0))
        (by intro s; rw [hs1]; exact hc1 s)
      refine ⟨this.1.trans hs1, fun s => ?_⟩
      have h2 := this.2 s
      rw [hs1] at h2
      simp only [runConn, List.foldl_cons, ConnOp.apply] at h2 ⊢
      rw [show (ConnAware.Decrease b t) = p2cBalancer.Decrease b t from rfl, h2]
      by_cases hs0 : s = "" <;> simp [ConnOp.net, hs0, add_assoc]

/-- The adaptive balancer forwards every accounting call to both children. -/
theorem AdaptiveBalancer.runConn_children {R L P : Type} [ConnAware L] [ConnAware P]
    (ops : List ConnOp) (a : AdaptiveBalancer R L P) :
    (runConn a ops).lc = runConn a.lc ops ∧ (runConn a ops).p2c = runConn a.p2c ops ∧
      (runConn a ops).active = a.active := by
  induction ops generalizing a with
  | nil => exact ⟨rfl, rfl, rfl⟩
  | cons op rest ih =>
    cases op with
    | increase t => exact ih (AdaptiveBalancer.Increase a t)
    | decrease t => exact ih (AdaptiveBalancer.Decrease a t)

/-- C16. Starting from a freshly constructed least-connections, P2C or
adaptive balancer, after any sequence of `Increase` and `Decrease` calls in
which every backend receives as many `Decrease` calls as `Increase` calls,
every load counter equals 0; for the adaptive balancer this holds for every
counter of its least-connections child and of its P2C child. -/
theorem counters_converge (servers : List String) (ops : List ConnOp)
    (hbal : ConnOp.Balanced ops) :
    (∀ s ∈ servers, (runConn (NewLeastConnBalancer servers) ops).counts s = some 0) ∧
    (∀ (seed : Rand), ∀ s ∈ servers,
      (runConn (NewP2CBalancer servers seed) ops).counts s = some 0) ∧
    (∀ (R : Type) (rr : R) (seed : Rand) (low high : Int), ∀ s ∈ servers,
      (runConn (NewAdaptiveBalancer rr (NewLeastConnBalancer servers)
          (NewP2CBalancer servers seed) low high) ops).lc.counts s = some 0 ∧
      (runConn (NewAdaptiveBalancer rr (NewLeastConnBalancer servers)
          (NewP2CBalancer servers seed) low high) ops).p2c.counts s = some 0) := by
  have hlc : ∀ s ∈ servers, (runConn (NewLeastConnBalancer servers) ops).counts s = some 0 := by
    intro s hs
    have := (lcBalancer.runConn_lc_counts ops (NewLeastConnBalancer servers) (fun _ => 0)
      (by intro t; simp [NewLeastConnBalancer, wrapInt64_zero])).2 s
    rw [this]
    simp [NewLeastConnBalancer, hs, hbal.net_zero s, wrapInt64_zero]
  have hp : ∀ (seed : Rand), ∀ s ∈ servers,
      (runConn (NewP2CBalancer servers seed) ops).counts s = some 0 := by
    intro seed s hs
    have := (p2cBalancer.runConn_p2c_counts ops (NewP2CBalancer servers seed) (fun _ => 0)
      (by intro t; simp [NewP2CBalancer, wrapInt64_zero])).2 s
    rw [this]
    simp [NewP2CBalancer, hs, hbal.net_zero s, wrapInt64_zero]
  refine ⟨hlc, hp, ?_⟩
  intro R rr seed low high s hs
  obtain ⟨h1, h2, _⟩ := AdaptiveBalancer.runConn_children ops
    (NewAdaptiveBalancer rr (NewLeastConnBalancer servers) (NewP2CBalancer servers seed) low high)
  rw [h1, h2]
  exact ⟨hlc s hs, hp seed s hs⟩

/-- Witness for C16: three backends, the calls of one request on each of two
of them, interleaved. -/
theorem counters_converge_witness :
    (runConn (NewLeastConnBalancer ["foo", "bar", "baz"])
        [ConnOp.increase "foo", ConnOp.increase "bar", ConnOp.decrease "foo",
          ConnOp.decrease "bar"]).counts "foo" = some 0 :=
  (counters_converge ["foo", "bar", "baz"]
    [ConnOp.increase "foo", ConnOp.increase "bar", ConnOp.decrease "foo", ConnOp.decrease "bar"]
    (by
      intro s
      by_cases h1 : s = "foo"
      · subst h1; decide
      · by_cases h2 : s = "bar"
        · subst h2; decide
        · have e1 : ¬ "foo" = s := fun e => h1 e.symm
          have e2 : ¬ "bar" = s := fun e => h2 e.symm
          simp [List.count_cons, e1, e2])).1 "foo" (by simp)

/-! ## P2C: the health probe -/

/-- C17. A health probe of backend `b` that does not panic sets the health
flag of `b` to true if and only if the probe returned a response, without a
transport error or timeout, whose status is below 500, and to false otherwise;
it leaves the flag of every other backend, the backend list and the counters
unchanged. A freshly constructed selector has every listed backend
admissible. -/
theorem p2c_health_probe (b : p2cBalancer) (server : String) (o : ProbeOutcome) :
    (o ≠ ProbeOutcome.panic →
      ∃ b1, b.checkOne server o = some b1 ∧
        (b1.health server = some true ↔ ∃ status, o = ProbeOutcome.reply status ∧ status < 500) ∧
        (b1.health server = some false ↔
          ¬ ∃ status, o = ProbeOutcome.reply status ∧ status < 500) ∧
        (∀ s, s ≠ server → b1.health s = b.health s) ∧
        b1.servers = b.servers ∧ b1.counts = b.counts) ∧
    (∀ (servers : List String) (seed : Rand),
      (∀ s ∈ servers, (NewP2CBalancer servers seed).health s = some true) ∧
      (NewP2CBalancer servers seed).getHealthyServers = servers) := by
  constructor
  · intro hp
    cases o with
    | panic => exact absurd rfl hp
    | transportError =>
      refine ⟨_, rfl, ?_, ?_, ?_, rfl, rfl⟩
      · simp [ProbeOutcome.up]
      · simp [ProbeOutcome.up]
      · intro s hs; simp [hs]
    | reply status =>
      refine ⟨_, rfl, ?_, ?_, ?_, rfl, rfl⟩
      · simp [ProbeOutcome.up]
      · simp [ProbeOutcome.up]
      · intro s hs; simp [hs]
  · intro servers seed
    have h1 : ∀ s ∈ servers, (NewP2CBalancer servers seed).health s = some true := by
      intro s hs
      simp [NewP2CBalancer, hs]
    refine ⟨h1, ?_⟩
    unfold p2cBalancer.getHealthyServers
    show List.filter _ servers = servers
    rw [List.filter_eq_self]
    intro s hs
    rw [h1 s hs]
    rfl

/-! ## P2C: the two candidates -/

/-- Witness for C17: a probe of `A` answered with status 503 marks `A`
inadmissible and leaves `B` admissible. -/
theorem p2c_health_probe_witness :
    ∃ b1, (NewP2CBalancer ["A", "B"] ⟨fun i => i, 0⟩).checkOne "A" (ProbeOutcome.reply 503)
        = some b1 ∧
      b1.health "A" = some false ∧ b1.health "B" = some true := by
  obtain ⟨b1, h, _, hfalse, hother, _⟩ :=
    (p2c_health_probe (NewP2CBalancer ["A", "B"] ⟨fun i => i, 0⟩) "A"
      (ProbeOutcome.reply 503)).1 (by simp)
  refine ⟨b1, h, hfalse.mpr ?_, ?_⟩
  · rintro ⟨status, ho, hlt⟩
    cases ho
    omega
  · rw [hother "B" (by decide)]
    decide

/-- C18. When at least two backends are admissible and the two picks are `s1`
(first) and `s2` (second), P2C `Next` returns `s1` if
`counter(s1) ≤ counter(s2)` and `s2` otherwise, and only advances the
generator. -/
theorem p2c_next_smaller (b : p2cBalancer) (s1 s2 : String) (c1 c2 : Int)
    (hn : 2 ≤ b.getHealthyServers.length)
    (h1 : b.getHealthyServers.get? (p2cBalancer.pick b.rand b.getHealthyServers.length).1
      = some s1)
    (h2 : b.getHealthyServers.get? (p2cBalancer.pick b.rand b.getHealthyServers.length).2.1
      = some s2)
    (hc1 : b.counts s1 = some c1) (hc2 : b.counts s2 = some c2) :
    b.Next = some (if c1 ≤ c2 then s1 else s2,
      ⟨b.servers, b.counts, (p2cBalancer.pick b.rand b.getHealthyServers.length).2.2, b.health,
        b.stopHealthClosed⟩) := by
  have hlen0 : b.getHealthyServers.length ≠ 0 := by omega
  have hlen1 : b.getHealthyServers.length ≠ 1 := by omega
  simp only [p2cBalancer.Next, if_neg hlen0, if_neg hlen1, h1, h2, hc1, hc2]
  split_ifs <;> rfl

/-- Witness for C18: backends `[A, B]` with one connection counted on `A`; the
generator draws index 0 and then index 1, and `B` wins. -/
theorem p2c_next_smaller_witness :
    (p2cBalancer.Increase (NewP2CBalancer ["A", "B"] ⟨fun i => i, 0⟩) "A").Next
      = some (if (1 : Int) ≤ 0 then "A" else "B",
        ⟨(p2cBalancer.Increase (NewP2CBalancer ["A", "B"] ⟨fun i => i, 0⟩) "A").servers,
          (p2cBalancer.Increase (NewP2CBalancer ["A", "B"] ⟨fun i => i, 0⟩) "A").counts,
          (p2cBalancer.pick
            (p2cBalancer.Increase (NewP2CBalancer ["A", "B"] ⟨fun i => i, 0⟩) "A").rand
            (p2cBalancer.Increase (NewP2CBalancer ["A", "B"] ⟨fun i => i, 0⟩)
              "A").getHealthyServers.length).2.2,
          (p2cBalancer.Increase (NewP2CBalancer ["A", "B"] ⟨fun i => i, 0⟩) "A").health,
          (p2cBalancer.Increase (NewP2CBalancer ["A", "B"] ⟨fun i => i, 0⟩)
            "A").stopHealthClosed⟩) :=
  p2c_next_smaller (p2cBalancer.Increase (NewP2CBalancer ["A", "B"] ⟨fun i => i, 0⟩) "A")
    "A" "B" 1 0 (by decide) (by decide) (by decide) (by decide) (by decide)

/-- C19 fails on the code: with two admissible backends and a generator whose
three draws all give index 0, both candidate indices of `Next` are 0; the
redraw on a collision happens once and is not checked again. -/
theorem p2c_pick_repeats :
    (p2cBalancer.pick ⟨fun _ => 0, 0⟩
        (NewP2CBalancer ["A", "B"] ⟨fun _ => 0, 0⟩).getHealthyServers.length).1 = 0
      ∧ (p2cBalancer.pick ⟨fun _ => 0, 0⟩
        (NewP2CBalancer ["A", "B"] ⟨fun _ => 0, 0⟩).getHealthyServers.length).2.1 = 0
      ∧ (NewP2CBalancer ["A", "B"] ⟨fun _ => 0, 0⟩).getHealthyServers.length = 2
      ∧ ((NewP2CBalancer ["A", "B"] ⟨fun _ => 0, 0⟩).Next).map (fun x => x.1) = some "A" := by
  decide

/-- The candidate indices of `Next` coincide exactly when the redraw repeats
the first draw. -/
theorem p2cBalancer.pick_eq_iff (g : Rand) (n : Nat) :
    (p2cBalancer.pick g n).1 = (p2cBalancer.pick g n).2.1 ↔
      g.src g.pos % n = g.src (g.pos + 1) % n ∧ g.src g.pos % n = g.src (g.pos + 2) % n := by
  simp only [p2cBalancer.pick, Rand.Intn]
  split_ifs with h
  · simp [h]
  · simp [h]

/-! ## Token bucket: isolation of keys -/

/-- Two limiters with the same parameters and the same bucket for `key` give
the same answers to `key`, whatever `Allow` calls on other keys one of the
runs contains. -/
theorem TokenBucketLimiter.answers_filter (key : String) (ops : List TBOp)
    (tb1 tb2 : TokenBucketLimiter) (hc : tb1.capacity = tb2.capacity)
    (hr : tb1.refillTokens = tb2.refillTokens) (hb : tb1.buckets key = tb2.buckets key) :
    TokenBucketLimiter.answers key tb1 ops
      = TokenBucketLimiter.answers key tb2 (ops.filter (TBOp.concerns key)) := by
  induction ops generalizing tb1 tb2 with
  | nil => rfl
  | cons op rest ih =>
    cases op with
    | allow k =>
      have hload : tb1.loadOrStore key = tb2.loadOrStore key := by
        simp only [TokenBucketLimiter.loadOrStore, hb, hc]
      by_cases hk : k = key
      · subst hk
        have hA : (tb1.Allow k).1 = (tb2.Allow k).1 ∧
            (tb1.Allow k).2.capacity = (tb2.Allow k).2.capacity ∧
            (tb1.Allow k).2.refillTokens = (tb2.Allow k).2.refillTokens ∧
            (tb1.Allow k).2.buckets k = (tb2.Allow k).2.buckets k := by
          simp only [TokenBucketLimiter.Allow, hload]
          split_ifs <;> simp [hc, hr]
        simp only [List.filter_cons, TBOp.concerns, decide_True, if_true,
          TokenBucketLimiter.answers, hA.1]
        rw [ih _ _ hA.2.1 hA.2.2.1 hA.2.2.2]
      · have hA : (tb1.Allow k).2.capacity = tb2.capacity ∧
            (tb1.Allow k).2.refillTokens = tb2.refillTokens ∧
            (tb1.Allow k).2.buckets key = tb2.buckets key := by
          have hkk : ¬ key = k := fun e => hk e.symm
          simp only [TokenBucketLimiter.Allow]
          split_ifs <;> simp [hc, hr, hb, hkk]
        simp only [List.filter_cons, TBOp.concerns, hk, decide_False, Bool.false_eq_true,
          if_false, TokenBucketLimiter.answers]
        exact ih _ _ hA.1 hA.2.1 hA.2.2
    | tick =>
      have hA : tb1.refill.capacity = tb2.refill.capacity ∧
          tb1.refill.refillTokens = tb2.refill.refillTokens ∧
          tb1.refill.buckets key = tb2.refill.buckets key := by
        refine ⟨hc, hr, ?_⟩
        simp only [TokenBucketLimiter.refill, hb]
        congr 1
        funext t
        exact TokenBucketLimiter.refillBucket_congr _ _ hc hr t
      simp only [List.filter_cons, TBOp.concerns, if_true, TokenBucketLimiter.answers]
      exact ih _ _ hA.1 hA.2.1 hA.2.2

/-- C20. A call `Allow(a)` on the token-bucket limiter leaves the bucket of
every key `b ≠ a` as it was, absent or with the same tokens; so the answers
that the `Allow(b)` calls of a run receive are those of the run with the
`Allow` calls on other keys removed. -/
theorem tb_isolation (tb : TokenBucketLimiter) :
    (∀ a b, b ≠ a → (tb.Allow a).2.buckets b = tb.buckets b) ∧
    (∀ a, (tb.Allow a).2.capacity = tb.capacity ∧
      (tb.Allow a).2.refillTokens = tb.refillTokens) ∧
    (∀ key ops, TokenBucketLimiter.answers key tb ops
      = TokenBucketLimiter.answers key tb (ops.filter (TBOp.concerns key))) := by
  refine ⟨?_, ?_, ?_⟩
  · intro a b hba
    simp only [TokenBucketLimiter.Allow]
    split_ifs <;> simp [hba]
  · intro a
    simp only [TokenBucketLimiter.Allow]
    split_ifs <;> simp
  · intro key ops
    exact TokenBucketLimiter.answers_filter key ops tb tb rfl rfl rfl

/-! ## Persistent client manager -/

/-- Above `2^53` the decrement of a `float64` is not exact: `2^53 + 2` less one
rounds to `2^53`. -/
theorem F64.sub_one_above_2p53 :
    F64.sub (F64.fin (2 ^ 53 + 2)) (F64.fin 1) = F64.fin (2 ^ 53) := by
  have hm : rne (((2 : ℚ) ^ 53 + 1) / (2 : ℚ) ^ ((53 : Int) - 52)) = 2 ^ 52 := by
    have h := rne_eval_tie_even (x := ((2 : ℚ) ^ 53 + 1) / (2 : ℚ) ^ ((53 : Int) - 52))
      (f := 2 ^ 52) (by norm_num) (by decide)
    rw [h]
  have hround : F64.round ((2 : ℚ) ^ 53 + 1) = F64.fin (2 ^ 53) := by
    rw [F64.round_eval (L := 53) (by norm_num) (by norm_num) (by norm_num) hm (by norm_num)]
    norm_num
  simp only [F64.sub, F64.neg, F64.add]
  have : ((2 : ℚ) ^ 53 + 2 + -1) = (2 : ℚ) ^ 53 + 1 := by ring
  rw [this, hround]

/-- C11 as stated fails: a registered client holding `2^53 + 2` tokens is
granted and left with `2^53` tokens, two less. -/
theorem manager_allow_large_tokens :
    (DBManager.Allow
        ⟨[], fun k => if k = "u1" then
          some ⟨⟨F64.fin (2 ^ 53 + 2), F64.fin 1, 1000000000, F64.fin 0⟩,
            F64.fin (2 ^ 53 + 2), false⟩ else none, false⟩ "u1").1 = true
      ∧ ((DBManager.Allow
        ⟨[], fun k => if k = "u1" then
          some ⟨⟨F64.fin (2 ^ 53 + 2), F64.fin 1, 1000000000, F64.fin 0⟩,
            F64.fin (2 ^ 53 + 2), false⟩ else none, false⟩ "u1").2.clients "u1").map
          (fun tb => tb.tokens) = some (F64.fin (2 ^ 53)) := by
  have hle : F64.le (F64.fin 1) (F64.fin (2 ^ 53 + 2)) = true := by
    simp only [F64.le]; norm_num
  simp [DBManager.Allow, hle, F64.sub_one_above_2p53]

/-- C11, amended. For every state of the client manager, `Allow(id)` returns
false and changes nothing when no client with that id is registered; for a
registered client whose tokens are a `float64` `t` with `1 ≤ t ≤ 2^53` it
returns true and lowers that client's tokens by exactly 1, touching neither
another client nor the durable table; and when the tokens are not `≥ 1` it
returns false and changes nothing. -/
theorem manager_allow (m : DBManager) (id : String) :
    (m.clients id = none → m.Allow id = (false, m)) ∧
    (∀ tb t, m.clients id = some tb → tb.tokens = F64.fin t → 1 ≤ t → t ≤ 2 ^ 53 → IsF64 t →
      (m.Allow id).1 = true ∧
      (m.Allow id).2.clients id = some ⟨tb.config, F64.fin (t - 1), tb.stopClosed⟩ ∧
      (∀ k, k ≠ id → (m.Allow id).2.clients k = m.clients k) ∧
      (m.Allow id).2.db = m.db) ∧
    (∀ tb, m.clients id = some tb → F64.le (F64.fin 1) tb.tokens = false →
      m.Allow id = (false, m)) := by
  refine ⟨?_, ?_, ?_⟩
  · intro h
    simp [DBManager.Allow, h]
  · intro tb t h ht h1 h53 hrep
    have hle : F64.le (F64.fin 1) tb.tokens = true := by
      rw [ht]; simp [F64.le, h1]
    have hsub : F64.sub tb.tokens (F64.fin 1) = F64.fin (t - 1) := by
      rw [ht]
      simp only [F64.sub, F64.neg, F64.add]
      rw [← sub_eq_add_neg]
      refine F64.round_exact (by linarith) ?_
      have := isF64_sub_nat hrep h53 1 (by push_cast; linarith)
      simpa using this
    simp only [DBManager.Allow, h, hle, if_true, hsub]
    refine ⟨trivial, by simp, ?_, trivial⟩
    intro k hk
    simp [hk]
  · intro tb h hle
    simp [DBManager.Allow, h, hle]

/-- Witness for C11 (amended): a client holding 2 tokens. -/
theorem manager_allow_witness :
    (DBManager.Allow
        ⟨[], fun k => if k = "u1" then
          some ⟨⟨F64.fin 2, F64.fin 1, 1000000000, F64.fin 0⟩, F64.fin 2, false⟩ else none,
          false⟩ "u1").1 = true :=
  ((manager_allow
      ⟨[], fun k => if k = "u1" then
        some ⟨⟨F64.fin 2, F64.fin 1, 1000000000, F64.fin 0⟩, F64.fin 2, false⟩ else none,
        false⟩ "u1").2.1
    ⟨⟨F64.fin 2, F64.fin 1, 1000000000, F64.fin 0⟩, F64.fin 2, false⟩ 2 (by simp) rfl
    (by norm_num) (by norm_num)
    ⟨1, 1, by norm_num, by norm_num, by norm_num, by norm_num⟩).1

/-- C12 fails on the code: `AddClient` with a zero refill interval (a JSON
body that omits `refill_interval`) panics in `time.NewTicker`, on a fresh
manager as on one that already holds the client; no client is installed and
`GetClient` keeps reporting what was there before. -/
theorem manager_add_zero_interval :
    (NewDBManager []).bind (fun m =>
        m.AddClient "u1" ⟨F64.fin 4, F64.fin 2, 0, F64.fin 0⟩ true) = none
      ∧ ((NewDBManager []).map fun m => m.GetClient "u1") = some (Except.error "not found") := by
  constructor
  · simp [NewDBManager, DBManager.AddClient]
  · simp [NewDBManager, DBManager.GetClient]

/-- What C12 states does hold for a positive refill interval, when the client
being replaced (if any) has not been stopped by a failed `RemoveClient`:
`AddClient` returns, with or without an error, and `GetClient` then reports the
fields of `cfg` and `tokens = cfg.Capacity`. -/
theorem DBManager.AddClient_then_GetClient (m : DBManager) (id : String) (cfg : ClientConfig)
    (dbOk : Bool) (hint : 0 < cfg.RefillInterval)
    (hold : ∀ old, m.clients id = some old → old.stopClosed = false) :
    ∃ err m1, m.AddClient id cfg dbOk = some (err, m1) ∧
      m1.GetClient id
        = Except.ok ⟨cfg.Capacity, cfg.RefillRate, cfg.RefillInterval, cfg.Capacity⟩ ∧
      (∀ k, k ≠ id → m1.clients k = m.clients k) := by
  have h1 : (match m.clients id with
      | some old => old.stopClosed
      | none => false) = false := by
    cases h : m.clients id with
    | none => rfl
    | some old => exact hold old h
  have h2 : ¬ cfg.RefillInterval ≤ 0 := by omega
  unfold DBManager.AddClient
  rw [h1]
  simp only [Bool.false_eq_true, if_false, if_neg h2]
  split_ifs
  · refine ⟨_, _, rfl, by simp [DBManager.GetClient], fun k hk => by simp [hk]⟩
  · refine ⟨_, _, rfl, by simp [DBManager.GetClient], fun k hk => by simp [hk]⟩
  · refine ⟨_, _, rfl, by simp [DBManager.GetClient], fun k hk => by simp [hk]⟩

/-! ## Persistent client manager: the durable configuration -/

theorem lookup_dbUpsert_self (db : List (String × ClientRow)) (id : String) (row : ClientRow) :
    (dbUpsert db id row).lookup id = some row := by
  simp [dbUpsert, List.lookup]

/-- Updating the tokens of a row keeps the `config` column of every row. -/
theorem lookup_dbUpdateTokens_config (db : List (String × ClientRow)) (id k : String) (t : F64) :
    ((dbUpdateTokens db k t).lookup id).map (fun r => r.config)
      = (db.lookup id).map (fun r => r.config) := by
  induction db with
  | nil => rfl
  | cons r rest ih =>
    obtain ⟨rid, row⟩ := r
    have h1 : (if rid = k then (rid, (⟨row.config, t⟩ : ClientRow)) else (rid, row)).1 = rid := by
      split_ifs <;> rfl
    have h2 : (if rid = k then (rid, (⟨row.config, t⟩ : ClientRow)) else (rid, row)).2.config
        = row.config := by
      split_ifs <;> rfl
    simp only [dbUpdateTokens, List.map_cons] at ih ⊢
    generalize (if rid = k then (rid, (⟨row.config, t⟩ : ClientRow)) else (rid, row)) = x at h1 h2
    obtain ⟨xid, xrow⟩ := x
    simp only at h1 h2
    subst h1
    simp only [List.lookup]
    cases (id == xid)
    · exact ih
    · simp [h2]

/-- A checkpoint tick keeps the `config` column of every row. -/
theorem DBManager.persistTick_config (ok : String → Bool) (order : List String) (m : DBManager)
    (id : String) :
    ((DBManager.persistTick ok m order).1.db.lookup id).map (fun r => r.config)
      = (m.db.lookup id).map (fun r => r.config) := by
  induction order generalizing m with
  | nil => rfl
  | cons k rest ih =>
    unfold DBManager.persistTick
    cases hc : m.clients k with
    | none => exact ih m
    | some tb =>
      simp only
      split_ifs
      · rw [ih]
        exact lookup_dbUpdateTokens_config m.db id k tb.tokens
      · rfl

/-- No step of a running manager changes the `config` column of a row. -/
theorem DBManager.run_config (steps : List ManagerStep) (m : DBManager) (id : String) :
    ((m.run steps).db.lookup id).map (fun r => r.config)
      = (m.db.lookup id).map (fun r => r.config) := by
  induction steps generalizing m with
  | nil => rfl
  | cons st rest ih =>
    have hstep : ((m.step st).db.lookup id).map (fun r => r.config)
        = (m.db.lookup id).map (fun r => r.config) := by
      cases st with
      | allow k =>
        have : (m.Allow k).2.db = m.db := by
          unfold DBManager.Allow
          cases m.clients k with
          | none => rfl
          | some tb => simp only; split_ifs <;> rfl
        simp only [DBManager.step, this]
      | refill k =>
        have : (m.refillTick k).db = m.db := by
          unfold DBManager.refillTick
          cases m.clients k with
          | none => rfl
          | some tb => simp only; split_ifs <;> rfl
        simp only [DBManager.step, this]
      | persist ok order => exact DBManager.persistTick_config ok order m id
    exact (ih (m.step st)).trans hstep

/-- C14 as stated fails: after `AddClient("u1", cfg)` with
`cfg = {4, 2, 100ms, tokens 0}`, a checkpoint and a restart, `GetClient`
returns the three configured values with `Tokens = 4`, the restored tokens,
which is not `cfg`. -/
theorem manager_round_trip_tokens :
    (((NewDBManager []).bind fun m =>
        m.AddClient "u1" ⟨F64.fin 4, F64.fin 2, 100000000, F64.fin 0⟩ true).bind fun r =>
        NewDBManager (DBManager.persistTick (fun _ => true) r.2 ["u1"]).1.db).map
        (fun m => m.GetClient "u1")
      = some (Except.ok ⟨F64.fin 4, F64.fin 2, 100000000, F64.fin 4⟩)
    ∧ (⟨F64.fin 4, F64.fin 2, 100000000, F64.fin 4⟩ : ClientConfig)
      ≠ ⟨F64.fin 4, F64.fin 2, 100000000, F64.fin 0⟩ := by
  constructor
  · simp [NewDBManager, DBManager.AddClient, ClientConfig.marshalOk, F64.isFinite,
      DBManager.persistTick, dbUpsert, dbUpdateTokens, DBManager.GetClient, List.lookup]
  · intro h
    injection h with _ _ _ h4
    injection h4 with h4
    norm_num at h4

/-- C14, amended. After `AddClient(id, cfg)` succeeds, any further `Allow`
calls, refill ticks and checkpoints, and the construction of a new manager
from the same durable store, `GetClient(id)` on the new manager succeeds and
returns capacity, refill rate and refill interval equal to those of `cfg`; the
`Tokens` field of the result is the restored token count. -/
theorem manager_round_trip (m m1 m3 : DBManager) (id : String) (cfg : ClientConfig)
    (steps : List ManagerStep)
    (hadd : m.AddClient id cfg true = some (none, m1))
    (hnew : NewDBManager (m1.run steps).db = some m3) :
    ∃ t, m3.GetClient id
      = Except.ok ⟨cfg.Capacity, cfg.RefillRate, cfg.RefillInterval, t⟩ := by
  have hrow : m1.db.lookup id = some ⟨cfg, cfg.Capacity⟩ := by
    unfold DBManager.AddClient at hadd
    split_ifs at hadd
    · simp at hadd
    · simp only [Option.some.injEq, Prod.mk.injEq, true_and] at hadd
      rw [← hadd]
      exact lookup_dbUpsert_self _ _ _
    · simp at hadd
  have hcfg := DBManager.run_config steps m1 id
  rw [hrow] at hcfg
  cases hl : (m1.run steps).db.lookup id with
  | none => rw [hl] at hcfg; cases hcfg
  | some row =>
    rw [hl] at hcfg
    simp only [Option.map_some', Option.some.injEq] at hcfg
    unfold NewDBManager at hnew
    split_ifs at hnew
    simp only [Option.some.injEq] at hnew
    refine ⟨row.tokens, ?_⟩
    rw [← hnew]
    simp [DBManager.GetClient, hl, hcfg]

/-- Witness for C14 (amended): the configuration of `TestSQLitePersistence`,
one checkpoint, restart. -/
theorem manager_round_trip_witness :
    ∃ t, DBManager.GetClient
        ⟨[("u1", ⟨⟨F64.fin 4, F64.fin 2, 100000000, F64.fin 0⟩, F64.fin 4⟩)],
          fun id => (List.lookup id
            [("u1", (⟨⟨F64.fin 4, F64.fin 2, 100000000, F64.fin 0⟩, F64.fin 4⟩ : ClientRow))]).map
            fun row => ⟨row.config, row.tokens, false⟩, false⟩ "u1"
      = Except.ok ⟨F64.fin 4, F64.fin 2, 100000000, t⟩ :=
  manager_round_trip ⟨[], fun _ => none, false⟩
    ⟨[("u1", ⟨⟨F64.fin 4, F64.fin 2, 100000000, F64.fin 0⟩, F64.fin 4⟩)],
      fun k => if k = "u1" then
        some ⟨⟨F64.fin 4, F64.fin 2, 100000000, F64.fin 0⟩, F64.fin 4, false⟩ else none, false⟩
    _ "u1" ⟨F64.fin 4, F64.fin 2, 100000000, F64.fin 0⟩
    [ManagerStep.persist (fun _ => true) ["u1"]]
    (by simp [DBManager.AddClient, ClientConfig.marshalOk, F64.isFinite, dbUpsert])
    (by simp [DBManager.run, DBManager.step, DBManager.persistTick, dbUpdateTokens,
      NewDBManager])

/-! ## Admin API -/

/-- The path of a request for the client `id` splits into the empty part before
the first slash, `clients`, and `id` whole. -/
theorem splitN3_clients (id : String) : splitN3 ("/clients/" ++ id) = ["", "clients", id] := by
  have h : ("/clients/" ++ id).toList
      = '/' :: 'c' :: 'l' :: 'i' :: 'e' :: 'n' :: 't' :: 's' :: '/' :: id.toList := by
    simp [String.toList, String.data_append]
  unfold splitN3
  rw [h]
  simp [takeSegment]

/-- C15. The handler of `POST /clients` responds 503 when the client manager
is unavailable, 400 when the `id` query parameter is missing or empty, 400 when
the body does not decode to a configuration, and 201 when `AddClient`
succeeds; in the 503 and 400 cases the manager is left as it was, so
`AddClient` is not called and no client is installed. -/
theorem post_clients (mgr : Option DBManager) (r : AdminRequest) (dbOk : Bool) :
    (mgr = none →
      Register.clients mgr r dbOk
        = some (AdminReply.error "\x7b\"error\":\"service unavailable\"\x7d" 503, none)) ∧
    (∀ m, mgr = some m → r.method = "POST" → r.queryId = "" →
      Register.clients mgr r dbOk
        = some (AdminReply.error "\x7b\"error\":\"missing id\"\x7d" 400, some m)) ∧
    (∀ m, mgr = some m → r.method = "POST" → r.queryId ≠ "" → r.body = none →
      Register.clients mgr r dbOk
        = some (AdminReply.error "\x7b\"error\":\"invalid body\"\x7d" 400, some m)) ∧
    (∀ m cfg m1, mgr = some m → r.method = "POST" → r.queryId ≠ "" → r.body = some cfg →
      m.AddClient r.queryId cfg dbOk = some (none, m1) →
      Register.clients mgr r dbOk = some (AdminReply.status 201, some m1)) := by
  refine ⟨?_, ?_, ?_, ?_⟩
  · intro h
    subst h
    rfl
  · intro m h hm hid
    subst h
    simp [Register.clients, hm, hid]
  · intro m h hm hid hb
    subst h
    simp [Register.clients, hm, hid, hb]
  · intro m cfg m1 h hm hid hb hadd
    subst h
    simp [Register.clients, hm, hid, hb, hadd]

/-- Witness for C15: the request of `TestAPIClientCRUD` on an empty manager
with a working store is answered 201 and installs the client. -/
theorem post_clients_witness :
    ∃ m1, Register.clients (some ⟨[], fun _ => none, false⟩)
        ⟨"POST", "/clients", "client1",
          some ⟨F64.fin 2, F64.fin 1, 100000000, F64.fin 0⟩⟩ true
        = some (AdminReply.status 201, some m1) ∧
      m1.GetClient "client1"
        = Except.ok ⟨F64.fin 2, F64.fin 1, 100000000, F64.fin 2⟩ :=
  ⟨⟨[("client1", ⟨⟨F64.fin 2, F64.fin 1, 100000000, F64.fin 0⟩, F64.fin 2⟩)],
      fun k => if k = "client1" then
        some ⟨⟨F64.fin 2, F64.fin 1, 100000000, F64.fin 0⟩, F64.fin 2, false⟩ else none, false⟩,
    (post_clients (some ⟨[], fun _ => none, false⟩)
      ⟨"POST", "/clients", "client1",
        some ⟨F64.fin 2, F64.fin 1, 100000000, F64.fin 0⟩⟩ true).2.2.2
      ⟨[], fun _ => none, false⟩ ⟨F64.fin 2, F64.fin 1, 100000000, F64.fin 0⟩ _ rfl rfl
      (by decide) rfl
      (by simp [DBManager.AddClient, ClientConfig.marshalOk, F64.isFinite, dbUpsert]),
    by simp [DBManager.GetClient]⟩

/-! ## P2C: `Stop` -/

/-- C22 as stated fails: on a freshly constructed selector the first `Stop`
completes and the second one panics, closing a channel that is already
closed. -/
theorem p2c_stop_twice :
    ((NewP2CBalancer ["A", "B"] ⟨fun _ => 0, 0⟩).Stop).isSome = true ∧
    ((NewP2CBalancer ["A", "B"] ⟨fun _ => 0, 0⟩).Stop).bind p2cBalancer.Stop = none := by
  exact ⟨rfl, rfl⟩

/-- C22, amended. `Stop` on a P2C selector that has not been stopped completes
normally and leaves the selector stopped, with its backends, counters, health
flags and generator unchanged; `Stop` on a stopped selector panics, so it may
be called once only. -/
theorem p2c_stop_once (b : p2cBalancer) (h : b.stopHealthClosed = false) :
    ∃ b1, b.Stop = some b1 ∧ b1.stopHealthClosed = true ∧ b1.servers = b.servers ∧
      b1.counts = b.counts ∧ b1.health = b.health ∧ b1.rand = b.rand ∧ b1.Stop = none := by
  refine ⟨⟨b.servers, b.counts, b.rand, b.health, true⟩, ?_, rfl, rfl, rfl, rfl, rfl, rfl⟩
  simp [p2cBalancer.Stop, h]

/-- Witness for C22 (amended): a freshly constructed selector. -/
theorem p2c_stop_once_witness :
    ∃ b1, (NewP2CBalancer ["A", "B"] ⟨fun _ => 0, 0⟩).Stop = some b1 ∧
      b1.stopHealthClosed = true ∧
      b1.servers = (NewP2CBalancer ["A", "B"] ⟨fun _ => 0, 0⟩).servers ∧
      b1.counts = (NewP2CBalancer ["A", "B"] ⟨fun _ => 0, 0⟩).counts ∧
      b1.health = (NewP2CBalancer ["A", "B"] ⟨fun _ => 0, 0⟩).health ∧
      b1.rand = (NewP2CBalancer ["A", "B"] ⟨fun _ => 0, 0⟩).rand ∧ b1.Stop = none :=
  p2c_stop_once (NewP2CBalancer ["A", "B"] ⟨fun _ => 0, 0⟩) rfl

/-! ## Threshold validation in `Start` -/

/-- C25 as stated fails: for `low_threshold = 10^18` and `high_threshold = 0`
the product `low * 10` overflows `int64` and the validated high threshold is
negative, below the low one. -/
theorem start_thresholds_overflow :
    Start.thresholds 1000000000000000000 0
      = (1000000000000000000, -8446744073709551616) ∧
    ¬ ((Start.thresholds 1000000000000000000 0).1 ≤ (Start.thresholds 1000000000000000000 0).2) := by
  have h : Start.thresholds 1000000000000000000 0
      = (1000000000000000000, -8446744073709551616) := by
    simp [Start.thresholds, wrapInt64]
  rw [h]
  exact ⟨rfl, by norm_num⟩

/-- C25, amended. For every configured pair with
`low_threshold ≤ 922337203685477580` (the largest value whose tenfold fits
`int64`) or `low_threshold < high_threshold`, the thresholds handed to the
adaptive supervisor after validation satisfy `0 ≤ low ≤ high`. -/
theorem start_thresholds (low high : Int)
    (h : low ≤ 922337203685477580 ∨ low < high) :
    0 ≤ (Start.thresholds low high).1 ∧
      (Start.thresholds low high).1 ≤ (Start.thresholds low high).2 := by
  unfold Start.thresholds
  by_cases hneg : low < 0
  · simp only [if_pos hneg]
    by_cases hh : high ≤ 10
    · simp only [if_pos hh]
      refine ⟨by norm_num, ?_⟩
      rw [wrapInt64_of_range _ (by norm_num) (by norm_num)]
      norm_num
    · simp only [if_neg hh]
      exact ⟨by norm_num, by omega⟩
  · simp only [if_neg hneg]
    by_cases hh : high ≤ low
    · simp only [if_pos hh]
      have hb : low ≤ 922337203685477580 := by omega
      refine ⟨by omega, ?_⟩
      rw [wrapInt64_of_range _ (by omega) (by omega)]
      omega
    · simp only [if_neg hh]
      exact ⟨by omega, by omega⟩

/-- Witness for C25 (amended): an unset pair `(-1, 0)` becomes `(10, 100)`. -/
theorem start_thresholds_witness :
    0 ≤ (Start.thresholds (-1) 0).1 ∧ (Start.thresholds (-1) 0).1 ≤ (Start.thresholds (-1) 0).2 :=
  start_thresholds (-1) 0 (Or.inl (by norm_num))

/-! ## Admin API: an `AddClient` error -/

/-- C29. When the manager is available, the method is `POST`, the id is not
empty and the body decodes, but `AddClient` returns an error, the handler of
`POST /clients` writes no status and no body, so the client receives status
200 with an empty body; the client that `AddClient` installed in memory before
failing stays. -/
theorem post_clients_add_error (m m1 : DBManager) (r : AdminRequest) (cfg : ClientConfig)
    (dbOk : Bool) (err : String)
    (hm : r.method = "POST") (hid : r.queryId ≠ "") (hb : r.body = some cfg)
    (hadd : m.AddClient r.queryId cfg dbOk = some (some err, m1)) :
    ∃ reply, Register.clients (some m) r dbOk = some (reply, some m1) ∧
      reply = AdminReply.nothing ∧ reply.statusCode = 200 ∧ reply.bodyEmpty = true := by
  refine ⟨AdminReply.nothing, ?_, rfl, rfl, rfl⟩
  simp [Register.clients, hm, hid, hb, hadd]

/-- Witness for C29: the request of `TestAPIClientCRUD` when the store rejects
the upsert. -/
theorem post_clients_add_error_witness :
    ∃ reply, Register.clients (some ⟨[], fun _ => none, false⟩)
        ⟨"POST", "/clients", "client1",
          some ⟨F64.fin 2, F64.fin 1, 100000000, F64.fin 0⟩⟩ false
        = some (reply,
          some ⟨[], fun k => if k = "client1" then
            some ⟨⟨F64.fin 2, F64.fin 1, 100000000, F64.fin 0⟩, F64.fin 2, false⟩ else none,
            false⟩) ∧
      reply = AdminReply.nothing ∧ reply.statusCode = 200 ∧ reply.bodyEmpty = true :=
  post_clients_add_error ⟨[], fun _ => none, false⟩ _
    ⟨"POST", "/clients", "client1", some ⟨F64.fin 2, F64.fin 1, 100000000, F64.fin 0⟩⟩
    ⟨F64.fin 2, F64.fin 1, 100000000, F64.fin 0⟩ false "sql: statement failed" rfl (by decide) rfl
    (by simp [DBManager.AddClient, ClientConfig.marshalOk, F64.isFinite])

/-! ## The checkpoint task -/

theorem DBManager.persistTick_clients (ok : String → Bool) (order : List String) (m : DBManager) :
    (DBManager.persistTick ok m order).1.clients = m.clients := by
  induction order generalizing m with
  | nil => rfl
  | cons id rest ih =>
    simp only [DBManager.persistTick]
    cases h : m.clients id with
    | none => simpa using ih m
    | some tb =>
      by_cases hok : ok id = true
      · simp only [hok, if_true]
        rw [ih]
      · simp [hok]

theorem DBManager.persistTick_append (ok : String → Bool) (pre rest : List String)
    (hpre : ∀ k ∈ pre, ok k = true) (m : DBManager) :
    DBManager.persistTick ok m (pre ++ rest)
      = DBManager.persistTick ok (DBManager.persistTick ok m pre).1 rest := by
  induction pre generalizing m with
  | nil => rfl
  | cons id pre ih =>
    have hrest : ∀ k ∈ pre, ok k = true := fun k hk => hpre k (List.mem_cons_of_mem _ hk)
    have hid : ok id = true := hpre id (List.mem_cons_self _ _)
    simp only [List.cons_append, DBManager.persistTick]
    cases h : m.clients id with
    | none => simpa using ih hrest m
    | some tb =>
      simp only [hid, if_true]
      exact ih hrest _

/-- C23 fails on the code: when the write of the client `id` fails during a
tick, after the clients `pre` visited before it were written, the checkpoint
task returns. The clients `rest` still to be visited are not written in that
tick, and no later tick writes anything: the manager is left as it was after
the writes of `pre`, and the task is no longer running. -/
theorem persist_failure_stops (m : DBManager) (ok : String → Bool) (pre rest : List String)
    (id : String) (tb : tokenBucketClient)
    (ticks : List ((String → Bool) × List String))
    (hpre : ∀ k ∈ pre, ok k = true) (hid : m.clients id = some tb) (hfail : ok id = false) :
    DBManager.persistLoop m true ((ok, pre ++ id :: rest) :: ticks)
      = ((DBManager.persistTick ok m pre).1, false) := by
  have hc : (DBManager.persistTick ok m pre).1.clients id = some tb := by
    rw [DBManager.persistTick_clients]; exact hid
  have htick : DBManager.persistTick ok m (pre ++ id :: rest)
      = ((DBManager.persistTick ok m pre).1, false) := by
    rw [DBManager.persistTick_append ok pre (id :: rest) hpre m]
    simp [DBManager.persistTick, hc, hfail]
  simp only [DBManager.persistLoop, htick]
  cases ticks <;> rfl

/-- Witness for C23: clients `a` (3 tokens) and `b` (2 tokens) whose rows hold
4 tokens each; in the first tick the write of `a` fails, in the second every
write would succeed. Both rows still hold 4 tokens afterwards and the task has
returned. -/
theorem persist_failure_stops_witness :
    (DBManager.persistLoop
        ⟨[("a", ⟨⟨F64.fin 4, F64.fin 2, 100000000, F64.fin 0⟩, F64.fin 4⟩),
            ("b", ⟨⟨F64.fin 4, F64.fin 2, 100000000, F64.fin 0⟩, F64.fin 4⟩)],
          fun k => if k = "a" then
              some ⟨⟨F64.fin 4, F64.fin 2, 100000000, F64.fin 0⟩, F64.fin 3, false⟩
            else if k = "b" then
              some ⟨⟨F64.fin 4, F64.fin 2, 100000000, F64.fin 0⟩, F64.fin 2, false⟩
            else none, false⟩
        true
        [(fun k => decide (k ≠ "a"), ["a", "b"]), (fun _ => true, ["a", "b"])]).1.db
      = [("a", ⟨⟨F64.fin 4, F64.fin 2, 100000000, F64.fin 0⟩, F64.fin 4⟩),
          ("b", ⟨⟨F64.fin 4, F64.fin 2, 100000000, F64.fin 0⟩, F64.fin 4⟩)]
    ∧ (DBManager.persistLoop
        ⟨[("a", ⟨⟨F64.fin 4, F64.fin 2, 100000000, F64.fin 0⟩, F64.fin 4⟩),
            ("b", ⟨⟨F64.fin 4, F64.fin 2, 100000000, F64.fin 0⟩, F64.fin 4⟩)],
          fun k => if k = "a" then
              some ⟨⟨F64.fin 4, F64.fin 2, 100000000, F64.fin 0⟩, F64.fin 3, false⟩
            else if k = "b" then
              some ⟨⟨F64.fin 4, F64.fin 2, 100000000, F64.fin 0⟩, F64.fin 2, false⟩
            else none, false⟩
        true
        [(fun k => decide (k ≠ "a"), ["a", "b"]), (fun _ => true, ["a", "b"])]).2 = false := by
  have h := persist_failure_stops
    ⟨[("a", ⟨⟨F64.fin 4, F64.fin 2, 100000000, F64.fin 0⟩, F64.fin 4⟩),
        ("b", ⟨⟨F64.fin 4, F64.fin 2, 100000000, F64.fin 0⟩, F64.fin 4⟩)],
      fun k => if k = "a" then
          some ⟨⟨F64.fin 4, F64.fin 2, 100000000, F64.fin 0⟩, F64.fin 3, false⟩
        else if k = "b" then
          some ⟨⟨F64.fin 4, F64.fin 2, 100000000, F64.fin 0⟩, F64.fin 2, false⟩
        else none, false⟩
    (fun k => decide (k ≠ "a")) [] ["b"] "a"
    ⟨⟨F64.fin 4, F64.fin 2, 100000000, F64.fin 0⟩, F64.fin 3, false⟩
    [(fun _ => true, ["a", "b"])] (by simp) (by simp) (by simp)
  exact ⟨congrArg (fun x => x.1.db) h, congrArg (fun x => x.2) h⟩

/-! ## The middleware chain of `Start` -/

/-- C24 as stated fails: on the chain built by `Start` with the default global
limiter and no registered client, a request carrying the API key `nobody` is
rejected with 429 by the per-client limiter and the access log receives no
record. -/
theorem start_rejected_not_logged :
    (Start.handler (fun (_ : Unit) _ => (Response.upstream 200 "ok", ()))
        (⟨NewTokenBucketLimiter (F64.fin 100) (F64.fin 50) 1000000000,
          ⟨[], fun _ => none, false⟩, ((), [])⟩ :
          MiddlewareState TokenBucketLimiter DBManager (Unit × List LogRecord))
        ⟨"GET", "/foo", "10.0.0.1:5000",
          fun k => if k = "X-API-Key" then "nobody" else ""⟩).1
      = Response.error "\x7b\"code\":429,\"message\":\"client rate limit exceeded\"\x7d" 429
    ∧ (Start.handler (fun (_ : Unit) _ => (Response.upstream 200 "ok", ()))
        (⟨NewTokenBucketLimiter (F64.fin 100) (F64.fin 50) 1000000000,
          ⟨[], fun _ => none, false⟩, ((), [])⟩ :
          MiddlewareState TokenBucketLimiter DBManager (Unit × List LogRecord))
        ⟨"GET", "/foo", "10.0.0.1:5000",
          fun k => if k = "X-API-Key" then "nobody" else ""⟩).2.2.next.2 = [] := by
  have hle : F64.le (F64.fin 1) (F64.fin 100) = true := by
    simp only [F64.le]; norm_num
  constructor <;>
    simp [Start.handler, rateLimitMiddleware, RateLimiter.Allow, TokenBucketLimiter.Allow,
      TokenBucketLimiter.loadOrStore, NewTokenBucketLimiter, DBManager.Allow, hle]

/-- C24, amended. In the chain built by `Start` the rate-limit middleware is
the outermost and the access log is inside it. A request that either limiter
rejects is answered 429 and produces no access-log record; a request that
passes the limiters produces the entry record, then the router's reply, then
the completion record (the completion record is missing only when the router's
handler panics). -/
theorem start_chain_logging {G C N : Type} [RateLimiter G] [RateLimiter C]
    (mux : N → Request → Response × N) (s : MiddlewareState G C (N × List LogRecord))
    (r : Request) :
    ((RateLimiter.Allow s.globalRL r.remoteAddr).1 = false →
      (Start.handler mux s r).1
          = Response.error "\x7b\"code\":429,\"message\":\"rate limit exceeded\"\x7d" 429 ∧
        (Start.handler mux s r).2.2.next = s.next) ∧
    ((RateLimiter.Allow s.globalRL r.remoteAddr).1 = true → r.header "X-API-Key" ≠ "" →
      (RateLimiter.Allow s.clientRL (r.header "X-API-Key")).1 = false →
      (Start.handler mux s r).1
          = Response.error "\x7b\"code\":429,\"message\":\"client rate limit exceeded\"\x7d" 429 ∧
        (Start.handler mux s r).2.2.next = s.next) ∧
    ((RateLimiter.Allow s.globalRL r.remoteAddr).1 = true →
      (r.header "X-API-Key" = "" ∨
        (RateLimiter.Allow s.clientRL (r.header "X-API-Key")).1 = true) →
      (Start.handler mux s r).1 = (mux s.next.1 r).1 ∧
        (Start.handler mux s r).2.2.next.1 = (mux s.next.1 r).2 ∧
        (Start.handler mux s r).2.2.next.2
          = s.next.2 ++ (LogRecord.infof "incoming request: %s %s" ::
            if (mux s.next.1 r).1 = Response.aborted then []
            else [LogRecord.infof "completed %s %s in %v"])) := by
  have hlog : (loggingMiddleware mux s.next r).1 = (mux s.next.1 r).1 ∧
      (loggingMiddleware mux s.next r).2.1 = (mux s.next.1 r).2 ∧
      (loggingMiddleware mux s.next r).2.2
        = s.next.2 ++ (LogRecord.infof "incoming request: %s %s" ::
          if (mux s.next.1 r).1 = Response.aborted then []
          else [LogRecord.infof "completed %s %s in %v"]) := by
    unfold loggingMiddleware
    cases h : (mux s.next.1 r).1 <;> simp [h]
  refine ⟨?_, ?_, ?_⟩
  · intro hg
    simp [Start.handler, rateLimitMiddleware, hg]
  · intro hg hk hc
    simp [Start.handler, rateLimitMiddleware, hg, hk, hc]
  · intro hg hc
    by_cases hk : r.header "X-API-Key" = ""
    · simpa [Start.handler, rateLimitMiddleware, hg, hk] using hlog
    · have hc1 : (RateLimiter.Allow s.clientRL (r.header "X-API-Key")).1 = true := by
        rcases hc with hc | hc
        · exact absurd hc hk
        · exact hc
      simpa [Start.handler, rateLimitMiddleware, hg, hk, hc1] using hlog

/-- Witness for C24 (amended): a request without API key on the default chain
passes the limiters and is logged on entry and on completion. -/
theorem start_chain_logging_witness :
    (Start.handler (fun (_ : Unit) _ => (Response.upstream 200 "ok", ()))
        (⟨NewTokenBucketLimiter (F64.fin 100) (F64.fin 50) 1000000000,
          ⟨[], fun _ => none, false⟩, ((), [])⟩ :
          MiddlewareState TokenBucketLimiter DBManager (Unit × List LogRecord))
        ⟨"GET", "/foo", "10.0.0.1:5000", fun _ => ""⟩).2.2.next.2
      = [LogRecord.infof "incoming request: %s %s", LogRecord.infof "completed %s %s in %v"] := by
  have hle : F64.le (F64.fin 1) (F64.fin 100) = true := by
    simp only [F64.le]; norm_num
  have h := (start_chain_logging (fun (_ : Unit) _ => (Response.upstream 200 "ok", ()))
    (⟨NewTokenBucketLimiter (F64.fin 100) (F64.fin 50) 1000000000,
      ⟨[], fun _ => none, false⟩, ((), [])⟩ :
      MiddlewareState TokenBucketLimiter DBManager (Unit × List LogRecord))
    ⟨"GET", "/foo", "10.0.0.1:5000", fun _ => ""⟩).2.2
    (by simp [RateLimiter.Allow, TokenBucketLimiter.Allow, TokenBucketLimiter.loadOrStore,
      NewTokenBucketLimiter, hle])
    (Or.inl rfl)
  simpa using h.2.2

/-! ## Persistent client manager: the refill tick -/

/-- The value `Seconds` of 100 ms is the `float64` nearest to one tenth. -/
theorem Duration.Seconds_100ms : Duration.Seconds 100000000 = F64.fin F64.tenth := by
  have h0 : F64.ofInt 0 = F64.fin 0 := by simp [F64.ofInt, F64.round]
  have h8 : F64.ofInt 100000000 = F64.fin 100000000 := by
    have hc : ((100000000 : Int) : ℚ) = 100000000 := by norm_num
    unfold F64.ofInt
    rw [hc]
    exact F64.round_exact (by norm_num)
      ⟨100000000, 0, by norm_num, by norm_num, by norm_num, by norm_num⟩
  have hd : Int.tdiv 100000000 1000000000 = 0 := by
    rw [Int.tdiv_eq_ediv (by norm_num) (by norm_num)]; norm_num
  have hm : Int.tmod 100000000 1000000000 = 100000000 := by
    rw [Int.tmod_eq_emod (by norm_num) (by norm_num)]; norm_num
  have hq : F64.round ((100000000 : ℚ) / 1000000000)
      = F64.fin (3602879701896397 / 36028797018963968) := by
    have hr : rne (((100000000 : ℚ) / 1000000000) / (2 : ℚ) ^ ((-4 : Int) - 52))
        = 7205759403792794 := by
      have h := rne_eval_gt (x := ((100000000 : ℚ) / 1000000000) / (2 : ℚ) ^ ((-4 : Int) - 52))
        (f := 7205759403792793) (by norm_num) (by norm_num)
      rw [h]; norm_num
    rw [F64.round_eval (L := -4) (by norm_num) (by norm_num) (by norm_num) hr (by norm_num)]
    norm_num
  have hs : F64.round ((0 : ℚ) + 3602879701896397 / 36028797018963968)
      = F64.fin (3602879701896397 / 36028797018963968) := by
    have hr : rne (((0 : ℚ) + 3602879701896397 / 36028797018963968)
        / (2 : ℚ) ^ ((-4 : Int) - 52)) = 7205759403792794 := by
      exact rne_eval_lt (f := 7205759403792794) (by norm_num) (by norm_num)
    rw [F64.round_eval (L := -4) (by norm_num) (by norm_num) (by norm_num) hr (by norm_num)]
    norm_num
  unfold Duration.Seconds
  rw [hd, hm, h0, h8]
  simp only [F64.div]
  rw [if_neg (by norm_num), hq]
  simp only [F64.add]
  unfold F64.tenth
  exact hs

/-- C26 fails on the code: for the client configuration of
`TestSQLitePersistence` (capacity 4, refill rate 2, interval 100 ms) one refill
tick raises an empty bucket to `2 * 0.1` tokens (in `float64`), not to
`min(Capacity, 2)`: the tick adds `RefillRate * RefillInterval.Seconds()`,
whereas the comment on the field `RefillRate` of `ClientConfig` gives it as the
number of tokens added per interval. -/
theorem manager_refill_scaled :
    (tokenBucketClient.refill
        ⟨⟨F64.fin 4, F64.fin 2, 100000000, F64.fin 0⟩, F64.fin 0, false⟩).tokens
      = F64.fin (3602879701896397 / 18014398509481984)
    ∧ F64.fin (3602879701896397 / 18014398509481984) ≠ F64.min (F64.fin 4) (F64.fin 2) := by
  have hm : F64.round ((2 : ℚ) * (3602879701896397 / 36028797018963968))
      = F64.fin (3602879701896397 / 18014398509481984) := by
    have hr : rne (((2 : ℚ) * (3602879701896397 / 36028797018963968))
        / (2 : ℚ) ^ ((-3 : Int) - 52)) = 7205759403792794 := by
      exact rne_eval_lt (f := 7205759403792794) (by norm_num) (by norm_num)
    rw [F64.round_eval (L := -3) (by norm_num) (by norm_num) (by norm_num) hr (by norm_num)]
    norm_num
  have ha : F64.round ((0 : ℚ) + 3602879701896397 / 18014398509481984)
      = F64.fin (3602879701896397 / 18014398509481984) := by
    have hr : rne (((0 : ℚ) + 3602879701896397 / 18014398509481984)
        / (2 : ℚ) ^ ((-3 : Int) - 52)) = 7205759403792794 := by
      exact rne_eval_lt (f := 7205759403792794) (by norm_num) (by norm_num)
    rw [F64.round_eval (L := -3) (by norm_num) (by norm_num) (by norm_num) hr (by norm_num)]
    norm_num
  have hmul : F64.mul (F64.fin 2) (F64.fin F64.tenth)
      = F64.fin (3602879701896397 / 18014398509481984) := by
    unfold F64.tenth
    simp only [F64.mul]
    exact hm
  have hadd : F64.add (F64.fin 0) (F64.fin (3602879701896397 / 18014398509481984))
      = F64.fin (3602879701896397 / 18014398509481984) := by
    simp only [F64.add]
    exact ha
  have hlt : F64.lt (F64.fin 4) (F64.fin (3602879701896397 / 18014398509481984)) = false := by
    simp only [F64.lt]; norm_num
  constructor
  · simp only [tokenBucketClient.refill, Duration.Seconds_100ms]
    rw [hmul, hadd, hlt]
    rfl
  · simp only [F64.min, F64.lt]
    norm_num

/-- What a refill tick of the client manager computes: the tokens of a
registered, running client become
`min(Capacity, tokens + RefillRate * RefillInterval.Seconds())`, all in
`float64` (for a capacity that is not `NaN`), and neither another client nor
the durable table is touched. With a one-second interval the amount added is
`RefillRate` itself, when the rate and the sum are non-negative `float64`
values. -/
theorem DBManager.refillTick_spec (m : DBManager) (id : String) (tb : tokenBucketClient)
    (hreg : m.clients id = some tb) (hrun : tb.stopClosed = false)
    (hcap : tb.config.Capacity ≠ F64.nan) :
    (m.refillTick id).clients id
        = some ⟨tb.config, F64.min tb.config.Capacity (F64.add tb.tokens
            (F64.mul tb.config.RefillRate (Duration.Seconds tb.config.RefillInterval))), false⟩ ∧
    (∀ k, k ≠ id → (m.refillTick id).clients k = m.clients k) ∧
    (m.refillTick id).db = m.db ∧
    (∀ t rate : ℚ, tb.config.RefillInterval = 1000000000 → tb.tokens = F64.fin t →
      tb.config.RefillRate = F64.fin rate → 0 ≤ rate → IsF64 rate → 0 ≤ t + rate →
      IsF64 (t + rate) →
      (m.refillTick id).clients id
        = some ⟨tb.config, F64.min tb.config.Capacity (F64.fin (t + rate)), false⟩) := by
  have hmin := TokenBucketLimiter.refillBucket_eq_min
    ⟨tb.config.Capacity,
      F64.mul tb.config.RefillRate (Duration.Seconds tb.config.RefillInterval),
      tb.config.RefillInterval, fun _ => none⟩ hcap tb.tokens
  have hstep : (m.refillTick id).clients id
      = some ⟨tb.config, F64.min tb.config.Capacity (F64.add tb.tokens
          (F64.mul tb.config.RefillRate (Duration.Seconds tb.config.RefillInterval))), false⟩ := by
    simp only [DBManager.refillTick, hreg, hrun, Bool.false_eq_true, if_false, if_true,
      tokenBucketClient.refill]
    simp only [TokenBucketLimiter.refillBucket] at hmin
    rw [hmin]
  refine ⟨hstep, ?_, ?_, ?_⟩
  · intro k hk
    simp [DBManager.refillTick, hreg, hrun, hk]
  · simp [DBManager.refillTick, hreg, hrun]
  · intro t rate hint ht hrate hr0 hrrep hs0 hsrep
    rw [hstep, hint, Duration.Seconds_one_second, ht, hrate]
    have h1 : F64.mul (F64.fin rate) (F64.fin 1) = F64.fin rate := by
      simp only [F64.mul, mul_one]
      exact F64.round_exact hr0 hrrep
    have h2 : F64.add (F64.fin t) (F64.fin rate) = F64.fin (t + rate) := by
      simp only [F64.add]
      exact F64.round_exact hs0 hsrep
    rw [h1, h2]

/-- A refill tick with a one-second interval: a running client with capacity 4
and rate 2, holding no tokens. -/
theorem manager_refill_tick_one_second :
    (DBManager.refillTick
        ⟨[], fun k => if k = "u1" then
          some ⟨⟨F64.fin 4, F64.fin 2, 1000000000, F64.fin 0⟩, F64.fin 0, false⟩ else none,
          false⟩ "u1").clients "u1"
      = some ⟨⟨F64.fin 4, F64.fin 2, 1000000000, F64.fin 0⟩,
          F64.min (F64.fin 4) (F64.fin (0 + 2)), false⟩ :=
  (DBManager.refillTick_spec
    ⟨[], fun k => if k = "u1" then
      some ⟨⟨F64.fin 4, F64.fin 2, 1000000000, F64.fin 0⟩, F64.fin 0, false⟩ else none, false⟩
    "u1" ⟨⟨F64.fin 4, F64.fin 2, 1000000000, F64.fin 0⟩, F64.fin 0, false⟩ (by simp) rfl
    (by simp)).2.2.2 0 2 rfl rfl rfl (by norm_num)
    ⟨1, 1, by norm_num, by norm_num, by norm_num, by norm_num⟩ (by norm_num)
    ⟨1, 1, by norm_num, by norm_num, by norm_num, by norm_num⟩

/-! ## The dispatcher over the adaptive balancer: sequential requests -/

theorem rrBalancer.Next_servers (r : rrBalancer) : r.Next.2.servers = r.servers := by
  unfold rrBalancer.Next
  split_ifs <;> rfl

theorem lcBalancer.lc_inc_dec_fresh (servers : List String) (s : String) :
    lcBalancer.Decrease (lcBalancer.Increase (NewLeastConnBalancer servers) s) s
      = NewLeastConnBalancer servers := by
  by_cases hs : s ∈ servers
  · simp only [NewLeastConnBalancer, lcBalancer.Increase, lcBalancer.Decrease, hs, if_true]
    congr 1
    funext t
    by_cases ht : t = s
    · subst ht
      simp [hs, wrapInt64]
    · simp [ht]
  · simp [NewLeastConnBalancer, lcBalancer.Increase, lcBalancer.Decrease, hs]

theorem p2cBalancer.p2c_inc_dec_fresh (servers : List String) (g : Rand) (s : String) :
    p2cBalancer.Decrease (p2cBalancer.Increase (NewP2CBalancer servers g) s) s
      = NewP2CBalancer servers g := by
  by_cases h0 : s = ""
  · simp [p2cBalancer.Increase, p2cBalancer.Decrease, h0]
  by_cases hs : s ∈ servers
  · simp only [NewP2CBalancer, p2cBalancer.Increase, p2cBalancer.Decrease, hs, if_true, h0,
      if_false]
    congr 1
    funext t
    by_cases ht : t = s
    · subst ht
      simp [hs, wrapInt64]
    · simp [ht]
  · simp [NewP2CBalancer, p2cBalancer.Increase, p2cBalancer.Decrease, hs, h0]

/-- On a freshly constructed least-connections balancer `Next` returns. -/
theorem lcBalancer.lc_Next_fresh (servers : List String) :
    ∃ s, (NewLeastConnBalancer servers).Next = some s := by
  by_cases hne : servers = []
  · subst hne
    exact ⟨"", rfl⟩
  · obtain ⟨best, _, _, _, h, _⟩ := lcBalancer.Next_split (NewLeastConnBalancer servers) hne
      (by
        intro s hs
        simp only [NewLeastConnBalancer] at hs ⊢
        exact ⟨0, by simp [hs], le_refl _⟩)
    exact ⟨best, h⟩

/-- With zero counters and every backend admissible, `Next` of the P2C
balancer returns, and leaves a balancer in the same condition with an advanced
generator. -/
theorem p2cBalancer.p2c_Next_fresh (servers : List String) (g : Rand) :
    ∃ s g1, (NewP2CBalancer servers g).Next = some (s, NewP2CBalancer servers g1) := by
  have hh : (NewP2CBalancer servers g).getHealthyServers = servers := by
    simp only [p2cBalancer.getHealthyServers, NewP2CBalancer]
    show List.filter _ servers = servers
    rw [List.filter_eq_self]
    intro s hs
    simp [hs]
  by_cases h0 : servers.length = 0
  · refine ⟨"", g, ?_⟩
    simp [p2cBalancer.Next, hh, h0]
  by_cases h1 : servers.length = 1
  · have hpos : 0 < servers.length := Nat.pos_of_ne_zero h0
    refine ⟨servers.get ⟨0, hpos⟩, g, ?_⟩
    simp only [p2cBalancer.Next, hh, if_neg h0, if_pos h1]
    rw [List.get?_eq_get hpos]
    rfl
  · have hpos : 0 < servers.length := Nat.pos_of_ne_zero h0
    obtain ⟨hp1, hp2⟩ := p2cBalancer.pick_lt g _ hpos
    have hm1 : servers.get ⟨_, hp1⟩ ∈ servers := List.get_mem _ _ _
    have hm2 : servers.get ⟨_, hp2⟩ ∈ servers := List.get_mem _ _ _
    refine ⟨servers.get ⟨_, hp1⟩, (p2cBalancer.pick g servers.length).2.2, ?_⟩
    simp only [p2cBalancer.Next, hh, if_neg h0, if_neg h1]
    have e1 : (NewP2CBalancer servers g).rand = g := rfl
    rw [e1, List.get?_eq_get hp1, List.get?_eq_get hp2]
    simp [NewP2CBalancer, hm1, hm2]

/-- The handler of `Proxy.Handler` over the adaptive balancer, once `Next` has
returned `s`: the reply and calls of `Proxy.served`, and the balancer after the
`Increase` and the deferred `Decrease` of `s`. -/
theorem Proxy.Handler_adaptive (p : Proxy Adaptive) (env : ProxyEnv) (r : Request) (s : String)
    (b1 : Adaptive) (hca : p.connAware = some (inferInstance : ConnAware Adaptive))
    (h : AdaptiveBalancer.Next p.balancer = some (s, b1)) :
    p.Handler env r = some ((Proxy.served env s r).1, (Proxy.served env s r).2,
      ⟨if s = "" then b1 else AdaptiveBalancer.Decrease (AdaptiveBalancer.Increase b1 s) s,
        some (inferInstance : ConnAware Adaptive)⟩) := by
  have h1 : Balancer.Next p.balancer = some (s, b1) := h
  unfold Proxy.Handler
  rw [h1]
  by_cases hs : s = ""
  · simp [hs, Proxy.served, hca]
  · simp only [hs, if_false, hca, Proxy.served]
    rfl

/-- The `Increase` and `Decrease` of one request cancel on an idle adaptive
balancer. -/
theorem AdaptiveBalancer.inc_dec_idle (servers : List String) (rr : rrBalancer) (g : Rand)
    (low high i : Int) (s : String) :
    AdaptiveBalancer.Decrease (AdaptiveBalancer.Increase
        (⟨rr, NewLeastConnBalancer servers, NewP2CBalancer servers g, low, high, i⟩ : Adaptive) s) s
      = ⟨rr, NewLeastConnBalancer servers, NewP2CBalancer servers g, low, high, i⟩ := by
  simp only [AdaptiveBalancer.Decrease, AdaptiveBalancer.Increase, ConnAware.Increase,
    ConnAware.Decrease, lcBalancer.lc_inc_dec_fresh, p2cBalancer.p2c_inc_dec_fresh]

/-- A request served in the round-robin band by an idle dispatcher. -/
theorem Proxy.Handler_idle_rr (servers : List String) (low high : Int) (k : Nat) (g : Rand)
    (i : Int) (env : ProxyEnv) (r : Request) (hlow : i < low) :
    (idleProxy servers low high k g i).Handler env r
      = some ((Proxy.served env (rrBalancer.Next ⟨servers, k⟩).1 r).1,
          (Proxy.served env (rrBalancer.Next ⟨servers, k⟩).1 r).2,
          idleProxy servers low high (rrBalancer.Next ⟨servers, k⟩).2.idx g (wrapInt64 (i + 1))) := by
  have hn : AdaptiveBalancer.Next (idleProxy servers low high k g i).balancer
      = some ((rrBalancer.Next ⟨servers, k⟩).1,
          ⟨⟨servers, (rrBalancer.Next ⟨servers, k⟩).2.idx⟩, NewLeastConnBalancer servers,
            NewP2CBalancer servers g, low, high, wrapInt64 (i + 1)⟩) := by
    have hs := rrBalancer.Next_servers ⟨servers, k⟩
    simp only [AdaptiveBalancer.Next, AdaptiveBalancer.choose, idleProxy, if_pos hlow,
      Balancer.Next, Option.map_some']
    congr 3
    cases hx : (rrBalancer.Next ⟨servers, k⟩).2 with
    | mk sv ix =>
      rw [hx] at hs
      simp only at hs
      rw [hs]
  rw [Proxy.Handler_adaptive _ env r _ _ rfl hn]
  simp only [AdaptiveBalancer.inc_dec_idle, ite_self]
  rfl

/-- A request served in the P2C band by an idle dispatcher. -/
theorem Proxy.Handler_idle_p2c (servers : List String) (low high : Int) (k : Nat) (g g1 : Rand)
    (i : Int) (env : ProxyEnv) (r : Request) (s : String) (hlow : ¬ i < low) (hhigh : i < high)
    (hnext : (NewP2CBalancer servers g).Next = some (s, NewP2CBalancer servers g1)) :
    (idleProxy servers low high k g i).Handler env r
      = some ((Proxy.served env s r).1, (Proxy.served env s r).2,
          idleProxy servers low high k g1 (wrapInt64 (i + 1))) := by
  have hn : AdaptiveBalancer.Next (idleProxy servers low high k g i).balancer
      = some (s, ⟨⟨servers, k⟩, NewLeastConnBalancer servers, NewP2CBalancer servers g1, low, high,
          wrapInt64 (i + 1)⟩) := by
    simp only [AdaptiveBalancer.Next, AdaptiveBalancer.choose, idleProxy, if_neg hlow,
      if_pos hhigh, Balancer.Next, hnext, Option.map_some']
  rw [Proxy.Handler_adaptive _ env r _ _ rfl hn]
  simp only [AdaptiveBalancer.inc_dec_idle, ite_self]
  rfl

/-- A request served in the least-connections band by an idle dispatcher. -/
theorem Proxy.Handler_idle_lc (servers : List String) (low high : Int) (k : Nat) (g : Rand)
    (i : Int) (env : ProxyEnv) (r : Request) (s : String) (hlow : ¬ i < low) (hhigh : ¬ i < high)
    (hnext : (NewLeastConnBalancer servers).Next = some s) :
    (idleProxy servers low high k g i).Handler env r
      = some ((Proxy.served env s r).1, (Proxy.served env s r).2,
          idleProxy servers low high k g (wrapInt64 (i + 1))) := by
  have hn : AdaptiveBalancer.Next (idleProxy servers low high k g i).balancer
      = some (s, ⟨⟨servers, k⟩, NewLeastConnBalancer servers, NewP2CBalancer servers g, low, high,
          wrapInt64 (i + 1)⟩) := by
    simp only [AdaptiveBalancer.Next, AdaptiveBalancer.choose, idleProxy, if_neg hlow,
      if_neg hhigh, Balancer.Next, hnext, Option.map_some']
  rw [Proxy.Handler_adaptive _ env r _ _ rfl hn]
  simp only [AdaptiveBalancer.inc_dec_idle, ite_self]
  rfl

/-- Every request served by an idle dispatcher leaves it idle, with the
in-flight counter one higher. -/
theorem Proxy.Handler_idle (servers : List String) (low high : Int) (k : Nat) (g : Rand)
    (i : Int) (env : ProxyEnv) (r : Request) :
    ∃ s k1 g1, (idleProxy servers low high k g i).Handler env r
        = some ((Proxy.served env s r).1, (Proxy.served env s r).2,
          idleProxy servers low high k1 g1 (wrapInt64 (i + 1))) ∧
      (i < low → s = (rrBalancer.Next ⟨servers, k⟩).1) ∧
      (¬ i < low → i < high → ((NewP2CBalancer servers g).Next).map Prod.fst = some s) ∧
      (¬ i < low → ¬ i < high → (NewLeastConnBalancer servers).Next = some s) := by
  by_cases hlow : i < low
  · exact ⟨_, _, _, Proxy.Handler_idle_rr servers low high k g i env r hlow, fun _ => rfl,
      fun h => absurd hlow h, fun h => absurd hlow h⟩
  · by_cases hhigh : i < high
    · obtain ⟨s, g1, hn⟩ := p2cBalancer.p2c_Next_fresh servers g
      exact ⟨s, k, g1, Proxy.Handler_idle_p2c servers low high k g g1 i env r s hlow hhigh hn,
        fun h => absurd h hlow, fun _ _ => by rw [hn]; rfl, fun _ h => absurd hhigh h⟩
    · obtain ⟨s, hn⟩ := lcBalancer.lc_Next_fresh servers
      exact ⟨s, k, g, Proxy.Handler_idle_lc servers low high k g i env r s hlow hhigh hn,
        fun h => absurd h hlow, fun _ h => absurd h hhigh, fun _ _ => hn⟩

/-- Serving one more request after a sequence: the handler runs on the state
the sequence left. -/
theorem Proxy.serve_snoc {σ : Type} [Balancer σ] (env : ProxyEnv) (pre : List Request)
    (r : Request) (p : Proxy σ) :
    Proxy.serve env p (pre ++ [r])
      = match Proxy.serve env p pre with
        | none => none
        | some x =>
          match x.2.Handler env r with
          | none => none
          | some o => some (x.1 ++ [(o.1, o.2.1)], o.2.2) := by
  induction pre generalizing p with
  | nil =>
    simp only [List.nil_append, Proxy.serve]
  | cons q qs ih =>
    simp only [List.cons_append, Proxy.serve]
    cases h : p.Handler env q with
    | none => rfl
    | some out =>
      simp only []
      have e : qs.append [r] = qs ++ [r] := rfl
      rw [e, ih]
      cases h1 : Proxy.serve env out.2.2 qs with
      | none => rfl
      | some x =>
        simp only []
        cases h2 : x.2.Handler env r <;> simp

/-- Requests served one after another by the dispatcher over a freshly built
adaptive balancer all complete, and leave it idle with the in-flight counter at
the number of requests served (as an `int64`). -/
theorem Proxy.serve_adaptive_idle (servers : List String) (seed : Rand) (low high : Int)
    (env : ProxyEnv) (rs : List Request) :
    ∃ outs k g, Proxy.serve env (NewAdaptiveProxy servers seed low high) rs
        = some (outs, idleProxy servers low high k g (wrapInt64 rs.length)) ∧
      outs.length = rs.length := by
  induction rs using List.reverseRecOn with
  | nil => exact ⟨[], 0, seed, rfl, rfl⟩
  | append_singleton pre r ih =>
    obtain ⟨outs, k, g, hrun, hlen⟩ := ih
    obtain ⟨s, k1, g1, hstep, _⟩ :=
      Proxy.Handler_idle servers low high k g (wrapInt64 pre.length) env r
    refine ⟨outs ++ [Proxy.served env s r], k1, g1, ?_, by simp [hlen]⟩
    rw [Proxy.serve_snoc, hrun]
    simp only [hstep]
    have e : wrapInt64 (wrapInt64 (pre.length : Int) + 1)
        = wrapInt64 (((pre ++ [r]).length : Nat) : Int) := by
      rw [wrapInt64_succ]
      simp
    rw [e]

/-- C21 fails on the code: after any number of requests served one after
another by the dispatcher over a freshly built adaptive balancer, with every
request completed and every connection counter back at zero, the in-flight
counter holds the number of requests served (as an `int64`), not zero: the
handler calls `Next`, `Increase` and `Decrease` and never `Done`. -/
theorem proxy_in_flight_grows (servers : List String) (seed : Rand) (low high : Int)
    (env : ProxyEnv) (rs : List Request) :
    ∃ outs p, Proxy.serve env (NewAdaptiveProxy servers seed low high) rs = some (outs, p) ∧
      outs.length = rs.length ∧
      p.balancer.active = wrapInt64 rs.length ∧
      (rs.length < 2 ^ 63 → p.balancer.active = rs.length) ∧
      (0 < rs.length → rs.length < 2 ^ 63 → p.balancer.active ≠ 0) ∧
      p.balancer.lc = NewLeastConnBalancer servers ∧
      (∀ s ∈ servers, p.balancer.p2c.counts s = some 0) := by
  obtain ⟨outs, k, g, hrun, hlen⟩ := Proxy.serve_adaptive_idle servers seed low high env rs
  have hact : rs.length < 2 ^ 63 → wrapInt64 (rs.length : Int) = rs.length := by
    intro h
    exact wrapInt64_of_range _ (by have := Int.natCast_nonneg rs.length; omega)
      (by exact_mod_cast h)
  refine ⟨outs, _, hrun, hlen, rfl, hact, ?_, rfl, ?_⟩
  · intro hpos hlt
    show wrapInt64 (rs.length : Int) ≠ 0
    rw [hact hlt]
    exact_mod_cast Nat.pos_iff_ne_zero.mp hpos
  · intro s hs
    simp [idleProxy, NewP2CBalancer, hs]

/-! ### The scenario of `TestIntegration_AdaptiveModes` -/

theorem list_length_succ {α : Type} {l : List α} {n : Nat} (h : l.length = n + 1) :
    ∃ a t, l = a :: t ∧ t.length = n := by
  cases l with
  | nil => simp at h
  | cons a t => exact ⟨a, t, rfl, by simpa using h⟩

theorem Proxy.results_nil {σ : Type} [Balancer σ] (env : ProxyEnv) (p : Proxy σ) :
    Proxy.results env p [] = some [] := rfl

theorem Proxy.results_cons {σ : Type} [Balancer σ] (env : ProxyEnv) (p p1 : Proxy σ)
    (r : Request) (rs : List Request) (resp : Response) (ev : List ProxyEvent)
    (h : p.Handler env r = some (resp, ev, p1)) :
    Proxy.results env p (r :: rs) = (Proxy.results env p1 rs).map fun l => resp.body :: l := by
  simp only [Proxy.results, Proxy.serve, h]
  cases h1 : Proxy.serve env p1 rs <;> simp

theorem Proxy.served_echo (s : String) (r : Request) (hs : s ≠ "") :
    (Proxy.served echoEnv s r).1 = Response.upstream 200 s := by
  simp [Proxy.served, hs, Proxy.forward, echoEnv]

theorem backendName_ne (i : Nat) : backendName i ≠ "" := by
  unfold backendName
  split_ifs <;> decide

/-- Round robin over `[B1, B2]`. -/
theorem rrBalancer.rr_Next_two (k : Nat) (hk : k + 1 < 2 ^ 64) :
    rrBalancer.Next ⟨["B1", "B2"], k⟩ = (backendName ((k + 1) % 2), ⟨["B1", "B2"], k + 1⟩) := by
  have h64 : (k + 1) % 2 ^ 64 = k + 1 := Nat.mod_eq_of_lt hk
  unfold rrBalancer.Next
  simp only [List.length_cons, List.length_nil, Nat.reduceAdd, OfNat.ofNat_ne_zero, dite_false,
    h64]
  rcases Nat.mod_two_eq_zero_or_one (k + 1) with h | h
  · simp [h, backendName]
  · simp [h, backendName]

/-- P2C over `[B1, B2]`, both admissible with zero counters: the first
candidate is returned. -/
theorem p2cBalancer.p2c_Next_two (g : Rand) :
    (NewP2CBalancer ["B1", "B2"] g).Next
      = some (backendName (p2cBalancer.pick g 2).1,
          NewP2CBalancer ["B1", "B2"] (p2cBalancer.pick g 2).2.2) := by
  have hh : (NewP2CBalancer ["B1", "B2"] g).getHealthyServers = ["B1", "B2"] := by
    simp [p2cBalancer.getHealthyServers, NewP2CBalancer]
  obtain ⟨hp1, hp2⟩ := p2cBalancer.pick_lt g 2 (by norm_num)
  have e1 : (NewP2CBalancer ["B1", "B2"] g).rand = g := rfl
  simp only [p2cBalancer.Next, hh, List.length_cons, List.length_nil, Nat.reduceAdd,
    OfNat.ofNat_ne_zero, if_false, e1]
  generalize (p2cBalancer.pick g 2).1 = a at hp1 ⊢
  generalize (p2cBalancer.pick g 2).2.1 = b at hp2 ⊢
  generalize (p2cBalancer.pick g 2).2.2 = g1
  interval_cases a <;> interval_cases b <;> simp [NewP2CBalancer, backendName]

/-- Least connections over `[B1, B2]` with zero counters. -/
theorem lcBalancer.lc_Next_two : (NewLeastConnBalancer ["B1", "B2"]).Next = some "B1" := by
  simp [lcBalancer.Next, lcBalancer.scan, NewLeastConnBalancer]

theorem Proxy.results_rr (k : Nat) (g : Rand) (i : Int) (r : Request) (rs : List Request)
    (hi : i < 5) (h0 : 0 ≤ i) (hk : k + 1 < 2 ^ 64) :
    Proxy.results echoEnv (idleProxy ["B1", "B2"] 5 10 k g i) (r :: rs)
      = (Proxy.results echoEnv (idleProxy ["B1", "B2"] 5 10 (k + 1) g (i + 1)) rs).map
          fun l => backendName ((k + 1) % 2) :: l := by
  have hstep := Proxy.Handler_idle_rr ["B1", "B2"] 5 10 k g i echoEnv r hi
  rw [rrBalancer.rr_Next_two k hk, wrapInt64_of_range _ (by omega) (by omega)] at hstep
  rw [Proxy.results_cons echoEnv _ _ r rs _ _ hstep,
    Proxy.served_echo _ _ (backendName_ne _)]
  rfl

theorem Proxy.results_p2c (k : Nat) (g : Rand) (i : Int) (r : Request) (rs : List Request)
    (hi : 5 ≤ i) (hi1 : i < 10) :
    Proxy.results echoEnv (idleProxy ["B1", "B2"] 5 10 k g i) (r :: rs)
      = (Proxy.results echoEnv
          (idleProxy ["B1", "B2"] 5 10 k (p2cBalancer.pick g 2).2.2 (i + 1)) rs).map
          fun l => backendName (p2cBalancer.pick g 2).1 :: l := by
  have hstep := Proxy.Handler_idle_p2c ["B1", "B2"] 5 10 k g _ i echoEnv r _ (by omega) hi1
    (p2cBalancer.p2c_Next_two g)
  rw [wrapInt64_of_range _ (by omega) (by omega)] at hstep
  rw [Proxy.results_cons echoEnv _ _ r rs _ _ hstep,
    Proxy.served_echo _ _ (backendName_ne _)]
  rfl

theorem Proxy.results_lc (k : Nat) (g : Rand) (i : Int) (r : Request) (rs : List Request)
    (hi : 10 ≤ i) (hi1 : i + 1 < 2 ^ 63) :
    Proxy.results echoEnv (idleProxy ["B1", "B2"] 5 10 k g i) (r :: rs)
      = (Proxy.results echoEnv (idleProxy ["B1", "B2"] 5 10 k g (i + 1)) rs).map
          fun l => "B1" :: l := by
  have hstep := Proxy.Handler_idle_lc ["B1", "B2"] 5 10 k g i echoEnv r _ (by omega) (by omega)
    lcBalancer.lc_Next_two
  rw [wrapInt64_of_range _ (by omega) (by omega)] at hstep
  rw [Proxy.results_cons echoEnv _ _ r rs _ _ hstep,
    Proxy.served_echo _ _ (by decide)]
  rfl

/-- The 15 results of `TestIntegration_AdaptiveModes`, for every seed of the
P2C generator: five by round robin, five first candidates of P2C, five times
the first backend. -/
theorem Proxy.results_adaptive_modes (seed : Rand) (rs : List Request) (h : rs.length = 15) :
    Proxy.results echoEnv (NewAdaptiveProxy ["B1", "B2"] seed 5 10) rs
      = some (["B2", "B1", "B2", "B1", "B2"]
          ++ (p2cBalancer.firstPicks 2 5 seed).map backendName
          ++ ["B1", "B1", "B1", "B1", "B1"]) := by
  obtain ⟨r0, rs0, rfl, h0⟩ := list_length_succ h
  obtain ⟨r1, rs1, rfl, h1⟩ := list_length_succ h0
  obtain ⟨r2, rs2, rfl, h2⟩ := list_length_succ h1
  obtain ⟨r3, rs3, rfl, h3⟩ := list_length_succ h2
  obtain ⟨r4, rs4, rfl, h4⟩ := list_length_succ h3
  obtain ⟨r5, rs5, rfl, h5⟩ := list_length_succ h4
  obtain ⟨r6, rs6, rfl, h6⟩ := list_length_succ h5
  obtain ⟨r7, rs7, rfl, h7⟩ := list_length_succ h6
  obtain ⟨r8, rs8, rfl, h8⟩ := list_length_succ h7
  obtain ⟨r9, rs9, rfl, h9⟩ := list_length_succ h8
  obtain ⟨r10, rs10, rfl, h10⟩ := list_length_succ h9
  obtain ⟨r11, rs11, rfl, h11⟩ := list_length_succ h10
  obtain ⟨r12, rs12, rfl, h12⟩ := list_length_succ h11
  obtain ⟨r13, rs13, rfl, h13⟩ := list_length_succ h12
  obtain ⟨r14, rs14, rfl, h14⟩ := list_length_succ h13
  have hnil : rs14 = [] := List.length_eq_zero.mp h14
  subst hnil
  have e0 : NewAdaptiveProxy ["B1", "B2"] seed 5 10 = idleProxy ["B1", "B2"] 5 10 0 seed 0 := rfl
  rw [e0]
  rw [Proxy.results_rr _ _ _ _ _ (by norm_num) (by norm_num) (by norm_num),
    Proxy.results_rr _ _ _ _ _ (by norm_num) (by norm_num) (by norm_num),
    Proxy.results_rr _ _ _ _ _ (by norm_num) (by norm_num) (by norm_num),
    Proxy.results_rr _ _ _ _ _ (by norm_num) (by norm_num) (by norm_num),
    Proxy.results_rr _ _ _ _ _ (by norm_num) (by norm_num) (by norm_num),
    Proxy.results_p2c _ _ _ _ _ (by norm_num) (by norm_num),
    Proxy.results_p2c _ _ _ _ _ (by norm_num) (by norm_num),
    Proxy.results_p2c _ _ _ _ _ (by norm_num) (by norm_num),
    Proxy.results_p2c _ _ _ _ _ (by norm_num) (by norm_num),
    Proxy.results_p2c _ _ _ _ _ (by norm_num) (by norm_num),
    Proxy.results_lc _ _ _ _ _ (by norm_num) (by norm_num),
    Proxy.results_lc _ _ _ _ _ (by norm_num) (by norm_num),
    Proxy.results_lc _ _ _ _ _ (by norm_num) (by norm_num),
    Proxy.results_lc _ _ _ _ _ (by norm_num) (by norm_num),
    Proxy.results_lc _ _ _ _ _ (by norm_num) (by norm_num),
    Proxy.results_nil]
  simp [p2cBalancer.firstPicks, backendName]

/-- C27. When requests are served strictly one after another by the dispatcher
over a freshly built adaptive balancer with thresholds `(low, high)`, the
request that follows `i` served requests (`i < 2^63`) finds the in-flight
counter at `i` and all connection counters at zero, and is routed by round
robin if `i < low`, by P2C if `low ≤ i < high` and by least connections if
`low ≤ i` and `high ≤ i` (that is, if `i ≥ high`, when `low ≤ high`). For
backends `[B1, B2]`, thresholds `(5, 10)` and 15 requests, `results[0..4]`
alternate (`B2, B1, B2, B1, B2`) and `results[10..14]` all equal `B1`, for every
seed of the P2C generator. -/
theorem adaptive_sequential_bands (servers : List String) (seed : Rand) (low high : Int)
    (env : ProxyEnv) (pre : List Request) (r : Request) (hN : pre.length < 2 ^ 63) :
    (∃ outs p s p1,
      Proxy.serve env (NewAdaptiveProxy servers seed low high) pre = some (outs, p) ∧
      outs.length = pre.length ∧
      p.balancer.active = pre.length ∧
      p.balancer.lc = NewLeastConnBalancer servers ∧
      (∃ g, p.balancer.p2c = NewP2CBalancer servers g) ∧
      p.balancer.rr.servers = servers ∧
      Proxy.serve env (NewAdaptiveProxy servers seed low high) (pre ++ [r])
        = some (outs ++ [Proxy.served env s r], p1) ∧
      ((pre.length : Int) < low → s = (rrBalancer.Next p.balancer.rr).1) ∧
      (low ≤ (pre.length : Int) → (pre.length : Int) < high →
        (p2cBalancer.Next p.balancer.p2c).map Prod.fst = some s) ∧
      (low ≤ (pre.length : Int) → high ≤ (pre.length : Int) →
        lcBalancer.Next p.balancer.lc = some s)) ∧
    (∀ (seed1 : Rand) (rs : List Request), rs.length = 15 →
      ∃ res, Proxy.results echoEnv (NewAdaptiveProxy ["B1", "B2"] seed1 5 10) rs = some res ∧
        res.length = 15 ∧
        res.take 5 = ["B2", "B1", "B2", "B1", "B2"] ∧
        res.drop 10 = ["B1", "B1", "B1", "B1", "B1"]) := by
  constructor
  · obtain ⟨outs, k, g, hrun, hlen⟩ := Proxy.serve_adaptive_idle servers seed low high env pre
    have hact : wrapInt64 (pre.length : Int) = pre.length :=
      wrapInt64_of_range _ (by have := Int.natCast_nonneg pre.length; omega)
        (by exact_mod_cast hN)
    rw [hact] at hrun
    obtain ⟨s, k1, g1, hstep, hrr, hp2c, hlc⟩ :=
      Proxy.Handler_idle servers low high k g (pre.length : Int) env r
    refine ⟨outs, _, s, idleProxy servers low high k1 g1 (wrapInt64 ((pre.length : Int) + 1)),
      hrun, hlen, rfl, rfl, ⟨g, rfl⟩, rfl, ?_, hrr,
      fun h1 h2 => hp2c (by omega) h2, fun h1 h2 => hlc (by omega) (by omega)⟩
    rw [Proxy.serve_snoc, hrun]
    simp only [hstep]
  · intro seed1 rs hlen
    refine ⟨_, Proxy.results_adaptive_modes seed1 rs hlen, ?_, ?_, ?_⟩
    · simp [p2cBalancer.firstPicks]
    · simp
    · simp [p2cBalancer.firstPicks]

/-- Witness for C27: the third of the test's requests, after two served. -/
theorem adaptive_sequential_bands_witness :
    ∃ outs p s p1,
      Proxy.serve echoEnv (NewAdaptiveProxy ["B1", "B2"] ⟨fun i => i, 0⟩ 5 10) [getFoo, getFoo]
        = some (outs, p) ∧
      outs.length = [getFoo, getFoo].length ∧
      p.balancer.active = ([getFoo, getFoo].length : Int) ∧
      p.balancer.lc = NewLeastConnBalancer ["B1", "B2"] ∧
      (∃ g, p.balancer.p2c = NewP2CBalancer ["B1", "B2"] g) ∧
      p.balancer.rr.servers = ["B1", "B2"] ∧
      Proxy.serve echoEnv (NewAdaptiveProxy ["B1", "B2"] ⟨fun i => i, 0⟩ 5 10)
          ([getFoo, getFoo] ++ [getFoo])
        = some (outs ++ [Proxy.served echoEnv s getFoo], p1) ∧
      ((([getFoo, getFoo].length : Nat) : Int) < 5 → s = (rrBalancer.Next p.balancer.rr).1) ∧
      ((5 : Int) ≤ ([getFoo, getFoo].length : Nat) → (([getFoo, getFoo].length : Nat) : Int) < 10 →
        (p2cBalancer.Next p.balancer.p2c).map Prod.fst = some s) ∧
      ((5 : Int) ≤ ([getFoo, getFoo].length : Nat) → (10 : Int) ≤ ([getFoo, getFoo].length : Nat) →
        lcBalancer.Next p.balancer.lc = some s) :=
  (adaptive_sequential_bands ["B1", "B2"] ⟨fun i => i, 0⟩ 5 10 echoEnv [getFoo, getFoo] getFoo
    (by norm_num)).1

theorem p2cBalancer.firstPicks_lt (n : Nat) (hn : 0 < n) (k : Nat) (g : Rand) :
    ∀ i ∈ p2cBalancer.firstPicks n k g, i < n := by
  induction k generalizing g with
  | zero => simp [p2cBalancer.firstPicks]
  | succ k ih =>
    intro i hi
    simp only [p2cBalancer.firstPicks, List.mem_cons] at hi
    rcases hi with hi | hi
    · rw [hi]; exact (p2cBalancer.pick_lt g n hn).1
    · exact ih _ i hi

/-- C28 as stated fails: with a generator whose draws are all 0, the five
results of the P2C band are all `B1`. -/
theorem adaptive_p2c_band_single :
    (Proxy.results echoEnv (NewAdaptiveProxy ["B1", "B2"] ⟨fun _ => 0, 0⟩ 5 10)
        (List.replicate 15 getFoo)).map (fun res => (res.drop 5).take 5)
      = some ["B1", "B1", "B1", "B1", "B1"] := by
  rw [Proxy.results_adaptive_modes _ _ (by simp)]
  simp [p2cBalancer.firstPicks, p2cBalancer.pick, Rand.Intn, backendName]

/-- C28, amended. In the adaptive scenario with thresholds `(5, 10)`, two
admissible backends `[B1, B2]` and 15 sequential requests, each of the five
results of the P2C band, `results[5..9]`, is `B1` or `B2`: it is the first of
the two candidates that P2C draws for that request, all counters being zero.
They include both `B1` and `B2` exactly when these first candidates are not all
the same index. -/
theorem adaptive_p2c_band (seed : Rand) (rs : List Request) (h : rs.length = 15) :
    ∃ res, Proxy.results echoEnv (NewAdaptiveProxy ["B1", "B2"] seed 5 10) rs = some res ∧
      (res.drop 5).take 5 = (p2cBalancer.firstPicks 2 5 seed).map backendName ∧
      (∀ x ∈ (res.drop 5).take 5, x = "B1" ∨ x = "B2") ∧
      (("B1" ∈ (res.drop 5).take 5 ∧ "B2" ∈ (res.drop 5).take 5) ↔
        (0 ∈ p2cBalancer.firstPicks 2 5 seed ∧ 1 ∈ p2cBalancer.firstPicks 2 5 seed)) := by
  have hband : ((["B2", "B1", "B2", "B1", "B2"]
      ++ (p2cBalancer.firstPicks 2 5 seed).map backendName
      ++ ["B1", "B1", "B1", "B1", "B1"]).drop 5).take 5
      = (p2cBalancer.firstPicks 2 5 seed).map backendName := by
    simp [p2cBalancer.firstPicks]
  have hlt := p2cBalancer.firstPicks_lt 2 (by norm_num) 5 seed
  refine ⟨_, Proxy.results_adaptive_modes seed rs h, hband, ?_, ?_⟩
  · rw [hband]
    intro x hx
    obtain ⟨i, _, rfl⟩ := List.mem_map.mp hx
    unfold backendName
    split_ifs
    · exact Or.inl rfl
    · exact Or.inr rfl
  · rw [hband]
    constructor
    · rintro ⟨h1, h2⟩
      obtain ⟨i, hi, hi1⟩ := List.mem_map.mp h1
      obtain ⟨j, hj, hj1⟩ := List.mem_map.mp h2
      have hi0 : i = 0 := by
        by_contra hne
        simp [backendName, hne] at hi1
      have hj0 : j = 1 := by
        have := hlt j hj
        by_contra hne
        have hj00 : j = 0 := by omega
        simp [backendName, hj00] at hj1
      exact ⟨hi0 ▸ hi, hj0 ▸ hj⟩
    · rintro ⟨h0, h1⟩
      exact ⟨List.mem_map.mpr ⟨0, h0, rfl⟩, List.mem_map.mpr ⟨1, h1, rfl⟩⟩

/-- Witness for C28 (amended): the 15 requests of the test with a generator
whose raw draws are 0, 0, 1, 1, 2, 2 and so on. -/
theorem adaptive_p2c_band_witness :
    ∃ res, Proxy.results echoEnv (NewAdaptiveProxy ["B1", "B2"] ⟨fun i => i / 2, 0⟩ 5 10)
        (List.replicate 15 getFoo) = some res ∧
      (res.drop 5).take 5
        = (p2cBalancer.firstPicks 2 5 ⟨fun i => i / 2, 0⟩).map backendName ∧
      (∀ x ∈ (res.drop 5).take 5, x = "B1" ∨ x = "B2") ∧
      (("B1" ∈ (res.drop 5).take 5 ∧ "B2" ∈ (res.drop 5).take 5) ↔
        (0 ∈ p2cBalancer.firstPicks 2 5 ⟨fun i => i / 2, 0⟩ ∧
          1 ∈ p2cBalancer.firstPicks 2 5 ⟨fun i => i / 2, 0⟩)) :=
  adaptive_p2c_band ⟨fun i => i / 2, 0⟩ (List.replicate 15 getFoo) (by simp)

/-! ## Admin API behind the router -/

theorem toList_clients_id (id : String) :
    ("/clients/" ++ id).toList
      = '/' :: 'c' :: 'l' :: 'i' :: 'e' :: 'n' :: 't' :: 's' :: '/' :: id.toList := by
  simp [String.toList, String.data_append]

/-- A request for `/clients/<id>` whose path is in canonical form is handed to
the handler of `/clients/`. -/
theorem Register.mux_client_path (mgr : Option DBManager) (r : AdminRequest) (dbOk : Bool)
    (id : String) (hp : r.path = "/clients/" ++ id) (hc : canonicalPath r.path = true) :
    Register.mux mgr r dbOk
      = (Register.clientByID mgr r dbOk).map fun x => (MuxReply.admin x.1, x.2) := by
  have hl : r.path.toList
      = '/' :: 'c' :: 'l' :: 'i' :: 'e' :: 'n' :: 't' :: 's' :: '/' :: id.toList := by
    rw [hp]; exact toList_clients_id id
  have hne : r.path ≠ "/clients" := by
    intro h
    have h1 := congrArg (fun s => s.toList.length) h
    simp only [hl] at h1
    simp at h1
  unfold Register.mux
  rw [if_neg (by simp [hc]), if_neg hne, hl]
  rfl

/-- A request whose path is not in canonical form is redirected by the router
and reaches no handler. -/
theorem Register.mux_redirect (mgr : Option DBManager) (r : AdminRequest) (dbOk : Bool)
    (hm : r.method ≠ "CONNECT") (hc : canonicalPath r.path = false) :
    Register.mux mgr r dbOk = some (MuxReply.redirect, mgr) := by
  unfold Register.mux
  rw [if_pos ⟨hm, hc⟩]

/-- C13 as stated fails, in two ways. For the registered client `u1`, a
`DELETE /clients/u1` whose durable delete fails is answered 404 and the client
stays registered (with its refill task stopped). For a client registered under
the id `..`, `DELETE /clients/..` is answered by the router with a redirect
and the client stays registered. -/
theorem delete_registered_refused :
    (Register.mux
        (some ⟨[], fun k => if k = "u1" then
          some ⟨⟨F64.fin 4, F64.fin 2, 100000000, F64.fin 0⟩, F64.fin 4, false⟩ else none,
          false⟩)
        ⟨"DELETE", "/clients/u1", "", none⟩ false).map
        (fun x => (x.1, x.2.map fun m => m.clients "u1"))
      = some (MuxReply.admin (AdminReply.error "\x7b\"error\":\"not found\"\x7d" 404),
          some (some ⟨⟨F64.fin 4, F64.fin 2, 100000000, F64.fin 0⟩, F64.fin 4, true⟩))
    ∧ (Register.mux
        (some ⟨[], fun k => if k = ".." then
          some ⟨⟨F64.fin 4, F64.fin 2, 100000000, F64.fin 0⟩, F64.fin 4, false⟩ else none,
          false⟩)
        ⟨"DELETE", "/clients/..", "", none⟩ true).map
        (fun x => (x.1, x.2.map fun m => m.clients ".."))
      = some (MuxReply.redirect,
          some (some ⟨⟨F64.fin 4, F64.fin 2, 100000000, F64.fin 0⟩, F64.fin 4, false⟩)) := by
  constructor
  · have hc : canonicalPath "/clients/u1" = true := by decide
    have hs : splitN3 "/clients/u1" = ["", "clients", "u1"] := splitN3_clients "u1"
    rw [Register.mux_client_path _ _ _ "u1" rfl hc]
    simp [Register.clientByID, hs, DBManager.RemoveClient]
  · have hc : canonicalPath "/clients/.." = false := by decide
    rw [Register.mux_redirect _ _ _ (by decide) hc]
    simp

/-- C13, amended. Take a `DELETE` request for `/clients/<id>`. When the path is
in canonical form (no empty, `.` or `..` segment) the router hands it to the
handler: for a registered client with a non-empty id whose refill task has not
been stopped, the response is 204 when the durable delete succeeds, that client
and no other is removed, and a following `GET /clients/<id>` responds 404; when
the durable delete fails the response is 404 and the client stays registered;
for an id that is not registered the response is 404 and the manager is
unchanged. When the path is not in canonical form the router answers with a
redirect and the manager is unchanged. -/
theorem delete_client (m : DBManager) (id : String) (r : AdminRequest)
    (hm : r.method = "DELETE") (hp : r.path = "/clients/" ++ id) :
    (canonicalPath r.path = true →
      ∀ tb, m.clients id = some tb → tb.stopClosed = false → id ≠ "" →
      ∃ m1, Register.mux (some m) r true
          = some (MuxReply.admin (AdminReply.status 204), some m1) ∧
        m1.clients id = none ∧ (∀ k, k ≠ id → m1.clients k = m.clients k) ∧
        ∀ dbOk, Register.mux (some m1) ⟨"GET", r.path, r.queryId, r.body⟩ dbOk
          = some (MuxReply.admin (AdminReply.error "\x7b\"error\":\"not found\"\x7d" 404),
              some m1)) ∧
    (canonicalPath r.path = true →
      ∀ tb, m.clients id = some tb → tb.stopClosed = false → id ≠ "" →
      ∃ m1, Register.mux (some m) r false
          = some (MuxReply.admin (AdminReply.error "\x7b\"error\":\"not found\"\x7d" 404),
              some m1) ∧
        m1.clients id = some ⟨tb.config, tb.tokens, true⟩ ∧
        (∀ k, k ≠ id → m1.clients k = m.clients k)) ∧
    (canonicalPath r.path = true → m.clients id = none → ∀ dbOk,
      ∃ msg, Register.mux (some m) r dbOk
        = some (MuxReply.admin (AdminReply.error msg 404), some m)) ∧
    (canonicalPath r.path = false → ∀ dbOk,
      Register.mux (some m) r dbOk = some (MuxReply.redirect, some m)) := by
  have hs : splitN3 r.path = ["", "clients", id] := by rw [hp]; exact splitN3_clients id
  refine ⟨?_, ?_, ?_, ?_⟩
  · intro hc tb htb hst hid
    refine ⟨⟨dbDelete m.db id, fun k => if k = id then none else m.clients k, m.stopAllClosed⟩,
      ?_, by simp, fun k hk => by simp [hk], ?_⟩
    · rw [Register.mux_client_path _ _ _ id hp hc]
      simp [Register.clientByID, hs, hid, hm, DBManager.RemoveClient, htb, hst]
    · intro dbOk
      rw [Register.mux_client_path _ ⟨"GET", r.path, r.queryId, r.body⟩ _ id hp hc]
      simp [Register.clientByID, hs, hid, DBManager.GetClient]
  · intro hc tb htb hst hid
    refine ⟨⟨m.db, fun k => if k = id then some ⟨tb.config, tb.tokens, true⟩ else m.clients k,
      m.stopAllClosed⟩, ?_, by simp, fun k hk => by simp [hk]⟩
    rw [Register.mux_client_path _ _ _ id hp hc]
    simp [Register.clientByID, hs, hid, hm, DBManager.RemoveClient, htb, hst]
  · intro hc hnone dbOk
    rw [Register.mux_client_path _ _ _ id hp hc]
    by_cases hid : id = ""
    · exact ⟨"not found", by simp [Register.clientByID, hs, hid]⟩
    · exact ⟨"\x7b\"error\":\"not found\"\x7d",
        by simp [Register.clientByID, hs, hid, hm, DBManager.RemoveClient, hnone]⟩
  · intro hc dbOk
    exact Register.mux_redirect _ _ _ (by rw [hm]; decide) hc

/-- Witness for C13 (amended): the client of `TestAPIClientCRUD`, deleted with
a working store. -/
theorem delete_client_witness :
    ∃ m1, Register.mux
        (some ⟨[], fun k => if k = "client1" then
          some ⟨⟨F64.fin 2, F64.fin 1, 100000000, F64.fin 0⟩, F64.fin 2, false⟩ else none,
          false⟩)
        ⟨"DELETE", "/clients/" ++ "client1", "", none⟩ true
          = some (MuxReply.admin (AdminReply.status 204), some m1) ∧
      m1.clients "client1" = none ∧
      (∀ k, k ≠ "client1" → m1.clients k
        = (if k = "client1" then
          some ⟨⟨F64.fin 2, F64.fin 1, 100000000, F64.fin 0⟩, F64.fin 2, false⟩ else none)) ∧
      ∀ dbOk, Register.mux (some m1) ⟨"GET", "/clients/" ++ "client1", "", none⟩ dbOk
        = some (MuxReply.admin (AdminReply.error "\x7b\"error\":\"not found\"\x7d" 404),
            some m1) :=
  (delete_client
    ⟨[], fun k => if k = "client1" then
      some ⟨⟨F64.fin 2, F64.fin 1, 100000000, F64.fin 0⟩, F64.fin 2, false⟩ else none, false⟩
    "client1" ⟨"DELETE", "/clients/" ++ "client1", "", none⟩ rfl rfl).1 (by decide)
    ⟨⟨F64.fin 2, F64.fin 1, 100000000, F64.fin 0⟩, F64.fin 2, false⟩ (by simp) rfl (by decide)

end LB
